import Mathlib

/-!
# Verification of the windy-civi toolkit incremental reconciliation engine

This file gives a shallow embedding of the `actions/format` pipeline
(entity routing, the bill action merge engine, the timestamp ledger,
the placeholder manager, the event-to-bill linking pipeline and the
orphan reconciliation pass) and proves or refutes the specified
properties about it.

Python dictionaries and directories are modelled as association lists
with insert-overwrite semantics; Python `datetime` values are modelled
as a six-component structure ordered lexicographically; fallible
parsing returns `Option`.
-/

namespace WindyCivi

/-! ## Association lists (the model of Python dicts and of directories) -/

/-- Insert-overwrite into an association list, replacing the first binding of
the key in place (the model of `d[k] = v` on a Python dict, and of writing a
file into a directory). -/
def dictInsert {K V : Type} [DecidableEq K] : List (K × V) → K → V → List (K × V)
  | [], k, v => [(k, v)]
  | (k', v') :: rest, k, v =>
    if k' = k then (k, v) :: rest else (k', v') :: dictInsert rest k v

/-- Lookup in an association list (`d.get(k)`). -/
def dictGet? {K V : Type} [DecidableEq K] (m : List (K × V)) (k : K) : Option V :=
  (m.find? (fun e => e.1 = k)).map (·.2)

/-- Remove all bindings of a key (`del d[k]` / deleting a file). -/
def dictErase {K V : Type} [DecidableEq K] (m : List (K × V)) (k : K) : List (K × V) :=
  m.filter (fun e => e.1 ≠ k)

/-! ## String helpers -/

/-- Substring containment on character lists (the model of Python `pat in hay`). -/
def containsSubChars (pat : List Char) : List Char → Bool
  | [] => pat.isEmpty
  | c :: rest => pat.isPrefixOf (c :: rest) || containsSubChars pat rest

/-- `pat in hay` on strings. -/
def containsSub (hay pat : String) : Bool :=
  containsSubChars pat.toList hay.toList

/-- Python `s.startswith(p)`. -/
def strStartsWith (s p : String) : Bool :=
  p.toList.isPrefixOf s.toList

/-- Python `s.endswith(p)`. -/
def strEndsWith (s p : String) : Bool :=
  p.toList.isSuffixOf s.toList

/-- The decimal digit character for a value below ten. -/
def charOfDigit (n : Nat) : Char :=
  ['0', '1', '2', '3', '4', '5', '6', '7', '8', '9'].getD n '0'

/-- The decimal digits of a number, most significant first; the timestamp
components the pipeline formats are at most four digits wide (`validDate`
caps the year at 9999), so wider numbers are outside the embedded domain. -/
def natDigits (n : Nat) : List Char :=
  if n < 10 then [charOfDigit n]
  else if n < 100 then [charOfDigit (n / 10), charOfDigit (n % 10)]
  else if n < 1000 then
    [charOfDigit (n / 100), charOfDigit (n / 10 % 10), charOfDigit (n % 10)]
  else
    [charOfDigit (n / 1000 % 10), charOfDigit (n / 100 % 10), charOfDigit (n / 10 % 10),
      charOfDigit (n % 10)]

/-- Left-pad a numeral with zeroes to width 2. -/
def pad2L (n : Nat) : List Char :=
  if n < 10 then '0' :: natDigits n else natDigits n

/-- Left-pad a numeral with zeroes to width 4. -/
def pad4L (n : Nat) : List Char :=
  if n < 10 then '0' :: '0' :: '0' :: natDigits n
  else if n < 100 then '0' :: '0' :: natDigits n
  else if n < 1000 then '0' :: natDigits n
  else natDigits n

/-- Left-pad a numeral with zeroes to width 2, as a string. -/
def pad2 (n : Nat) : String := String.mk (pad2L n)

/-- Left-pad a numeral with zeroes to width 4, as a string. -/
def pad4 (n : Nat) : String := String.mk (pad4L n)

/-- Strip all trailing `Z` characters (the model of Python `s.rstrip("Z")`). -/
def rstripZ (s : String) : String :=
  String.mk ((s.toList.reverse.dropWhile (fun c => c = 'Z')).reverse)

/-- Python `s.lower()` (character-wise, which is exact on the ASCII data the
pipeline handles). -/
def strToLower (s : String) : String :=
  String.mk (s.toList.map Char.toLower)

/-! ## Datetimes

Python `datetime` values are modelled as six natural-number components;
comparison is lexicographic, encoded through a single key so that it is
trivially decidable. All datetimes handled by the pipeline are parsed from
digit strings with in-range components, for which this order coincides with
`datetime` comparison. -/

structure DateTime where
  year : Nat
  month : Nat
  day : Nat
  hour : Nat
  minute : Nat
  second : Nat
  deriving DecidableEq, Repr

/-- Injective encoding of a datetime used for comparison. -/
def DateTime.key (d : DateTime) : Nat :=
  ((((d.year * 100 + d.month) * 100 + d.day) * 100 + d.hour) * 100 + d.minute) * 100 + d.second

/-- `a < b` on datetimes. -/
def dtLt (a b : DateTime) : Bool := a.key < b.key

/-- `datetime(1900, 1, 1)`, the ledger default. -/
def dt1900 : DateTime := ⟨1900, 1, 1, 0, 0, 0⟩

/-- Split a character list on a separator character (Python `s.split(sep)`
for the single-character separators the pipeline uses). -/
def splitOnChar (sep : Char) : List Char → List (List Char)
  | [] => [[]]
  | c :: rest =>
    match splitOnChar sep rest with
    | [] => [[]]
    | h :: t => if c = sep then [] :: h :: t else (c :: h) :: t

/-- The number denoted by a run of decimal digits. -/
def natFromDigits (l : List Char) : Nat :=
  l.foldl (fun n c => n * 10 + (c.toNat - '0'.toNat)) 0

/-- Parse a fixed-width run of digits into a number: `none` unless the run
has exactly the given length and is all digits. -/
def parseDigits (width : Nat) (l : List Char) : Option Nat :=
  if l.length = width ∧ l.all Char.isDigit then some (natFromDigits l) else none

/-- Range validation shared by the `strptime`/`fromisoformat` models. -/
def validDate (y mo d : Nat) : Bool :=
  1 ≤ mo && mo ≤ 12 && 1 ≤ d && d ≤ 31 && y ≤ 9999

/-- Range validation for the time components. -/
def validTime (h m s : Nat) : Bool :=
  h ≤ 23 && m ≤ 59 && s ≤ 59

/-- Parse `YYYY-MM-DD`. -/
def parseDatePart (l : List Char) : Option (Nat × Nat × Nat) :=
  match splitOnChar '-' l with
  | [ys, ms, ds] =>
    match parseDigits 4 ys, parseDigits 2 ms, parseDigits 2 ds with
    | some y, some mo, some d => if validDate y mo d then some (y, mo, d) else none
    | _, _, _ => none
  | _ => none

/-- Parse `HH:MM:SS`. -/
def parseTimePart (l : List Char) : Option (Nat × Nat × Nat) :=
  match splitOnChar ':' l with
  | [hs, ms, ss] =>
    match parseDigits 2 hs, parseDigits 2 ms, parseDigits 2 ss with
    | some h, some m, some sec => if validTime h m sec then some (h, m, sec) else none
    | _, _, _ => none
  | _ => none

/-- Model of Python `datetime.fromisoformat` on the shapes the pipeline
feeds it: `YYYY-MM-DD`, optionally followed by `THH:MM:SS`, optionally
suffixed `Z`. Everything else fails (raises, i.e. `none`). -/
def fromisoformat? (s : String) : Option DateTime :=
  let cs := s.toList
  let cs := if cs.getLast? = some 'Z' then cs.dropLast else cs
  match splitOnChar 'T' cs with
  | [d] => (parseDatePart d).map (fun (y, mo, da) => ⟨y, mo, da, 0, 0, 0⟩)
  | [d, t] =>
    match parseDatePart d, parseTimePart t with
    | some (y, mo, da), some (h, m, sec) => some ⟨y, mo, da, h, m, sec⟩
    | _, _ => none
  | _ => none

/-- `dt.strftime("%Y%m%dT%H%M%SZ")` as characters. -/
def strftimeCompactZL (d : DateTime) : List Char :=
  pad4L d.year ++ pad2L d.month ++ pad2L d.day ++
    'T' :: (pad2L d.hour ++ pad2L d.minute ++ pad2L d.second ++ ['Z'])

/-- `dt.strftime("%Y%m%dT%H%M%SZ")`. -/
def strftimeCompactZ (d : DateTime) : String :=
  String.mk (strftimeCompactZL d)

/-- `dt.strftime("%Y-%m-%dT%H:%M:%S")` (ledger file format) as characters. -/
def strftimeIsoL (d : DateTime) : List Char :=
  pad4L d.year ++ '-' :: (pad2L d.month ++ '-' :: (pad2L d.day ++
    'T' :: (pad2L d.hour ++ ':' :: (pad2L d.minute ++ ':' :: pad2L d.second))))

/-- `dt.strftime("%Y-%m-%dT%H:%M:%S")` (ledger file format). -/
def strftimeIso (d : DateTime) : String :=
  String.mk (strftimeIsoL d)

/-- `dt.strftime("%Y-%m-%dT%H:%M:%SZ")` (`get_current_timestamp`). -/
def strftimeIsoZ (d : DateTime) : String :=
  strftimeIso d ++ "Z"

/-- `dt.isoformat()` as used by `cleanup_placeholders` (`datetime.now().isoformat()`);
our datetimes carry no microseconds, so this is the plain ISO form. -/
def isoformatNoZ (d : DateTime) : String :=
  strftimeIso d

/-- `strptime(s, "%Y%m%dT%H%M%S")`: 8 digits, `T`, 6 digits. -/
def parseCompact (cs : List Char) : Option DateTime :=
  match splitOnChar 'T' cs with
  | [d, t] =>
    match parseDigits 4 (d.take 4), parseDigits 2 ((d.drop 4).take 2), parseDigits 2 (d.drop 6),
          parseDigits 2 (t.take 2), parseDigits 2 ((t.drop 2).take 2), parseDigits 2 (t.drop 4) with
    | some y, some mo, some da, some h, some m, some sec =>
      if validDate y mo da && validTime h m sec then some ⟨y, mo, da, h, m, sec⟩ else none
    | _, _, _, _, _, _ => none
  | _ => none

/-- `strptime(s, "%Y-%m-%dT%H:%M:%S")`. -/
def parseIsoT (cs : List Char) : Option DateTime :=
  match splitOnChar 'T' cs with
  | [d, t] =>
    match parseDatePart d, parseTimePart t with
    | some (y, mo, da), some (h, m, sec) => some ⟨y, mo, da, h, m, sec⟩
    | _, _ => none
  | _ => none

/-! ## Records and actions

Input records are parsed JSON dicts. The pipeline touches a fixed set of
keys; every other key is carried opaquely in `rest` and preserved verbatim
by all operations, mirroring how the handlers mutate only specific keys of
the Python dicts. Absent keys are `none`; `d.get(k, default)` is
`Option.getD`; Python falsiness of a string field is `none` or `some ""`. -/

/-- A single bill action (`actions[i]` in a bill record). `processing` models
the `_processing` map of the action dict. -/
structure Action where
  description : Option String := none
  date : Option String := none
  classification : List String := []
  organization_id : Option String := none
  processing : List (String × String) := []
  rest : String := ""
  deriving DecidableEq, Repr

/-- A parsed input record (bill, vote event, event, or anything else).
`bill_ids` is the list of bill identifiers an event references, in the
record's own order. `orig_filename` models the `_original_filename` key
that `record_error_file` sets. -/
structure Record where
  identifier : Option String := none
  legislative_session : Option String := none
  actions : List Action := []
  bill_identifier : Option String := none
  start_date : Option String := none
  result : Option String := none
  name : Option String := none
  organization : Option String := none
  bill_ids : List String := []
  processing : List (String × String) := []
  orig_filename : Option String := none
  rest : String := ""
  deriving DecidableEq, Repr

/-- Python falsiness of an optional string field (`not value`). -/
def falsy : Option String → Bool
  | none => true
  | some s => s.toList.isEmpty

/-! ## `processing_tracker.py` -/

/-- `create_action_identifier`: `f"{description}|{date}"` with missing keys
defaulting to `""`. -/
def create_action_identifier (action : Action) : String :=
  action.description.getD "" ++ "|" ++ action.date.getD ""

/-- `find_new_actions`: actions in the incoming list whose identifier does not
occur among the existing actions' identifiers. -/
def find_new_actions (existing_actions incoming_actions : List Action) : List Action :=
  incoming_actions.filter
    (fun action =>
      ¬ (existing_actions.map create_action_identifier).contains
          (create_action_identifier action))

/-- `merge_actions`: build a dict of existing actions keyed by identifier
(later duplicates overwrite earlier ones, as in the Python dict), then map
each incoming action to the existing copy when the identifier is present,
otherwise to the incoming copy. Order follows the incoming list. -/
def merge_actions (existing_actions incoming_actions : List Action) : List Action :=
  let existing_map := existing_actions.foldl
    (fun m action => dictInsert m (create_action_identifier action) action) []
  incoming_actions.map
    (fun action =>
      match dictGet? existing_map (create_action_identifier action) with
      | some e => e
      | none => action)

/-- `add_processing_timestamp` on an action: sets
`action["_processing"][field] = get_current_timestamp()` (dict update,
overwrite in place). -/
def add_processing_timestamp (action : Action) (field : String) (now : String) : Action :=
  { action with processing := dictInsert action.processing field now }

/-- `get_current_timestamp`: the ISO `Z` form of the current instant, which
the embedding threads through as an explicit `now` parameter. -/
def get_current_timestamp (now : DateTime) : String :=
  strftimeIsoZ now

/-- `compare_action_counts`: `(should_process, existing_count,
incoming_count)`. -/
def compare_action_counts (existing_metadata : Option Record) (incoming_data : Record) :
    Bool × Nat × Nat :=
  let incoming_count := incoming_data.actions.length
  match existing_metadata with
  | none => (true, 0, incoming_count)
  | some em =>
    let existing_count := em.actions.length
    (existing_count ≠ incoming_count, existing_count, incoming_count)

/-! ## The file tree

A bill folder is identified by `(session_id, folder_name)`; the tree of bill
folders, the per-session `events/` directories, the event archive and the
error sink are association lists keyed by path components. -/

/-- Session-metadata entry of `sessions.json` (`extract_session_mapping`). -/
structure SessionInfo where
  name : String
  date_folder : String
  deriving DecidableEq, Repr

/-- One tracked orphan (`orphaned_placeholders_tracking.json` entry). -/
structure OrphanRec where
  first_seen : String
  last_seen : String
  occurrence_count : Nat
  session : String
  vote_count : Nat
  event_count : Nat
  path : String
  deriving DecidableEq, Repr

/-- The content of one file in a bill's `logs/` directory. -/
inductive LogContent where
  | actionLog (action : Action) (bill_id : String)
  | voteLog (vote : Record)
  deriving DecidableEq, Repr

/-- One bill folder: `metadata.json`, `placeholder.json` (holding the
referenced identifier it was created with), and the `logs/` directory. -/
structure BillFolder where
  metadata : Option Record := none
  placeholder : Option String := none
  logs : List (String × LogContent) := []
  deriving DecidableEq, Repr

/-- Key of a bill folder: `(session_id, folder_name)`. -/
abbrev FKey := String × String

/-- The empty (freshly created) bill folder. -/
def emptyFolder : BillFolder := {}

/-- `build_bill_path`: the bill identifier loses its spaces to become the
folder name (`build_data_path` supplies the surrounding fixed components,
which the key abstracts). -/
def build_bill_key (session_id bill_identifier : String) : FKey :=
  (session_id, String.mk (bill_identifier.toList.filter (fun c => c ≠ ' ')))

/-- The path of a bill folder relative to the repo root, as recorded in the
orphan tracking file. -/
def bill_path_string (state_abbr : String) (k : FKey) : String :=
  "country:us/state:" ++ strToLower state_abbr ++ "/sessions/" ++ k.1 ++ "/bills/" ++ k.2

/-- The in-memory `LatestTimestamps` dict. -/
structure Ledger where
  vote_events : DateTime
  events : DateTime
  deriving DecidableEq, Repr

/-- The error sink: `.windycivi/errors/<category>/<filename>` → record. -/
abbrev ErrSink := List ((String × String) × Record)

/-! ## `file_utils.py` -/

/-- The fixed set of tracked classifications. -/
def TRACKER_CLASSIFICATIONS : List String :=
  ["introduction", "passage", "executive-receipt", "became-law"]

/-- `format_timestamp`: parse with `fromisoformat` and format compactly;
`None` when parsing raises. -/
def format_timestamp (date_str : String) : Option String :=
  (fromisoformat? date_str).map strftimeCompactZ

/-- `format_timestamp` applied to a `data.get(...)` result: a `None` argument
makes `fromisoformat` raise, which the handler catches into `None`. -/
def format_timestampOpt : Option String → Option String
  | none => none
  | some s => format_timestamp s

/-- `record_error_file`: skip when the record's truthy `name` already occurs
in the category's folder; otherwise stamp `_original_filename` (when a truthy
one is given) and write the file. -/
def ErrSink_record_error (errors : ErrSink) (category filename : String)
    (data : Record) (original_filename : Option String) : ErrSink :=
  let existing_names := errors.filterMap
    (fun e =>
      if e.1.1 = category then
        match e.2.name with
        | some n => if n.toList.isEmpty then none else some n
        | none => none
      else none)
  if (match data.name with
      | some n => existing_names.contains n
      | none => false) then errors
  else
    let data' := match original_filename with
      | some o => if o.toList.isEmpty then data else { data with orig_filename := some o }
      | none => data
    dictInsert errors (category, filename) data'

/-- `validate_required_field`: returns the field value, or records an error
and yields `none` when the field is missing or falsy. The field is selected
by the caller through `value`. -/
def validate_required_field (value : Option String) (filename : String)
    (error_category : String) (data : Record) (errors : ErrSink) :
    Option String × ErrSink :=
  if falsy value then
    (none, ErrSink_record_error errors error_category filename data (some filename))
  else (value, errors)

/-! ## `timestamp_tracker.py` -/

/-- `get_default_timestamps`. -/
def get_default_timestamps : Ledger :=
  { vote_events := dt1900, events := dt1900 }

/-- `to_dt_obj` on a possibly-`None` timestamp string: strip trailing `Z`s,
then parse the ISO-with-dashes or compact format; any failure (including the
`AttributeError` on `None`) is caught into `None`. -/
def to_dt_obj : Option String → Option DateTime
  | none => none
  | some s =>
    let cs := (rstripZ s).toList
    if cs.contains '-' then parseIsoT cs else parseCompact cs

/-- `update_latest_timestamp`: advance to the new instant when it is present
and strictly newer. -/
def update_latest_timestamp (current_dt : Option DateTime) (existing_dt : DateTime) :
    DateTime :=
  match current_dt with
  | none => existing_dt
  | some c => if dtLt existing_dt c then c else existing_dt

/-- `extract_timestamp`: the formatted timestamp, a sentinel for a missing
date, or `None` (`format_timestamp` failure) passed through. -/
def extract_timestamp (data : Record) (category : String) : Option String :=
  if category = "events" then
    if falsy data.start_date then some "MISSING_EVENT_DATE"
    else format_timestamp (data.start_date.getD "")
  else if category = "vote_events" then
    if falsy data.start_date then some "MISSING_VOTE_DATE"
    else format_timestamp (data.start_date.getD "")
  else some "UNKNOWN_CATEGORY"

/-- `is_newer_than_latest`: sentinel timestamps are recorded to a categorized
error sink and rejected; otherwise the record passes exactly when its parsed
timestamp is strictly newer than the ledger value. A `None` timestamp (a
present but unparseable date) is rejected with no error record, because
`to_dt_obj` catches its own exception and returns `None`. -/
def is_newer_than_latest (data : Record) (latest_timestamp_dt : DateTime)
    (category : String) (errors : ErrSink) : Bool × ErrSink :=
  let raw_ts := extract_timestamp data category
  match raw_ts with
  | some s =>
    if s = "MISSING_EVENT_DATE" ∨ s = "MISSING_VOTE_DATE" ∨ s = "UNKNOWN_CATEGORY" then
      (false,
        ErrSink_record_error errors ("from_is_newer_than_latest_" ++ strToLower s)
          "unknown.json" data none)
    else
      match to_dt_obj (some s) with
      | some current_dt => (dtLt latest_timestamp_dt current_dt, errors)
      | none => (false, errors)
  | none =>
    match to_dt_obj none with
    | some current_dt => (dtLt latest_timestamp_dt current_dt, errors)
    | none => (false, errors)

/-- `write_latest_timestamp_file`: both categories formatted ISO and written;
the written pair is `(vote_events, events)`. -/
def write_latest_timestamp_file (latest_timestamps : Ledger) : Option (String × String) :=
  some (strftimeIso latest_timestamps.vote_events, strftimeIso latest_timestamps.events)

/-- `read_latest_timestamps`: parse the ledger file, defaulting when it is
absent. Run-produced files always parse; a component that fails to parse is
modelled as the default (the source code would crash or misbehave on such a
hand-edited file, which no claim exercises). -/
def read_latest_timestamps (ledgerFile : Option (String × String)) : Ledger :=
  match ledgerFile with
  | none => get_default_timestamps
  | some (v, e) =>
    { vote_events := (to_dt_obj (some v)).getD dt1900,
      events := (to_dt_obj (some e)).getD dt1900 }

/-! ## `processing_tracker.py`: metadata loading -/

/-- `load_existing_metadata`: read the persisted `metadata.json` of the bill
a record denotes, `None` when the identifier is falsy or no metadata exists. -/
def load_existing_metadata (folders : List (FKey × BillFolder)) (bill_data : Record) :
    Option Record :=
  if falsy bill_data.identifier then none
  else
    let session_id := bill_data.legislative_session.getD "unknown-session"
    (dictGet? folders (build_bill_key session_id (bill_data.identifier.getD ""))).bind
      (·.metadata)

/-! ## `io_utils.py`: the batch loader -/

/-- One step of the `load_json_files` loop: decide whether the file is
passed on to processing (bills by action-count comparison, events and vote
events by the timestamp ledger), and archive `event_` files that pass. -/
def loadStep (ledger : Ledger) (folders : List (FKey × BillFolder))
    (acc : List (String × Record) × List (String × Record) × ErrSink)
    (file : String × Record) :
    List (String × Record) × List (String × Record) × ErrSink :=
  let (all_data, archive, errors) := acc
  let (filename, data) := file
  if ¬ strEndsWith filename ".json" then acc
  else
    let dec :=
      if strStartsWith filename "bill" then
        ((compare_action_counts (load_existing_metadata folders data) data).1, errors)
      else if strStartsWith filename "vote_event" then
        is_newer_than_latest data ledger.vote_events "vote_events" errors
      else if strStartsWith filename "event" then
        is_newer_than_latest data ledger.events "events" errors
      else (true, errors)
    if dec.1 then
      let all_data' := all_data ++ [(filename, data)]
      if strStartsWith filename "event_" then
        (all_data', dictInsert archive filename data,
          dictErase dec.2 ("missing_session", filename))
      else (all_data', archive, dec.2)
    else (all_data, archive, dec.2)

/-- `load_json_files` over the whole input batch. -/
def load_json_files (input : List (String × Record)) (ledger : Ledger)
    (folders : List (FKey × BillFolder)) (archive : List (String × Record))
    (errors : ErrSink) :
    List (String × Record) × List (String × Record) × ErrSink :=
  input.foldl (loadStep ledger folders) ([], archive, errors)

/-! ## `process_utils.py`: the router -/

/-- The three entity handlers a record can be dispatched to. -/
inductive HandlerKind where
  | bill
  | voteEvent
  | event
  deriving DecidableEq, Repr

/-- The dispatch decision of `route_handler`: an `if`/`elif` chain of
substring tests, `"bill_" in filename`, `"vote_event_" in filename`,
`"event_" in filename`, in that order. -/
def route_kind (filename : String) : Option HandlerKind :=
  if containsSub filename "bill_" then some .bill
  else if containsSub filename "vote_event_" then some .voteEvent
  else if containsSub filename "event_" then some .event
  else none

/-! ### Characterising the merge -/

/-- The last action in a list with a given identifier: what a lookup in the
Python dict built by `merge_actions` returns. -/
def lastWithId (k : String) : List Action → Option Action
  | [] => none
  | a :: rest =>
    match lastWithId k rest with
    | some e => some e
    | none => if create_action_identifier a = k then some a else none

/-! ## `file_utils.py`: slugs and log writers -/

/-- Python regex `\w` membership on a character. -/
def isWordChar (c : Char) : Bool := c.isAlphanum || c = '_'

/-- Python regex `\s` membership on a character. -/
def isSpaceChar (c : Char) : Bool :=
  c = ' ' || c = '\t' || c = '\n' || c = '\r' || c = '\x0b' || c = '\x0c'

/-- `re.sub(r"\s+", "_", ...)`: replace each maximal whitespace run by one
underscore; the flag records whether a run is already open. -/
def collapseWsAux : Bool → List Char → List Char
  | _, [] => []
  | inRun, c :: rest =>
    if isSpaceChar c then
      if inRun then collapseWsAux true rest else '_' :: collapseWsAux true rest
    else c :: collapseWsAux false rest

/-- `re.sub(r"\s+", "_", ...)`. -/
def collapseWs (l : List Char) : List Char := collapseWsAux false l

/-- `re.sub(r"[^\w]+", "_", ...)`: replace each maximal non-word run by one
underscore; the flag records whether a run is already open. -/
def collapseNonWordAux : Bool → List Char → List Char
  | _, [] => []
  | inRun, c :: rest =>
    if isWordChar c then c :: collapseNonWordAux false rest
    else if inRun then collapseNonWordAux true rest
    else '_' :: collapseNonWordAux true rest

/-- `re.sub(r"[^\w]+", "_", ...)`. -/
def collapseNonWord (l : List Char) : List Char := collapseNonWordAux false l

/-- Python `s.strip("_")`. -/
def stripUnderscores (l : List Char) : List Char :=
  ((l.dropWhile (fun c => c = '_')).reverse.dropWhile (fun c => c = '_')).reverse

/-- `slugify`: lowercase, drop characters that are neither word nor
whitespace, collapse whitespace runs to underscores, strip underscores,
truncate to `max_length`. -/
def slugify (text : String) (max_length : Nat := 100) : String :=
  let t := (strToLower text).toList
  let t := t.filter (fun c => isWordChar c || isSpaceChar c)
  let t := collapseWs t
  let t := stripUnderscores t
  String.mk (t.take max_length)

/-- `clean_event_name`: lowercase, collapse non-word runs to underscores,
strip underscores, truncate to 40. -/
def clean_event_name (name : String) : String :=
  String.mk ((stripUnderscores (collapseNonWord (strToLower name).toList)).take 40)

/-- The filename an event is materialized under:
`f"{timestamp}_{short_name}.json"` with a failed parse rendering as
Python's `str(None)`. -/
def event_file_name (data : Record) : String :=
  (match format_timestamp (data.start_date.getD "") with
    | some t => t
    | none => "None") ++ "_" ++ clean_event_name (data.name.getD "event") ++ ".json"

/-- The embedded organization classification: models the source's defensive
`json.loads(org_id.strip("~")).get("classification", "unknown")` (guarded by
`"classification" in org_id`) on the one shape the upstream quirk produces,
`~\x7b"classification": "X"\x7d`; any other content yields `"unknown"`, as
the `except` clause does. -/
def orgClassOf (org_id : String) : String :=
  if containsSub org_id "classification" then
    let t := ((org_id.toList.dropWhile (fun c => c = '~')).reverse.dropWhile
      (fun c => c = '~')).reverse
    let pre := "\x7b\"classification\": \"".toList
    let suf := "\"\x7d".toList
    if pre.isPrefixOf t && suf.isSuffixOf t && pre.length + suf.length ≤ t.length then
      String.mk ((t.drop pre.length).take (t.length - pre.length - suf.length))
    else "unknown"
  else "unknown"

/-- The `timestamp` rendered into a log filename:
`format_timestamp(date) if date else "unknown"`, with a failed parse
rendering as Python's `str(None)`. -/
def logTimestampName (date : Option String) : String :=
  if falsy date then "unknown"
  else
    match format_timestamp (date.getD "") with
    | some t => t
    | none => "None"

/-- `write_action_logs`: one log file per action, named by classification
when the leading classification is tracked, otherwise by slugified
description. -/
def write_action_logs (actions : List Action) (bill_identifier : String)
    (logs : List (String × LogContent)) : List (String × LogContent) :=
  actions.foldl
    (fun logs action =>
      let timestamp := logTimestampName action.date
      let filename :=
        match action.classification with
        | c :: _ =>
          if TRACKER_CLASSIFICATIONS.contains c then
            timestamp ++ ".classification." ++ c ++ "." ++
              orgClassOf (action.organization_id.getD "") ++ ".json"
          else timestamp ++ "_" ++ slugify (action.description.getD "no_description") ++ ".json"
        | [] => timestamp ++ "_" ++ slugify (action.description.getD "no_description") ++ ".json"
      dictInsert logs filename (LogContent.actionLog action bill_identifier))
    logs

/-- `write_vote_event_log`: one timestamped log file per vote event, named
by result. -/
def write_vote_event_log (vote_event : Record) (logs : List (String × LogContent)) :
    List (String × LogContent) :=
  let timestamp := logTimestampName vote_event.start_date
  let result := vote_event.result.getD "unknown"
  let filename :=
    if result = "pass" then
      timestamp ++ ".vote_event.pass." ++ orgClassOf (vote_event.organization.getD "") ++ ".json"
    else timestamp ++ "_vote_event_" ++ slugify result ++ ".json"
  dictInsert logs filename (LogContent.voteLog vote_event)

/-! ## The handlers -/

/-- `handle_bill`: validate the identifier, ensure the bill folder, compare
with persisted metadata, write logs for genuinely new actions, stamp them,
merge, and persist `metadata.json` with preserved bill-level `_processing`
and a fresh `logs_latest_update`. -/
def handle_bill (now : DateTime) (data : Record) (filename : String)
    (folders : List (FKey × BillFolder)) (errors : ErrSink) :
    List (FKey × BillFolder) × ErrSink × Bool :=
  let v := validate_required_field data.identifier filename
    "from_handle_bill_missing_identifier" data errors
  match v.1 with
  | none => (folders, v.2, false)
  | some bill_identifier =>
    let session_id := data.legislative_session.getD "unknown-session"
    let key := build_bill_key session_id bill_identifier
    let folder := (dictGet? folders key).getD emptyFolder
    let existing_metadata := load_existing_metadata folders data
    let actions := data.actions
    match existing_metadata with
    | some em =>
      let existing_actions := em.actions
      let new_actions := find_new_actions existing_actions actions
      let logs' :=
        if new_actions.isEmpty then folder.logs
        else write_action_logs new_actions bill_identifier folder.logs
      let existing_ids := existing_actions.map create_action_identifier
      let actions' := actions.map
        (fun a =>
          if existing_ids.contains (create_action_identifier a) then a
          else add_processing_timestamp a "log_file_created" (get_current_timestamp now))
      let merged := merge_actions existing_actions actions'
      let processing' := dictInsert
        (em.processing.foldl (fun m kv => dictInsert m kv.1 kv.2) data.processing)
        "logs_latest_update" (get_current_timestamp now)
      let metadata' := { data with actions := merged, processing := processing' }
      (dictInsert folders key { folder with metadata := some metadata', logs := logs' },
        v.2, true)
    | none =>
      let logs' :=
        if actions.isEmpty then folder.logs
        else write_action_logs actions bill_identifier folder.logs
      let actions' := actions.map
        (fun a => add_processing_timestamp a "log_file_created" (get_current_timestamp now))
      let metadata' :=
        { data with
          actions := actions',
          processing := [("logs_latest_update", get_current_timestamp now)] }
      (dictInsert folders key { folder with metadata := some metadata', logs := logs' },
        v.2, true)

/-- `handle_vote_event`: validate the referenced bill, ensure its folder,
write `placeholder.json` whenever none is present, advance the vote-event
ledger when the timestamp parses, and append the timestamped vote log. -/
def handle_vote_event (data : Record) (filename : String)
    (folders : List (FKey × BillFolder)) (errors : ErrSink) (ledger : Ledger) :
    List (FKey × BillFolder) × ErrSink × Ledger × Bool :=
  let v := validate_required_field data.bill_identifier filename
    "from_handle_vote_event_missing_bill_identifier" data errors
  match v.1 with
  | none => (folders, v.2, ledger, false)
  | some referenced_bill_id =>
    let session_id := data.legislative_session.getD "unknown-session"
    let key := build_bill_key session_id referenced_bill_id
    let folder := (dictGet? folders key).getD emptyFolder
    let folder := if folder.placeholder.isNone then
        { folder with placeholder := some referenced_bill_id }
      else folder
    let timestamp := format_timestampOpt data.start_date
    let ledger' :=
      if timestamp = some "unknown" then ledger
      else { ledger with
        vote_events := update_latest_timestamp (to_dt_obj timestamp) ledger.vote_events }
    let folder := { folder with logs := write_vote_event_log data folder.logs }
    (dictInsert folders key folder, v.2, ledger', true)

/-- `handle_event`: validate `start_date` (and `bill_identifier` unless a
referenced bill is supplied by the linker), advance the events ledger when
the timestamp parses, and write the event into its session's `events/`
folder under a timestamped, slugified name. -/
def handle_event (data : Record) (filename : String)
    (session_id_arg referenced_bill_id_arg : Option String)
    (events : List ((String × String) × Record)) (errors : ErrSink) (ledger : Ledger) :
    List ((String × String) × Record) × ErrSink × Ledger × Bool :=
  let v := validate_required_field data.start_date filename
    "from_handle_event_missing_start_date" data errors
  match v.1 with
  | none => (events, v.2, ledger, false)
  | some start_date =>
    let v2 :=
      if referenced_bill_id_arg.isNone then
        validate_required_field data.bill_identifier filename
          "from_handle_event_missing_bill_identifier" data v.2
      else (referenced_bill_id_arg, v.2)
    match v2.1 with
    | none => (events, v2.2, ledger, false)
    | some _ =>
      let timestamp := format_timestamp start_date
      let ledger' :=
        if timestamp = some "unknown" then ledger
        else { ledger with
          events := update_latest_timestamp (to_dt_obj timestamp) ledger.events }
      let session_id :=
        match session_id_arg with
        | some s => s
        | none => data.legislative_session.getD "unknown-session"
      (dictInsert events (session_id, event_file_name data) data, v2.2, ledger', true)

/-! ## `process_utils.py` -/

/-- Mutable state threaded through processing: the bill tree, the per-session
event files, the error sink and the in-memory ledger. -/
structure ProcState where
  folders : List (FKey × BillFolder)
  events : List ((String × String) × Record)
  errors : ErrSink
  ledger : Ledger
  deriving DecidableEq, Repr

/-- `route_handler`: dispatch on the substring route and run the handler. -/
def route_handler (now : DateTime) (filename : String) (data : Record)
    (st : ProcState) : ProcState × Option String :=
  match route_kind filename with
  | some .bill =>
    let r := handle_bill now data filename st.folders st.errors
    ({ st with folders := r.1, errors := r.2.1 },
      if r.2.2 then some "bill" else none)
  | some .voteEvent =>
    let r := handle_vote_event data filename st.folders st.errors st.ledger
    ({ st with folders := r.1, errors := r.2.1, ledger := r.2.2.1 },
      if r.2.2.2 then some "vote_event" else none)
  | some .event =>
    let r := handle_event data filename none none st.events st.errors st.ledger
    ({ st with events := r.1, errors := r.2.1, ledger := r.2.2.1 },
      if r.2.2.2 then some "event" else none)
  | none => (st, none)

/-- One iteration of the `process_and_save` loop: records without a session
or with an unknown session go to the error sink; the rest are routed. -/
def processStep (mapping : List (String × SessionInfo)) (now : DateTime)
    (st : ProcState) (file : String × Record) : ProcState :=
  let (filename, data) := file
  if falsy data.legislative_session then
    { st with errors := ErrSink_record_error st.errors "missing_session" filename data none }
  else
    match dictGet? mapping (data.legislative_session.getD "") with
    | none =>
      { st with errors := ErrSink_record_error st.errors "unknown_session" filename data none }
    | some _ => (route_handler now filename data st).1

/-- `process_and_save` over the batch (the final ledger flush to disk happens
in the run function, mirroring `write_latest_timestamp_file` at the end). -/
def process_and_save (mapping : List (String × SessionInfo)) (now : DateTime)
    (all_data : List (String × Record)) (st : ProcState) : ProcState :=
  all_data.foldl (processStep mapping now) st

/-! ## `event_bill_linker.py` and its helpers -/

/-- Lexicographic order on character lists (the filename order of
`sorted(folder.glob("*.json"))`). -/
def charListLe : List Char → List Char → Bool
  | [], _ => true
  | _ :: _, [] => false
  | a :: as, b :: bs => if a < b then true else if b < a then false else charListLe as bs

/-- `a <= b` on strings. -/
def strLe (a b : String) : Bool := charListLe a.toList b.toList

/-- Stable insertion of one element into a sorted list. -/
def insertSorted {α : Type} (le : α → α → Bool) (x : α) : List α → List α
  | [] => [x]
  | y :: rest => if le x y then x :: y :: rest else y :: insertSorted le x rest

/-- Stable insertion sort (the model of Python `sorted`). -/
def insertionSort {α : Type} (le : α → α → Bool) : List α → List α
  | [] => []
  | x :: rest => insertSorted le x (insertionSort le rest)

/-- `list_json_files` on the archive folder: its `.json` entries in sorted
filename order (all archive entries are `.json`). -/
def list_json_files_sorted (archive : List (String × Record)) : List (String × Record) :=
  insertionSort (fun x y => strLe x.1 y.1) archive

/-- One entry of the bill→session index (`session_meta`). -/
structure SessionMeta where
  session_id : String
  date_folder : String
  deriving DecidableEq, Repr

/-- Modelled from the spec: `extract_bill_ids_from_event`
(`postprocessors/helpers`) is not among the sources; per the spec an Event
carries "a reference to zero-or-more Bills (by identifier)" and the linker
consults them "in the record's own list order", so the extraction returns
the record's referenced bill identifiers in record order. -/
def extract_bill_ids_from_event (data : Record) : List String :=
  data.bill_ids

/-- Modelled from the spec: `load_bill_to_session_mapping`
(`postprocessors/helpers`) is not among the sources; per the spec the
pipeline works against "a persisted bill→session index (rebuilt fresh at
pipeline start)" mapping each bill with real data to its session, with the
`date_folder` display information taken from the session mapping. -/
def load_bill_to_session_mapping (folders : List (FKey × BillFolder))
    (session_mapping : List (String × SessionInfo)) : List (String × SessionMeta) :=
  folders.foldl
    (fun m e =>
      if e.2.metadata.isSome then
        dictInsert m e.1.2
          { session_id := e.1.1,
            date_folder :=
              match dictGet? session_mapping e.1.1 with
              | some si => si.date_folder
              | none => "" }
      else m)
    []

/-- `run_handle_event`: wrapper calling `handle_event` with the resolved
session and bill, a throwaway default-timestamps dict (post-processed events
do not advance the repository ledger), and exceptions swallowed. -/
def run_handle_event (event_data : Record) (session_id : String)
    (_date_folder : String) (bill_id : String) (filename : String)
    (events : List ((String × String) × Record)) (errors : ErrSink) :
    List ((String × String) × Record) × ErrSink :=
  let r := handle_event event_data filename (some session_id) (some bill_id)
    events errors get_default_timestamps
  (r.1, r.2.1)

/-- The body of the linker loop for one archived event: the first referenced
bill identifier with an index hit wins — the event is materialized under
that bill's session, the archive copy is deleted and any stale
`missing_session` error artifact is cleared; an event with no referenced
identifiers is left untouched (`continue`); an event with references but no
hit is appended to `skipped`. -/
def linkEventStep (mapping : List (String × SessionMeta))
    (acc : List (String × Record) × List ((String × String) × Record) × ErrSink ×
      List (String × Record))
    (file : String × Record) :
    List (String × Record) × List ((String × String) × Record) × ErrSink ×
      List (String × Record) :=
  let (archive, events, errors, skipped) := acc
  let (fname, data) := file
  let bill_ids := extract_bill_ids_from_event data
  if bill_ids.isEmpty then acc
  else
    match bill_ids.findSome? (fun b => (dictGet? mapping b).map (fun m => (b, m))) with
    | some (bill_id, meta) =>
      let r := run_handle_event data meta.session_id meta.date_folder bill_id fname
        events errors
      (dictErase archive fname, r.1, dictErase r.2 ("missing_session", fname), skipped)
    | none => (archive, events, errors, skipped ++ [(fname, data)])

/-- One pass of the linker over a worklist of archived events. -/
def linkEventsPass (mapping : List (String × SessionMeta))
    (worklist : List (String × Record)) (archive : List (String × Record))
    (events : List ((String × String) × Record)) (errors : ErrSink) :
    List (String × Record) × List ((String × String) × Record) × ErrSink ×
      List (String × Record) :=
  worklist.foldl (linkEventStep mapping) (archive, events, errors, [])

/-- `link_events_to_bills_pipeline`: pass 1 over the sorted archive with a
freshly rebuilt index, then — when anything was skipped — a force-rebuilt
index and a second pass over exactly the skipped set. Returns the archive,
events, errors and the persisted index file. -/
def link_events_to_bills_pipeline (folders : List (FKey × BillFolder))
    (session_mapping : List (String × SessionInfo))
    (archive : List (String × Record))
    (events : List ((String × String) × Record)) (errors : ErrSink) :
    List (String × Record) × List ((String × String) × Record) × ErrSink ×
      List (String × SessionMeta) :=
  let mapping := load_bill_to_session_mapping folders session_mapping
  let r1 := linkEventsPass mapping (list_json_files_sorted archive) archive events errors
  let (archive1, events1, errors1, skipped) := r1
  if skipped.isEmpty then (archive1, events1, errors1, mapping)
  else
    let mapping2 := load_bill_to_session_mapping folders session_mapping
    let r2 := linkEventsPass mapping2 skipped archive1 events1 errors1
    (r2.1, r2.2.1, r2.2.2.1, mapping2)

/-! ## `cleanup_placeholders.py` -/

/-- One iteration of the cleanup loop, processing one bill folder. Folders
without a `placeholder.json` are not visited by the `rglob` pattern and pass
through unchanged. A placeholder whose folder has `metadata.json` is deleted
and its resolved orphan record dropped; otherwise the orphan record is
upserted: `last_seen` and the vote/event counts are recomputed and
`occurrence_count` incremented, while `first_seen` is created once and never
replaced. -/
def cleanup_step (state_abbr : String) (now_ts : String)
    (acc : List (FKey × BillFolder) × List (String × OrphanRec))
    (e : FKey × BillFolder) :
    List (FKey × BillFolder) × List (String × OrphanRec) :=
  let (done, tracking) := acc
  let (key, folder) := e
  match folder.placeholder with
  | none => (done ++ [e], tracking)
  | some _ =>
    let bill_id := key.2
    let session_id := key.1
    if folder.metadata.isSome then
      (done ++ [(key, { folder with placeholder := none })],
        if (dictGet? tracking bill_id).isSome then dictErase tracking bill_id
        else tracking)
    else
      let jsonLogs := folder.logs.filter (fun l => strEndsWith l.1 ".json")
      let vote_count := (jsonLogs.filter (fun l => containsSub l.1 "vote")).length
      let event_count :=
        (jsonLogs.filter (fun l => ¬ containsSub l.1 "vote" && containsSub l.1 "event")).length
      let tracking' :=
        match dictGet? tracking bill_id with
        | some rec =>
          dictInsert tracking bill_id
            { rec with
              last_seen := now_ts,
              occurrence_count := rec.occurrence_count + 1,
              vote_count := vote_count,
              event_count := event_count }
        | none =>
          dictInsert tracking bill_id
            { first_seen := now_ts, last_seen := now_ts, occurrence_count := 1,
              session := session_id, vote_count := vote_count,
              event_count := event_count,
              path := bill_path_string state_abbr key }
      (done ++ [e], tracking')

/-- `cleanup_placeholders`: load the tracking file (empty when absent), walk
every placeholder in the tree, and persist the updated tracking map — but
only when it is non-empty (`if orphan_tracking:`); an updated map that
became empty leaves the old file on disk. Returns the updated tree, the
in-memory tracking map, and the tracking file after the pass (the returned
stats dict of the source is only printed and is omitted). -/
def cleanup_placeholders (state_abbr : String) (now : DateTime)
    (folders : List (FKey × BillFolder))
    (trackingFile : Option (List (String × OrphanRec))) :
    List (FKey × BillFolder) × List (String × OrphanRec) ×
      Option (List (String × OrphanRec)) :=
  let now_ts := isoformatNoZ now
  let orphan_tracking := trackingFile.getD []
  let r := folders.foldl (cleanup_step state_abbr now_ts) ([], orphan_tracking)
  (r.1, r.2, if r.2.isEmpty then trackingFile else some r.2)

/-- The per-folder effect of the cleanup pass on the tree. -/
def cleanupFolder (f : BillFolder) : BillFolder :=
  if f.placeholder.isSome && f.metadata.isSome then { f with placeholder := none } else f

/-! ## `main.py`: one full pipeline run -/

/-- `ensure_session_mapping`: a non-empty mapping extracted from a
jurisdiction file overwrites the cache; otherwise an existing cache is used
as-is; otherwise a successful external fetch is cached; otherwise the
mapping is empty and nothing is written. Returns the mapping and the cache
file after the call. -/
def ensure_session_mapping (jurisdiction : Option (List (String × SessionInfo)))
    (fetchResult : Option (List (String × SessionInfo)))
    (cache : Option (List (String × SessionInfo))) :
    List (String × SessionInfo) × Option (List (String × SessionInfo)) :=
  match jurisdiction with
  | some jm =>
    if jm.isEmpty then
      match cache with
      | some c => (c, some c)
      | none =>
        match fetchResult with
        | some m => (m, some m)
        | none => ([], none)
    else (jm, some jm)
  | none =>
    match cache with
    | some c => (c, some c)
    | none =>
      match fetchResult with
      | some m => (m, some m)
      | none => ([], none)

/-- The external inputs of a run that are fixed across runs: the state code,
the jurisdiction manifest found in the input batch (already extracted), and
what a session fetch from the external source would return (`none` models a
failed fetch). -/
structure RunConfig where
  state_abbr : String
  jurisdiction : Option (List (String × SessionInfo)) := none
  fetchResult : Option (List (String × SessionInfo)) := none

/-- The durable file tree between runs: bill folders, per-session event
files, the event archive, the error sink, and the `.windycivi` metadata
files (timestamp ledger, session cache, bill→session index, orphan
tracking). -/
structure PipelineState where
  folders : List (FKey × BillFolder) := []
  events : List ((String × String) × Record) := []
  archive : List (String × Record) := []
  errors : ErrSink := []
  ledgerFile : Option (String × String) := none
  sessionsCache : Option (List (String × SessionInfo)) := none
  sessionIndexFile : Option (List (String × SessionMeta)) := none
  trackingFile : Option (List (String × OrphanRec)) := none
  deriving DecidableEq, Repr

/-- One full pipeline run (`main`): read the ledger, resolve the session
mapping, load and filter the batch (archiving events), route and process,
flush the ledger, link archived events to bills, and reconcile
placeholders. -/
def run (cfg : RunConfig) (input : List (String × Record)) (now : DateTime)
    (s : PipelineState) : PipelineState :=
  let latest0 := read_latest_timestamps s.ledgerFile
  let sm := ensure_session_mapping cfg.jurisdiction cfg.fetchResult s.sessionsCache
  let loaded := load_json_files input latest0 s.folders s.archive s.errors
  let st1 := process_and_save sm.1 now loaded.1
    { folders := s.folders, events := s.events, errors := loaded.2.2, ledger := latest0 }
  let ledgerFile1 := write_latest_timestamp_file st1.ledger
  let linked := link_events_to_bills_pipeline st1.folders sm.1 loaded.2.1 st1.events
    st1.errors
  let cleaned := cleanup_placeholders cfg.state_abbr now st1.folders s.trackingFile
  { folders := cleaned.1,
    events := linked.2.1,
    archive := linked.1,
    errors := linked.2.2.1,
    ledgerFile := ledgerFile1,
    sessionsCache := sm.2,
    sessionIndexFile := some linked.2.2.2,
    trackingFile := cleaned.2.2 }

/-! ## Well-formedness predicates used by the idempotence theorem -/

/-- The components of a datetime are in the ranges the parsers accept. -/
def dtValid (d : DateTime) : Bool :=
  validDate d.year d.month d.day && validTime d.hour d.minute d.second

/-- Both ledger components are valid datetimes. -/
def ledValid (l : Ledger) : Bool :=
  dtValid l.vote_events && dtValid l.events

/-- The bill-folder key a bill record maps to. -/
def billKeyOf (d : Record) : FKey :=
  build_bill_key (d.legislative_session.getD "unknown-session") (d.identifier.getD "")

/-- A well-formed input file: a `.json` filename following the standard
prefix convention (and not accidentally containing a higher-priority
route marker), with the per-kind required fields present and a session that
the session mapping resolves. -/
def wellFormedFile (mapping : List (String × SessionInfo)) (f : String) (d : Record) :
    Bool :=
  strEndsWith f ".json" &&
  ((strStartsWith f "bill_" && !falsy d.identifier) ||
    (strStartsWith f "vote_event_" && !containsSub f "bill_" &&
      !falsy d.bill_identifier && !falsy d.start_date) ||
    (strStartsWith f "event_" && !containsSub f "bill_" &&
      !containsSub f "vote_event_" && !falsy d.bill_identifier &&
      !falsy d.start_date)) &&
  !falsy d.legislative_session &&
  (dictGet? mapping (d.legislative_session.getD "")).isSome

/-- The persisted `metadata.json` at a bill-folder key (the quantity the
loader's action-count comparison consults). -/
def metaAt (folders : List (FKey × BillFolder)) (k : FKey) : Option Record :=
  (dictGet? folders k).bind (·.metadata)

/-- An archived event the linker cannot resolve: it references no bill at
all, or none of its referenced identifiers has a hit in the index. -/
def noLink (mapping : List (String × SessionMeta)) (d : Record) : Bool :=
  (extract_bill_ids_from_event d).isEmpty ||
    ((extract_bill_ids_from_event d).findSome?
      (fun b => (dictGet? mapping b).map (fun m => (b, m)))).isNone

/-- Stage 1 of `run`: the resolved session mapping and the cache file after
the call. -/
def runMapping (cfg : RunConfig) (s : PipelineState) :
    List (String × SessionInfo) × Option (List (String × SessionInfo)) :=
  ensure_session_mapping cfg.jurisdiction cfg.fetchResult s.sessionsCache

/-- Stage 0 of `run`: the timestamp ledger read from disk. -/
def runLedger0 (s : PipelineState) : Ledger := read_latest_timestamps s.ledgerFile

/-- Stage 2 of `run`: the load pass. -/
def runLoaded (input : List (String × Record)) (s : PipelineState) :
    List (String × Record) × List (String × Record) × ErrSink :=
  load_json_files input (runLedger0 s) s.folders s.archive s.errors

/-- Stage 3 of `run`: the processing pass. -/
def runProc (cfg : RunConfig) (input : List (String × Record)) (now : DateTime)
    (s : PipelineState) : ProcState :=
  process_and_save (runMapping cfg s).1 now (runLoaded input s).1
    { folders := s.folders, events := s.events,
      errors := (runLoaded input s).2.2, ledger := runLedger0 s }

/-- Stage 4 of `run`: the event→bill linking pass. -/
def runLinked (cfg : RunConfig) (input : List (String × Record)) (now : DateTime)
    (s : PipelineState) :
    List (String × Record) × List ((String × String) × Record) × ErrSink ×
      List (String × SessionMeta) :=
  link_events_to_bills_pipeline (runProc cfg input now s).folders
    (runMapping cfg s).1 (runLoaded input s).2.1 (runProc cfg input now s).events
    (runProc cfg input now s).errors

/-! ### Sample data used by witnesses -/

/-- A persisted action with its `_processing` metadata set. -/
def sampleExistingIntro : Action :=
  { description := some "introduced", date := some "2024-01-01",
    processing := [("log_file_created", "2025-01-01T00:00:00Z")] }

/-- The same action as re-scraped (no `_processing`). -/
def sampleIncomingIntro : Action :=
  { description := some "introduced", date := some "2024-01-01" }

/-- A genuinely new incoming action. -/
def sampleIncomingPassed : Action :=
  { description := some "passed", date := some "2024-01-05" }

/-- An incoming bill scrape for `HR 1` with one action. -/
def sampleBillRecord : Record :=
  { identifier := some "HR 1", legislative_session := some "119",
    actions := [sampleIncomingIntro] }

/-- The persisted `metadata.json` for `HR 1` with one (processed) action. -/
def sampleBillMeta : Record :=
  { identifier := some "HR 1", legislative_session := some "119",
    actions := [sampleExistingIntro],
    processing := [("logs_latest_update", "2025-01-01T00:00:00Z")] }

/-- A tree holding persisted metadata for `HR 1` with the same action count. -/
def sampleFolders : List (FKey × BillFolder) :=
  [(("119", "HR1"), { metadata := some sampleBillMeta })]

/-- A vote-event record with no `start_date`. -/
def sampleVoteNoDate : Record :=
  { bill_identifier := some "HR 9" }

/-- A vote event referencing `HR 1` (which has persisted metadata in
`sampleFolders`). -/
def sampleVoteForHR1 : Record :=
  { bill_identifier := some "HR 1", legislative_session := some "119",
    start_date := some "2024-03-01", result := some "pass" }

/-- A fixed run instant. -/
def sampleNow : DateTime := ⟨2025, 10, 3, 12, 0, 0⟩

/-- A later run instant. -/
def sampleNow2 : DateTime := ⟨2025, 10, 4, 12, 0, 0⟩

/-- A session-mapping entry for session `119`. -/
def sampleSessionInfo : SessionInfo := { name := "119th Congress", date_folder := "2023-2024" }

/-- A run configuration whose input batch carries a jurisdiction manifest
resolving session `119`. -/
def sampleRunCfg : RunConfig :=
  { state_abbr := "usa", jurisdiction := some [("119", sampleSessionInfo)] }

/-- A vote event referencing the never-scraped bill `HR9`. -/
def sampleVoteOrphan : Record :=
  { bill_identifier := some "HR9", legislative_session := some "119",
    start_date := some "2024-03-01", result := some "pass" }

/-- An input batch with a single vote event for a bill that never arrives. -/
def sampleRunInput : List (String × Record) :=
  [("vote_event_hr9.json", sampleVoteOrphan)]

/-- The tree after running the pipeline once on `sampleRunInput` from an
empty repository. -/
def sampleRun1 : PipelineState := run sampleRunCfg sampleRunInput sampleNow {}

/-- The tree after running the pipeline a second time on the same batch. -/
def sampleRun2 : PipelineState := run sampleRunCfg sampleRunInput sampleNow sampleRun1

/-- An archived event referencing `HR5` then `HR6`. -/
def sampleEventHR56 : Record :=
  { bill_ids := ["HR5", "HR6"], start_date := some "2024-05-01",
    name := some "Committee Hearing" }

/-- A bill→session index with a hit only for `HR6`. -/
def sampleMapping : List (String × SessionMeta) :=
  [("HR6", { session_id := "119", date_folder := "2023-2024" })]

/-- A persisted orphan record for `HR9` after five sightings. -/
def sampleOrphanRec : OrphanRec :=
  { first_seen := "2025-10-01T00:00:00", last_seen := "2025-10-02T00:00:00",
    occurrence_count := 5, session := "119", vote_count := 1, event_count := 0,
    path := "country:us/state:usa/sessions/119/bills/HR9" }

/-- A tree whose only folder has both real metadata and a leftover
placeholder (the orphan is resolved this run). -/
def sampleResolvedTree : List (FKey × BillFolder) :=
  [(("119", "HR9"), { metadata := some sampleBillMeta, placeholder := some "HR 9" })]

/-- A tree whose only folder is a still-orphaned placeholder with one vote
log. -/
def sampleOrphanTree : List (FKey × BillFolder) :=
  [(("119", "HR9"),
    { placeholder := some "HR 9",
      logs := [("20240301T000000Z.vote_event.pass.unknown.json",
        LogContent.voteLog sampleVoteForHR1)] })]

/-- A vote-event record whose `start_date` is present but unparseable. -/
def sampleVoteBadDate : Record :=
  { bill_identifier := some "HR 9", start_date := some "not-a-date" }

/-! # Theorems -/

/-! ## Association list lemmas -/

@[simp]
theorem dictGet?_nil {K V : Type} [DecidableEq K] (k : K) :
    dictGet? ([] : List (K × V)) k = none := rfl

theorem dictGet?_cons {K V : Type} [DecidableEq K] (a : K) (b : V) (m : List (K × V)) (k : K) :
    dictGet? ((a, b) :: m) k = if a = k then some b else dictGet? m k := by
  by_cases h : a = k <;> simp [dictGet?, List.find?, h]

theorem dictGet?_insert {K V : Type} [DecidableEq K] (m : List (K × V)) (k k' : K) (v : V) :
    dictGet? (dictInsert m k v) k' = if k = k' then some v else dictGet? m k' := by
  induction m with
  | nil =>
    by_cases h : k = k' <;> simp [dictInsert, dictGet?_cons, h]
  | cons e rest ih =>
    obtain ⟨ek, ev⟩ := e
    by_cases hek : ek = k
    · subst hek
      have hins : dictInsert ((ek, ev) :: rest) ek v = (ek, v) :: rest := by
        simp [dictInsert]
      rw [hins, dictGet?_cons, dictGet?_cons]
      by_cases h : ek = k' <;> simp [h]
    · simp only [dictInsert, if_neg hek]
      rw [dictGet?_cons, dictGet?_cons]
      by_cases h1 : ek = k'
      · by_cases h2 : k = k'
        · exact absurd (h2.trans h1.symm).symm hek
        · simp [h1, h2]
      · simp [h1, ih]

theorem dictInsert_self {K V : Type} [DecidableEq K] (m : List (K × V)) (k : K) (v : V)
    (h : dictGet? m k = some v) : dictInsert m k v = m := by
  induction m with
  | nil => simp [dictGet?] at h
  | cons e rest ih =>
    obtain ⟨ek, ev⟩ := e
    rw [dictGet?_cons] at h
    by_cases hek : ek = k
    · rw [if_pos hek] at h
      simp only [Option.some.injEq] at h
      simp [dictInsert, hek, h]
    · rw [if_neg hek] at h
      simp [dictInsert, hek, ih h]

/-! ## String prefix lemmas -/

theorem strStartsWith_head_eq {f p q : String} {c d : Char} {r s : List Char}
    (hp : p.toList = c :: r) (hq : q.toList = d :: s)
    (h1 : strStartsWith f p = true) (h2 : strStartsWith f q = true) : c = d := by
  unfold strStartsWith at h1 h2
  rw [hp, List.isPrefixOf_iff_prefix] at h1
  rw [hq, List.isPrefixOf_iff_prefix] at h2
  obtain ⟨t1, e1⟩ := h1
  obtain ⟨t2, e2⟩ := h2
  rw [← e1] at e2
  simp only [List.cons_append, List.cons.injEq] at e2
  exact e2.1.symm

theorem not_strStartsWith_of_head_ne {f p q : String} {c d : Char} {r s : List Char}
    (hp : p.toList = c :: r) (hq : q.toList = d :: s) (hne : c ≠ d)
    (h1 : strStartsWith f p = true) : strStartsWith f q = false := by
  by_contra h
  rw [Bool.not_eq_false] at h
  exact hne (strStartsWith_head_eq hp hq h1 h)

theorem dictErase_cons {K V : Type} [DecidableEq K] (a : K) (b : V) (m : List (K × V))
    (k : K) :
    dictErase ((a, b) :: m) k =
      if a = k then dictErase m k else (a, b) :: dictErase m k := by
  by_cases h : a = k <;> simp [dictErase, h]

theorem dictGet?_erase {K V : Type} [DecidableEq K] (m : List (K × V)) (k k' : K) :
    dictGet? (dictErase m k) k' = if k = k' then none else dictGet? m k' := by
  induction m with
  | nil => by_cases h : k = k' <;> simp [dictErase, h]
  | cons e rest ih =>
    obtain ⟨ek, ev⟩ := e
    rw [dictErase_cons]
    by_cases hek : ek = k
    · subst hek
      rw [if_pos rfl, ih, dictGet?_cons]
      by_cases h : ek = k' <;> simp [h]
    · rw [if_neg hek, dictGet?_cons, dictGet?_cons, ih]
      by_cases h1 : ek = k' <;> by_cases h2 : k = k'
      · exact absurd (h1.trans h2.symm) hek
      · simp [h1, h2]
      · simp [h1, h2]
      · simp [h1, h2]

/-! ## Cleanup pass lemmas -/

theorem cleanupFolder_idem (f : BillFolder) : cleanupFolder (cleanupFolder f) = cleanupFolder f := by
  unfold cleanupFolder
  by_cases h : (f.placeholder.isSome && f.metadata.isSome) = true
  · rw [if_pos h]
    simp
  · rw [if_neg h, if_neg h]

theorem cleanup_fold_folders (abbr ts : String) (l : List (FKey × BillFolder))
    (done : List (FKey × BillFolder)) (tracking : List (String × OrphanRec)) :
    (l.foldl (cleanup_step abbr ts) (done, tracking)).1 =
      done ++ l.map (fun e => (e.1, cleanupFolder e.2)) := by
  induction l generalizing done tracking with
  | nil => simp
  | cons e rest ih =>
    obtain ⟨key, folder⟩ := e
    rw [List.foldl_cons]
    cases hp : folder.placeholder with
    | none =>
      have hstep : cleanup_step abbr ts (done, tracking) (key, folder) =
          (done ++ [(key, folder)], tracking) := by
        simp [cleanup_step, hp]
      rw [hstep, ih]
      simp [cleanupFolder, hp]
    | some pid =>
      cases hm : folder.metadata with
      | some md =>
        have hstep : cleanup_step abbr ts (done, tracking) (key, folder) =
            (done ++ [(key, { folder with placeholder := none })],
              if (dictGet? tracking key.2).isSome then dictErase tracking key.2
              else tracking) := by
          simp [cleanup_step, hp, hm]
        rw [hstep, ih]
        simp [cleanupFolder, hp, hm]
      | none =>
        have hstep : (cleanup_step abbr ts (done, tracking) (key, folder)).1 =
            done ++ [(key, folder)] := by
          simp [cleanup_step, hp, hm]
        have hsplit : cleanup_step abbr ts (done, tracking) (key, folder) =
            ((cleanup_step abbr ts (done, tracking) (key, folder)).1,
              (cleanup_step abbr ts (done, tracking) (key, folder)).2) := rfl
        rw [hsplit, hstep, ih]
        simp [cleanupFolder, hp, hm]

theorem cleanup_fold_tracking_other (abbr ts : String) (l : List (FKey × BillFolder))
    (acc : List (FKey × BillFolder) × List (String × OrphanRec)) (id : String)
    (h : ∀ e ∈ l, e.1.2 ≠ id) :
    dictGet? (l.foldl (cleanup_step abbr ts) acc).2 id = dictGet? acc.2 id := by
  induction l generalizing acc with
  | nil => rfl
  | cons e rest ih =>
    obtain ⟨key, folder⟩ := e
    have hkey : key.2 ≠ id := h (key, folder) (List.mem_cons_self _ _)
    rw [List.foldl_cons, ih _ (fun x hx => h x (List.mem_cons_of_mem _ hx))]
    obtain ⟨done, tracking⟩ := acc
    cases hp : folder.placeholder with
    | none => simp [cleanup_step, hp]
    | some pid =>
      cases hm : folder.metadata with
      | some md =>
        simp only [cleanup_step, hp, hm, Option.isSome_some, if_true]
        by_cases he : (dictGet? tracking key.2).isSome = true
        · simp only [he, if_true]
          rw [dictGet?_erase, if_neg hkey]
        · simp [he]
      | none =>
        simp only [cleanup_step, hp, hm, Option.isSome_none, Bool.false_eq_true, if_false]
        cases hg : dictGet? tracking key.2 <;>
          simp only [hg] <;> rw [dictGet?_insert, if_neg hkey]

/-! ## Digit formatting lemmas -/

theorem charOfDigit_isDigit (n : Nat) : (charOfDigit n).isDigit = true := by
  unfold charOfDigit
  match n with
  | 0 | 1 | 2 | 3 | 4 | 5 | 6 | 7 | 8 | 9 => decide
  | n + 10 =>
    rw [List.getD_eq_default]
    · decide
    · simp

theorem charOfDigit_val (n : Nat) (h : n < 10) :
    (charOfDigit n).toNat - '0'.toNat = n := by
  interval_cases n <;> decide

theorem isDigit_ne_of {c x : Char} (hc : c.isDigit = true) (hx : x.isDigit = false) :
    c ≠ x := by
  intro h
  subst h
  rw [hc] at hx
  exact Bool.noConfusion hx

theorem natFromDigits_one (a : Char) :
    natFromDigits [a] = a.toNat - '0'.toNat := by
  simp [natFromDigits]

theorem natFromDigits_two (a b : Char) :
    natFromDigits [a, b] = (a.toNat - '0'.toNat) * 10 + (b.toNat - '0'.toNat) := by
  simp [natFromDigits, Nat.mul_comm]

theorem natFromDigits_three (a b c : Char) :
    natFromDigits [a, b, c] =
      ((a.toNat - '0'.toNat) * 10 + (b.toNat - '0'.toNat)) * 10 + (c.toNat - '0'.toNat) := by
  simp [natFromDigits, Nat.mul_comm]

theorem natFromDigits_four (a b c d : Char) :
    natFromDigits [a, b, c, d] =
      (((a.toNat - '0'.toNat) * 10 + (b.toNat - '0'.toNat)) * 10 +
        (c.toNat - '0'.toNat)) * 10 + (d.toNat - '0'.toNat) := by
  simp [natFromDigits, Nat.mul_comm]

theorem natFromDigits_natDigits (n : Nat) (h : n ≤ 9999) :
    natFromDigits (natDigits n) = n := by
  unfold natDigits
  by_cases h1 : n < 10
  · rw [if_pos h1, natFromDigits_one, charOfDigit_val n h1]
  · by_cases h2 : n < 100
    · rw [if_neg h1, if_pos h2, natFromDigits_two,
        charOfDigit_val _ (by omega), charOfDigit_val _ (by omega)]
      omega
    · by_cases h3 : n < 1000
      · rw [if_neg h1, if_neg h2, if_pos h3, natFromDigits_three,
          charOfDigit_val _ (by omega), charOfDigit_val _ (by omega),
          charOfDigit_val _ (by omega)]
        omega
      · rw [if_neg h1, if_neg h2, if_neg h3, natFromDigits_four,
          charOfDigit_val _ (by omega), charOfDigit_val _ (by omega),
          charOfDigit_val _ (by omega), charOfDigit_val _ (by omega)]
        omega

theorem natFromDigits_cons_zero (l : List Char) :
    natFromDigits ('0' :: l) = natFromDigits l := by
  show List.foldl _ (0 * 10 + ('0'.toNat - '0'.toNat)) l = List.foldl _ 0 l
  norm_num

theorem natDigits_all_digits (n : Nat) : ∀ c ∈ natDigits n, c.isDigit = true := by
  unfold natDigits
  split_ifs <;> intro c hc <;> simp only [List.mem_cons, List.mem_singleton,
    List.not_mem_nil, or_false] at hc
  · rw [hc]; exact charOfDigit_isDigit _
  · rcases hc with rfl | rfl <;> exact charOfDigit_isDigit _
  · rcases hc with rfl | rfl | rfl <;> exact charOfDigit_isDigit _
  · rcases hc with rfl | rfl | rfl | rfl <;> exact charOfDigit_isDigit _

theorem natDigits_length (n : Nat) :
    (natDigits n).length = if n < 10 then 1 else if n < 100 then 2 else
      if n < 1000 then 3 else 4 := by
  unfold natDigits
  split_ifs <;> rfl

theorem pad4L_length (n : Nat) (h : n ≤ 9999) : (pad4L n).length = 4 := by
  unfold pad4L
  split_ifs <;>
    · simp only [List.length_cons, natDigits_length]
      split_ifs <;> omega

theorem pad2L_length (n : Nat) (h : n ≤ 99) : (pad2L n).length = 2 := by
  unfold pad2L
  split_ifs <;>
    · simp only [List.length_cons, natDigits_length]
      split_ifs <;> omega

theorem pad4L_all_digits (n : Nat) : ∀ c ∈ pad4L n, c.isDigit = true := by
  unfold pad4L
  split_ifs <;> intro c hc
  · rcases List.mem_cons.mp hc with rfl | hc
    · decide
    rcases List.mem_cons.mp hc with rfl | hc
    · decide
    rcases List.mem_cons.mp hc with rfl | hc
    · decide
    exact natDigits_all_digits n c hc
  · rcases List.mem_cons.mp hc with rfl | hc
    · decide
    rcases List.mem_cons.mp hc with rfl | hc
    · decide
    exact natDigits_all_digits n c hc
  · rcases List.mem_cons.mp hc with rfl | hc
    · decide
    exact natDigits_all_digits n c hc
  · exact natDigits_all_digits n c hc

theorem pad2L_all_digits (n : Nat) : ∀ c ∈ pad2L n, c.isDigit = true := by
  unfold pad2L
  split_ifs <;> intro c hc
  · rcases List.mem_cons.mp hc with rfl | hc
    · decide
    · exact natDigits_all_digits n c hc
  · exact natDigits_all_digits n c hc

theorem natFromDigits_pad4L (n : Nat) (h : n ≤ 9999) :
    natFromDigits (pad4L n) = n := by
  unfold pad4L
  split_ifs
  · rw [natFromDigits_cons_zero, natFromDigits_cons_zero, natFromDigits_cons_zero]
    exact natFromDigits_natDigits n h
  · rw [natFromDigits_cons_zero, natFromDigits_cons_zero]
    exact natFromDigits_natDigits n h
  · rw [natFromDigits_cons_zero]
    exact natFromDigits_natDigits n h
  · exact natFromDigits_natDigits n h

theorem natFromDigits_pad2L (n : Nat) (h : n ≤ 99) :
    natFromDigits (pad2L n) = n := by
  unfold pad2L
  split_ifs
  · rw [natFromDigits_cons_zero]
    exact natFromDigits_natDigits n (by omega)
  · exact natFromDigits_natDigits n (by omega)

theorem parseDigits_pad4L (n : Nat) (h : n ≤ 9999) :
    parseDigits 4 (pad4L n) = some n := by
  unfold parseDigits
  rw [if_pos ⟨pad4L_length n h, List.all_eq_true.mpr
    (fun c hc => pad4L_all_digits n c hc)⟩, natFromDigits_pad4L n h]

theorem parseDigits_pad2L (n : Nat) (h : n ≤ 99) :
    parseDigits 2 (pad2L n) = some n := by
  unfold parseDigits
  rw [if_pos ⟨pad2L_length n h, List.all_eq_true.mpr
    (fun c hc => pad2L_all_digits n c hc)⟩, natFromDigits_pad2L n h]

/-! ## Split and round-trip lemmas -/

theorem splitOnChar_ne_nil (sep : Char) (l : List Char) : splitOnChar sep l ≠ [] := by
  cases l with
  | nil => simp [splitOnChar]
  | cons c rest =>
    unfold splitOnChar
    cases splitOnChar sep rest with
    | nil => simp
    | cons h t => by_cases hc : c = sep <;> simp [hc]

theorem splitOnChar_cons (sep c : Char) (rest : List Char) :
    splitOnChar sep (c :: rest) =
      match splitOnChar sep rest with
      | [] => [[]]
      | h :: t => if c = sep then [] :: h :: t else (c :: h) :: t := rfl

theorem splitOnChar_no_sep (sep : Char) (l : List Char) (h : ∀ c ∈ l, c ≠ sep) :
    splitOnChar sep l = [l] := by
  induction l with
  | nil => rfl
  | cons c rest ih =>
    rw [splitOnChar_cons, ih (fun x hx => h x (List.mem_cons_of_mem _ hx))]
    simp [h c (List.mem_cons_self _ _)]

theorem splitOnChar_append (sep : Char) (A B : List Char) (h : ∀ c ∈ A, c ≠ sep) :
    splitOnChar sep (A ++ sep :: B) = A :: splitOnChar sep B := by
  induction A with
  | nil =>
    rw [List.nil_append]
    cases hB : splitOnChar sep B with
    | nil => exact absurd hB (splitOnChar_ne_nil sep B)
    | cons hh tt =>
      rw [splitOnChar_cons, hB]
      simp
  | cons a A' ih =>
    rw [List.cons_append, splitOnChar_cons,
      ih (fun x hx => h x (List.mem_cons_of_mem _ hx))]
    simp [h a (List.mem_cons_self _ _)]

theorem contains_eq_false_of (l : List Char) (x : Char) (h : ∀ c ∈ l, c ≠ x) :
    l.contains x = false := by
  induction l with
  | nil => rfl
  | cons c rest ih =>
    have hcx : ¬ (x == c) = true := by
      simp only [beq_iff_eq]
      intro hx
      exact h c (List.mem_cons_self _ _) hx.symm
    show (x == c || List.elem x rest) = false
    rw [Bool.or_eq_false_iff]
    refine ⟨by simpa using hcx, ?_⟩
    exact ih (fun z hz => h z (List.mem_cons_of_mem _ hz))

theorem contains_eq_true_of_mem (l : List Char) (x : Char) (h : x ∈ l) :
    l.contains x = true := by
  induction l with
  | nil => simp at h
  | cons c rest ih =>
    show (x == c || List.elem x rest) = true
    rcases List.mem_cons.mp h with rfl | h'
    · simp
    · simp only [Bool.or_eq_true]
      exact Or.inr (ih h')

theorem rstripZ_getLast (l : List Char) (c : Char) (hl : l.getLast? = some c)
    (hc : c ≠ 'Z') : rstripZ (String.mk l) = String.mk l := by
  unfold rstripZ
  have hrev : l.reverse.head? = some c := by rw [List.head?_reverse]; exact hl
  cases hr : l.reverse with
  | nil => rw [hr] at hrev; simp at hrev
  | cons c0 t =>
    rw [hr] at hrev
    simp only [List.head?_cons, Option.some.injEq] at hrev
    subst hrev
    show String.mk ((List.dropWhile _ (String.mk l).toList.reverse).reverse) = String.mk l
    have htl : (String.mk l).toList = l := rfl
    rw [htl, hr, List.dropWhile_cons]
    simp only [hc, decide_eq_true_eq, if_neg, if_false]
    rw [← hr, List.reverse_reverse]

theorem rstripZ_append_Z (l : List Char) (c : Char) (hl : l.getLast? = some c)
    (hc : c ≠ 'Z') : rstripZ (String.mk (l ++ ['Z'])) = String.mk l := by
  unfold rstripZ
  have hrev : l.reverse.head? = some c := by rw [List.head?_reverse]; exact hl
  cases hr : l.reverse with
  | nil => rw [hr] at hrev; simp at hrev
  | cons c0 t =>
    rw [hr] at hrev
    simp only [List.head?_cons, Option.some.injEq] at hrev
    subst hrev
    show String.mk ((List.dropWhile (fun c => decide (c = 'Z'))
      (String.mk (l ++ ['Z'])).toList.reverse).reverse) = String.mk l
    have htl : (String.mk (l ++ ['Z'])).toList = l ++ ['Z'] := rfl
    have hstep : (l ++ ['Z']).reverse = 'Z' :: l.reverse := by
      rw [List.reverse_append]
      rfl
    have h1 : List.dropWhile (fun c => decide (c = 'Z')) ('Z' :: l.reverse) =
        List.dropWhile (fun c => decide (c = 'Z')) l.reverse := by
      rw [List.dropWhile_cons]
      simp
    have h2 : List.dropWhile (fun c => decide (c = 'Z')) l.reverse = l.reverse := by
      rw [hr, List.dropWhile_cons]
      simp [hc]
    rw [htl, hstep, h1, h2, List.reverse_reverse]

theorem pad2L_ne_nil (n : Nat) : pad2L n ≠ [] := by
  unfold pad2L natDigits
  split_ifs <;> simp

theorem getLast?_pad2L (n : Nat) :
    ∃ c, (pad2L n).getLast? = some c ∧ c.isDigit = true := by
  unfold pad2L natDigits
  split_ifs <;> exact ⟨_, rfl, charOfDigit_isDigit _⟩

theorem head?_pad4L (n : Nat) :
    ∃ c, (pad4L n).head? = some c ∧ c.isDigit = true := by
  unfold pad4L natDigits
  split_ifs <;>
    first
    | exact ⟨'0', rfl, by decide⟩
    | exact ⟨_, rfl, charOfDigit_isDigit _⟩

theorem getLast?_append_cons (A : List Char) (c : Char) (B : List Char) (h : B ≠ []) :
    (A ++ c :: B).getLast? = B.getLast? := by
  cases B with
  | nil => exact absurd rfl h
  | cons b B' =>
    rw [List.getLast?_append, List.getLast?_cons_cons]
    cases hB : (b :: B').getLast? with
    | none => simp at hB
    | some x => rfl

/-- Characters of a formatted date part are digits or dashes. -/
theorem mem_datePartL {c : Char} {y mo d : Nat}
    (hc : c ∈ pad4L y ++ '-' :: (pad2L mo ++ '-' :: pad2L d)) :
    c.isDigit = true ∨ c = '-' := by
  rcases List.mem_append.mp hc with h | h
  · exact Or.inl (pad4L_all_digits y c h)
  · rcases List.mem_cons.mp h with rfl | h
    · exact Or.inr rfl
    rcases List.mem_append.mp h with h | h
    · exact Or.inl (pad2L_all_digits mo c h)
    rcases List.mem_cons.mp h with rfl | h
    · exact Or.inr rfl
    · exact Or.inl (pad2L_all_digits d c h)

/-- Characters of a formatted time part are digits or colons. -/
theorem mem_timePartL {c : Char} {h m s : Nat}
    (hc : c ∈ pad2L h ++ ':' :: (pad2L m ++ ':' :: pad2L s)) :
    c.isDigit = true ∨ c = ':' := by
  rcases List.mem_append.mp hc with hx | hx
  · exact Or.inl (pad2L_all_digits h c hx)
  · rcases List.mem_cons.mp hx with rfl | hx
    · exact Or.inr rfl
    rcases List.mem_append.mp hx with hx | hx
    · exact Or.inl (pad2L_all_digits m c hx)
    rcases List.mem_cons.mp hx with rfl | hx
    · exact Or.inr rfl
    · exact Or.inl (pad2L_all_digits s c hx)

theorem validDate_bounds {y mo d : Nat} (h : validDate y mo d = true) :
    1 ≤ mo ∧ mo ≤ 12 ∧ 1 ≤ d ∧ d ≤ 31 ∧ y ≤ 9999 := by
  unfold validDate at h
  simp only [Bool.and_eq_true, decide_eq_true_eq] at h
  omega

theorem validTime_bounds {h m s : Nat} (hv : validTime h m s = true) :
    h ≤ 23 ∧ m ≤ 59 ∧ s ≤ 59 := by
  unfold validTime at hv
  simp only [Bool.and_eq_true, decide_eq_true_eq] at hv
  omega

theorem parseDatePart_round (y mo d : Nat) (hv : validDate y mo d = true) :
    parseDatePart (pad4L y ++ '-' :: (pad2L mo ++ '-' :: pad2L d)) = some (y, mo, d) := by
  obtain ⟨h1, h2, h3, h4, h5⟩ := validDate_bounds hv
  unfold parseDatePart
  rw [splitOnChar_append '-' (pad4L y) _
      (fun c hc => isDigit_ne_of (pad4L_all_digits y c hc) (by decide)),
    splitOnChar_append '-' (pad2L mo) _
      (fun c hc => isDigit_ne_of (pad2L_all_digits mo c hc) (by decide)),
    splitOnChar_no_sep '-' (pad2L d)
      (fun c hc => isDigit_ne_of (pad2L_all_digits d c hc) (by decide))]
  simp only [parseDigits_pad4L y h5, parseDigits_pad2L mo (show mo ≤ 99 by omega),
    parseDigits_pad2L d (show d ≤ 99 by omega)]
  simp [hv]

theorem parseTimePart_round (h m s : Nat) (hv : validTime h m s = true) :
    parseTimePart (pad2L h ++ ':' :: (pad2L m ++ ':' :: pad2L s)) = some (h, m, s) := by
  obtain ⟨h1, h2, h3⟩ := validTime_bounds hv
  unfold parseTimePart
  rw [splitOnChar_append ':' (pad2L h) _
      (fun c hc => isDigit_ne_of (pad2L_all_digits h c hc) (by decide)),
    splitOnChar_append ':' (pad2L m) _
      (fun c hc => isDigit_ne_of (pad2L_all_digits m c hc) (by decide)),
    splitOnChar_no_sep ':' (pad2L s)
      (fun c hc => isDigit_ne_of (pad2L_all_digits s c hc) (by decide))]
  simp only [parseDigits_pad2L h (show h ≤ 99 by omega),
    parseDigits_pad2L m (show m ≤ 99 by omega), parseDigits_pad2L s (show s ≤ 99 by omega)]
  simp [hv]

theorem to_dt_obj_some (s : String) :
    to_dt_obj (some s) =
      (if ((rstripZ s).toList).contains '-' = true then parseIsoT (rstripZ s).toList
        else parseCompact (rstripZ s).toList) := rfl

theorem append3_ne_nil (a b c : List Char) (h : a ≠ []) : a ++ (b ++ c) ≠ [] := by
  intro hh
  exact h (List.append_eq_nil.mp hh).1

theorem dtValid_parts {dt : DateTime} (h : dtValid dt = true) :
    validDate dt.year dt.month dt.day = true ∧
      validTime dt.hour dt.minute dt.second = true := by
  unfold dtValid at h
  simp only [Bool.and_eq_true] at h
  exact h

/-- The ISO rendering of a valid datetime parses back to it. -/
theorem to_dt_obj_strftimeIso (dt : DateTime) (hv : dtValid dt = true) :
    to_dt_obj (some (strftimeIso dt)) = some dt := by
  obtain ⟨hd, ht⟩ := dtValid_parts hv
  obtain ⟨c, hlastp, hdig⟩ := getLast?_pad2L dt.second
  have hlast : (strftimeIsoL dt).getLast? = some c := by
    unfold strftimeIsoL
    rw [getLast?_append_cons _ _ _ (by simp), getLast?_append_cons _ _ _ (by simp),
      getLast?_append_cons _ _ _ (by simp), getLast?_append_cons _ _ _ (by simp),
      getLast?_append_cons _ _ _ (pad2L_ne_nil _)]
    exact hlastp
  have hstrip : rstripZ (strftimeIso dt) = strftimeIso dt :=
    rstripZ_getLast (strftimeIsoL dt) c hlast (isDigit_ne_of hdig (by decide))
  have hshape : strftimeIsoL dt =
      (pad4L dt.year ++ '-' :: (pad2L dt.month ++ '-' :: pad2L dt.day)) ++
        'T' :: (pad2L dt.hour ++ ':' :: (pad2L dt.minute ++ ':' :: pad2L dt.second)) := by
    unfold strftimeIsoL
    simp [List.append_assoc]
  have hcontains : (strftimeIsoL dt).contains '-' = true := by
    apply contains_eq_true_of_mem
    rw [hshape]
    exact List.mem_append_left _ (List.mem_append_right _ (List.mem_cons_self _ _))
  rw [to_dt_obj_some, hstrip]
  have htl : (strftimeIso dt).toList = strftimeIsoL dt := rfl
  rw [htl, hcontains]
  simp only [if_true]
  unfold parseIsoT
  rw [hshape, splitOnChar_append 'T' _ _
    (fun x hx => by
      rcases mem_datePartL hx with hdg | rfl
      · exact isDigit_ne_of hdg (by decide)
      · decide),
    splitOnChar_no_sep 'T' _
    (fun x hx => by
      rcases mem_timePartL hx with hdg | rfl
      · exact isDigit_ne_of hdg (by decide)
      · decide)]
  simp only [parseDatePart_round dt.year dt.month dt.day hd,
    parseTimePart_round dt.hour dt.minute dt.second ht]

/-- The compact rendering of a valid datetime parses back to it. -/
theorem to_dt_obj_strftimeCompactZ (dt : DateTime) (hv : dtValid dt = true) :
    to_dt_obj (some (strftimeCompactZ dt)) = some dt := by
  obtain ⟨hd, ht⟩ := dtValid_parts hv
  obtain ⟨h1, h2, h3, h4, h5⟩ := validDate_bounds hd
  obtain ⟨h6, h7, h8⟩ := validTime_bounds ht
  obtain ⟨c, hlastp, hdig⟩ := getLast?_pad2L dt.second
  have hshape : strftimeCompactZL dt =
      ((pad4L dt.year ++ (pad2L dt.month ++ pad2L dt.day)) ++
        'T' :: ((pad2L dt.hour ++ (pad2L dt.minute ++ pad2L dt.second)))) ++ ['Z'] := by
    unfold strftimeCompactZL
    simp [List.append_assoc]
  have hlast : ((pad4L dt.year ++ (pad2L dt.month ++ pad2L dt.day)) ++
      'T' :: (pad2L dt.hour ++ (pad2L dt.minute ++ pad2L dt.second))).getLast? = some c := by
    rw [getLast?_append_cons _ _ _ (append3_ne_nil _ _ _ (pad2L_ne_nil _)),
      List.getLast?_append, List.getLast?_append, hlastp]
    rfl
  have hstrip : rstripZ (strftimeCompactZ dt) =
      String.mk ((pad4L dt.year ++ (pad2L dt.month ++ pad2L dt.day)) ++
        'T' :: (pad2L dt.hour ++ (pad2L dt.minute ++ pad2L dt.second))) := by
    show rstripZ (String.mk (strftimeCompactZL dt)) = _
    rw [hshape]
    exact rstripZ_append_Z _ c hlast (isDigit_ne_of hdig (by decide))
  have hmem : ∀ x ∈ (pad4L dt.year ++ (pad2L dt.month ++ pad2L dt.day)) ++
      'T' :: (pad2L dt.hour ++ (pad2L dt.minute ++ pad2L dt.second)),
      x.isDigit = true ∨ x = 'T' := by
    intro x hx
    rcases List.mem_append.mp hx with hx | hx
    · rcases List.mem_append.mp hx with hx | hx
      · exact Or.inl (pad4L_all_digits _ x hx)
      rcases List.mem_append.mp hx with hx | hx
      · exact Or.inl (pad2L_all_digits _ x hx)
      · exact Or.inl (pad2L_all_digits _ x hx)
    · rcases List.mem_cons.mp hx with rfl | hx
      · exact Or.inr rfl
      rcases List.mem_append.mp hx with hx | hx
      · exact Or.inl (pad2L_all_digits _ x hx)
      rcases List.mem_append.mp hx with hx | hx
      · exact Or.inl (pad2L_all_digits _ x hx)
      · exact Or.inl (pad2L_all_digits _ x hx)
  have hcontains : ((pad4L dt.year ++ (pad2L dt.month ++ pad2L dt.day)) ++
      'T' :: (pad2L dt.hour ++ (pad2L dt.minute ++ pad2L dt.second))).contains '-' = false := by
    apply contains_eq_false_of
    intro x hx
    rcases hmem x hx with hdg | rfl
    · exact isDigit_ne_of hdg (by decide)
    · decide
  rw [to_dt_obj_some, hstrip]
  have htl : (String.mk ((pad4L dt.year ++ (pad2L dt.month ++ pad2L dt.day)) ++
      'T' :: (pad2L dt.hour ++ (pad2L dt.minute ++ pad2L dt.second)))).toList =
      (pad4L dt.year ++ (pad2L dt.month ++ pad2L dt.day)) ++
        'T' :: (pad2L dt.hour ++ (pad2L dt.minute ++ pad2L dt.second)) := rfl
  rw [htl, hcontains]
  simp only [Bool.false_eq_true, if_false]
  unfold parseCompact
  rw [splitOnChar_append 'T' _ _
    (fun x hx => by
      rcases List.mem_append.mp hx with hx | hx
      · exact isDigit_ne_of (pad4L_all_digits _ x hx) (by decide)
      rcases List.mem_append.mp hx with hx | hx
      · exact isDigit_ne_of (pad2L_all_digits _ x hx) (by decide)
      · exact isDigit_ne_of (pad2L_all_digits _ x hx) (by decide)),
    splitOnChar_no_sep 'T' _
    (fun x hx => by
      rcases List.mem_append.mp hx with hx | hx
      · exact isDigit_ne_of (pad2L_all_digits _ x hx) (by decide)
      rcases List.mem_append.mp hx with hx | hx
      · exact isDigit_ne_of (pad2L_all_digits _ x hx) (by decide)
      · exact isDigit_ne_of (pad2L_all_digits _ x hx) (by decide))]
  have e1 : (pad4L dt.year ++ (pad2L dt.month ++ pad2L dt.day)).take 4 = pad4L dt.year := by
    rw [show (4 : Nat) = (pad4L dt.year).length from (pad4L_length _ h5).symm]
    exact List.take_left _ _
  have e2 : (pad4L dt.year ++ (pad2L dt.month ++ pad2L dt.day)).drop 4 =
      pad2L dt.month ++ pad2L dt.day := by
    rw [show (4 : Nat) = (pad4L dt.year).length from (pad4L_length _ h5).symm]
    exact List.drop_left _ _
  have e3 : (pad2L dt.month ++ pad2L dt.day).take 2 = pad2L dt.month := by
    rw [show (2 : Nat) = (pad2L dt.month).length from (pad2L_length _ (by omega)).symm]
    exact List.take_left _ _
  have e4 : (pad4L dt.year ++ (pad2L dt.month ++ pad2L dt.day)).drop 6 = pad2L dt.day := by
    rw [show (6 : Nat) = 4 + 2 from rfl, ← List.drop_drop, e2,
      show (2 : Nat) = (pad2L dt.month).length from (pad2L_length _ (by omega)).symm]
    exact List.drop_left _ _
  have e5 : (pad2L dt.hour ++ (pad2L dt.minute ++ pad2L dt.second)).take 2 =
      pad2L dt.hour := by
    rw [show (2 : Nat) = (pad2L dt.hour).length from (pad2L_length _ (by omega)).symm]
    exact List.take_left _ _
  have e6 : (pad2L dt.hour ++ (pad2L dt.minute ++ pad2L dt.second)).drop 2 =
      pad2L dt.minute ++ pad2L dt.second := by
    rw [show (2 : Nat) = (pad2L dt.hour).length from (pad2L_length _ (by omega)).symm]
    exact List.drop_left _ _
  have e7 : (pad2L dt.minute ++ pad2L dt.second).take 2 = pad2L dt.minute := by
    rw [show (2 : Nat) = (pad2L dt.minute).length from (pad2L_length _ (by omega)).symm]
    exact List.take_left _ _
  have e8 : (pad2L dt.hour ++ (pad2L dt.minute ++ pad2L dt.second)).drop 4 =
      pad2L dt.second := by
    rw [show (4 : Nat) = 2 + 2 from rfl, ← List.drop_drop, e6,
      show (2 : Nat) = (pad2L dt.minute).length from (pad2L_length _ (by omega)).symm]
    exact List.drop_left _ _
  simp only [e1, e2, e3, e4, e5, e6, e7, e8]
  simp only [parseDigits_pad4L _ h5, parseDigits_pad2L _ (show dt.month ≤ 99 by omega),
    parseDigits_pad2L _ (show dt.day ≤ 99 by omega),
    parseDigits_pad2L _ (show dt.hour ≤ 99 by omega),
    parseDigits_pad2L _ (show dt.minute ≤ 99 by omega),
    parseDigits_pad2L _ (show dt.second ≤ 99 by omega)]
  simp [hd, ht]

theorem parseDatePart_valid {l : List Char} {y mo d : Nat}
    (h : parseDatePart l = some (y, mo, d)) : validDate y mo d = true := by
  unfold parseDatePart at h
  split at h
  · split at h
    · split at h
      · injection h with h
        injection h with h1 h
        injection h with h2 h3
        subst h1; subst h2; subst h3
        assumption
      · exact Option.noConfusion h
    · exact Option.noConfusion h
  · exact Option.noConfusion h

theorem parseTimePart_valid {l : List Char} {h m s : Nat}
    (hp : parseTimePart l = some (h, m, s)) : validTime h m s = true := by
  unfold parseTimePart at hp
  split at hp
  · split at hp
    · split at hp
      · injection hp with hp
        injection hp with h1 hp
        injection hp with h2 h3
        subst h1; subst h2; subst h3
        assumption
      · exact Option.noConfusion hp
    · exact Option.noConfusion hp
  · exact Option.noConfusion hp

theorem parseIsoT_valid {cs : List Char} {dt : DateTime}
    (h : parseIsoT cs = some dt) : dtValid dt = true := by
  unfold parseIsoT at h
  split at h
  · split at h
    · rename_i y mo da hh mm ss hdate htime
      injection h with h
      subst h
      unfold dtValid
      rw [Bool.and_eq_true]
      exact ⟨parseDatePart_valid hdate, parseTimePart_valid htime⟩
    · exact Option.noConfusion h
  · exact Option.noConfusion h

theorem parseCompact_valid {cs : List Char} {dt : DateTime}
    (h : parseCompact cs = some dt) : dtValid dt = true := by
  unfold parseCompact at h
  split at h
  · split at h
    · split at h
      case _ hcond =>
        injection h with h
        subst h
        unfold dtValid
        rw [Bool.and_eq_true] at hcond ⊢
        exact hcond
      · exact Option.noConfusion h
    · exact Option.noConfusion h
  · exact Option.noConfusion h

theorem to_dt_obj_valid {x : Option String} {dt : DateTime}
    (h : to_dt_obj x = some dt) : dtValid dt = true := by
  cases x with
  | none => exact Option.noConfusion h
  | some s =>
    rw [to_dt_obj_some] at h
    split at h
    · exact parseIsoT_valid h
    · exact parseCompact_valid h

theorem dtValid_dt1900 : dtValid dt1900 = true := by decide

theorem read_latest_timestamps_valid (f : Option (String × String)) :
    ledValid (read_latest_timestamps f) = true := by
  unfold read_latest_timestamps ledValid
  cases f with
  | none => decide
  | some p =>
    rw [Bool.and_eq_true]
    constructor
    · cases hv : to_dt_obj (some p.1) with
      | none => simp [hv, dtValid_dt1900]
      | some d => simp [hv, to_dt_obj_valid hv]
    · cases hv : to_dt_obj (some p.2) with
      | none => simp [hv, dtValid_dt1900]
      | some d => simp [hv, to_dt_obj_valid hv]

theorem head?_strftimeCompactZL (dt : DateTime) :
    ∃ c, (strftimeCompactZL dt).head? = some c ∧ c.isDigit = true := by
  obtain ⟨c, hc, hd⟩ := head?_pad4L dt.year
  refine ⟨c, ?_, hd⟩
  unfold strftimeCompactZL
  cases hp : pad4L dt.year with
  | nil => rw [hp] at hc; exact Option.noConfusion hc
  | cons a t =>
    rw [hp] at hc
    simp only [List.head?_cons, Option.some.injEq] at hc
    subst hc
    rfl

/-- The compact timestamp of a valid datetime is never one of the sentinel
strings or `"unknown"`: its first character is a digit. -/
theorem strftimeCompactZ_ne_of_head (dt : DateTime) (s : String)
    (h : ∀ c, s.toList.head? = some c → c.isDigit = false) :
    strftimeCompactZ dt ≠ s := by
  intro he
  obtain ⟨c, hc, hd⟩ := head?_strftimeCompactZL dt
  have hts : (strftimeCompactZ dt).toList = strftimeCompactZL dt := rfl
  rw [← hts, he] at hc
  have := h c hc
  rw [hd] at this
  exact Bool.noConfusion this

theorem head_not_digit_of_eq {s : String} {c0 : Char}
    (hh : s.toList.head? = some c0) (hd : c0.isDigit = false) :
    ∀ c, s.toList.head? = some c → c.isDigit = false := by
  intro c hc
  rw [hh] at hc
  injection hc with hc
  rw [← hc]
  exact hd

theorem fromisoformat?_valid {s : String} {dt : DateTime}
    (h : fromisoformat? s = some dt) : dtValid dt = true := by
  unfold fromisoformat? at h
  dsimp only at h
  split at h
  · obtain ⟨p, hp, hmap⟩ := Option.map_eq_some'.mp h
    obtain ⟨y, mo, da⟩ := p
    subst hmap
    unfold dtValid
    rw [Bool.and_eq_true]
    refine ⟨parseDatePart_valid hp, ?_⟩
    show validTime 0 0 0 = true
    decide
  · split at h
    · rename_i y mo da hh mm ss hdate htime
      injection h with h
      subst h
      unfold dtValid
      rw [Bool.and_eq_true]
      exact ⟨parseDatePart_valid hdate, parseTimePart_valid htime⟩
    · exact Option.noConfusion h
  · exact Option.noConfusion h

theorem format_timestamp_shape {d s : String} (h : format_timestamp d = some s) :
    ∃ dt, fromisoformat? d = some dt ∧ dtValid dt = true ∧ s = strftimeCompactZ dt := by
  unfold format_timestamp at h
  obtain ⟨dt, hdt, hmap⟩ := Option.map_eq_some'.mp h
  exact ⟨dt, hdt, fromisoformat?_valid hdt, hmap.symm⟩

theorem dtLt_iff (a b : DateTime) : dtLt a b = true ↔ a.key < b.key := by
  simp [dtLt]

/-! ## Ledger monotonicity -/

theorem update_latest_none (e : DateTime) : update_latest_timestamp none e = e := rfl

theorem update_latest_some (cdt e : DateTime) :
    update_latest_timestamp (some cdt) e = if dtLt e cdt = true then cdt else e := rfl

theorem update_latest_ge (c : Option DateTime) (e : DateTime) :
    e.key ≤ (update_latest_timestamp c e).key := by
  cases c with
  | none => rw [update_latest_none]
  | some cdt =>
    rw [update_latest_some]
    by_cases h : dtLt e cdt = true
    · rw [if_pos h]
      exact Nat.le_of_lt ((dtLt_iff e cdt).mp h)
    · rw [if_neg h]

theorem update_latest_ge_current (cdt e : DateTime) :
    cdt.key ≤ (update_latest_timestamp (some cdt) e).key := by
  rw [update_latest_some]
  by_cases h : dtLt e cdt = true
  · rw [if_pos h]
  · rw [if_neg h]
    rw [dtLt_iff] at h
    omega

theorem update_latest_valid (c : Option DateTime) (e : DateTime)
    (hc : ∀ d, c = some d → dtValid d = true) (he : dtValid e = true) :
    dtValid (update_latest_timestamp c e) = true := by
  cases c with
  | none => rw [update_latest_none]; exact he
  | some cdt =>
    rw [update_latest_some]
    by_cases h : dtLt e cdt = true
    · rw [if_pos h]; exact hc cdt rfl
    · rw [if_neg h]; exact he

/-- `handle_vote_event`: the events ledger is untouched, the vote-events
ledger only advances and stays valid, and a record whose date parses pushes
the vote-events ledger to at least its instant. -/
theorem handle_vote_event_ledger (data : Record) (filename : String)
    (folders : List (FKey × BillFolder)) (errors : ErrSink) (ledger : Ledger) :
    ((handle_vote_event data filename folders errors ledger).2.2.1).events =
        ledger.events ∧
    ledger.vote_events.key ≤
      ((handle_vote_event data filename folders errors ledger).2.2.1).vote_events.key ∧
    (dtValid ledger.vote_events = true →
      dtValid ((handle_vote_event data filename folders errors
        ledger).2.2.1).vote_events = true) ∧
    (∀ dt0, falsy data.bill_identifier = false → falsy data.start_date = false →
      fromisoformat? (data.start_date.getD "") = some dt0 →
      dt0.key ≤
        ((handle_vote_event data filename folders errors
          ledger).2.2.1).vote_events.key) := by
  unfold handle_vote_event validate_required_field
  by_cases hid : falsy data.bill_identifier = true
  · rw [if_pos hid]
    refine ⟨rfl, Nat.le_refl _, fun h => h, ?_⟩
    intro dt0 hfb _ _
    rw [hid] at hfb
    exact Bool.noConfusion hfb
  · rw [Bool.not_eq_true] at hid
    rw [if_neg (by rw [hid]; exact Bool.noConfusion)]
    cases hb : data.bill_identifier with
    | none => rw [hb] at hid; simp [falsy] at hid
    | some b =>
      dsimp only
      cases hts : format_timestampOpt data.start_date with
      | none =>
        rw [if_neg (fun hh => Option.noConfusion hh)]
        have hto : to_dt_obj none = none := rfl
        rw [hto]
        refine ⟨rfl, update_latest_ge none _, ?_, ?_⟩
        · intro hv
          exact update_latest_valid none _ (fun d hd => Option.noConfusion hd) hv
        · intro dt0 _ hsd hiso
          exfalso
          unfold format_timestampOpt at hts
          cases hsdv : data.start_date with
          | none => rw [hsdv] at hsd; simp [falsy] at hsd
          | some sv =>
            rw [hsdv] at hts
            unfold format_timestamp at hts
            dsimp only at hts
            rw [hsdv] at hiso
            simp only [Option.getD_some] at hiso
            rw [hiso] at hts
            simp only [Option.map_some'] at hts
            exact Option.noConfusion hts
      | some ts =>
        by_cases hunk : (some ts : Option String) = some "unknown"
        · rw [if_pos hunk]
          refine ⟨rfl, Nat.le_refl _, fun h => h, ?_⟩
          intro dt0 _ hsd hiso
          exfalso
          unfold format_timestampOpt at hts
          cases hsdv : data.start_date with
          | none => rw [hsdv] at hsd; simp [falsy] at hsd
          | some sv =>
            rw [hsdv] at hts
            rw [hsdv] at hiso
            simp only [Option.getD_some] at hiso
            obtain ⟨dtx, hdtx, hvx, hsx⟩ := format_timestamp_shape hts
            rw [Option.some.injEq] at hunk
            rw [hsx] at hunk
            exact strftimeCompactZ_ne_of_head dtx "unknown" (head_not_digit_of_eq rfl (by decide)) hunk
        · rw [if_neg hunk]
          refine ⟨rfl, update_latest_ge _ _, ?_, ?_⟩
          · intro hv
            refine update_latest_valid _ _ ?_ hv
            intro dd hdd
            exact to_dt_obj_valid hdd
          · intro dt0 _ hsd hiso
            unfold format_timestampOpt at hts
            cases hsdv : data.start_date with
            | none => rw [hsdv] at hsd; simp [falsy] at hsd
            | some sv =>
              rw [hsdv] at hts
              rw [hsdv] at hiso
              simp only [Option.getD_some] at hiso
              obtain ⟨dtx, hdtx, hvx, hsx⟩ := format_timestamp_shape hts
              rw [hiso] at hdtx
              injection hdtx with hdtx
              subst hdtx
              have hround : to_dt_obj (some ts) = some dt0 := by
                rw [hsx]
                exact to_dt_obj_strftimeCompactZ dt0 hvx
              rw [hround]
              exact update_latest_ge_current dt0 ledger.vote_events

theorem ite_isNone_none {α : Type} (a b : α) :
    (if (none : Option String).isNone = true then a else b) = a := rfl

/-- `handle_event` (as called by the router, with no resolved session or
bill): the vote-events ledger is untouched, the events ledger only advances
and stays valid, and a record whose date parses pushes the events ledger to
at least its instant. -/
theorem handle_event_ledger (data : Record) (filename : String)
    (events : List ((String × String) × Record)) (errors : ErrSink) (ledger : Ledger) :
    ((handle_event data filename none none events errors ledger).2.2.1).vote_events =
        ledger.vote_events ∧
    ledger.events.key ≤
      ((handle_event data filename none none events errors ledger).2.2.1).events.key ∧
    (dtValid ledger.events = true →
      dtValid ((handle_event data filename none none events errors
        ledger).2.2.1).events = true) ∧
    (∀ dt0, falsy data.bill_identifier = false → falsy data.start_date = false →
      fromisoformat? (data.start_date.getD "") = some dt0 →
      dt0.key ≤
        ((handle_event data filename none none events errors
          ledger).2.2.1).events.key) := by
  unfold handle_event validate_required_field
  by_cases hsd : falsy data.start_date = true
  · rw [if_pos hsd]
    refine ⟨rfl, Nat.le_refl _, fun h => h, ?_⟩
    intro dt0 _ hfs _
    rw [hsd] at hfs
    exact Bool.noConfusion hfs
  · rw [Bool.not_eq_true] at hsd
    rw [if_neg (by rw [hsd]; exact Bool.noConfusion)]
    cases hst : data.start_date with
    | none => rw [hst] at hsd; simp [falsy] at hsd
    | some sd =>
      dsimp only
      rw [ite_isNone_none]
      by_cases hbi : falsy data.bill_identifier = true
      · rw [if_pos hbi]
        refine ⟨rfl, Nat.le_refl _, fun h => h, ?_⟩
        intro dt0 hfb _ _
        rw [hbi] at hfb
        exact Bool.noConfusion hfb
      · rw [Bool.not_eq_true] at hbi
        rw [if_neg (by rw [hbi]; exact Bool.noConfusion)]
        cases hb : data.bill_identifier with
        | none => rw [hb] at hbi; simp [falsy] at hbi
        | some b =>
          dsimp only
          cases hts : format_timestamp sd with
          | none =>
            rw [if_neg (fun hh => Option.noConfusion hh)]
            have hto : to_dt_obj none = none := rfl
            rw [hto, update_latest_none]
            refine ⟨rfl, Nat.le_refl _, fun h => h, ?_⟩
            intro dt0 _ _ hiso
            exfalso
            simp only [Option.getD_some] at hiso
            unfold format_timestamp at hts
            rw [hiso] at hts
            simp only [Option.map_some'] at hts
            exact Option.noConfusion hts
          | some ts =>
            by_cases hunk : (some ts : Option String) = some "unknown"
            · rw [if_pos hunk]
              refine ⟨rfl, Nat.le_refl _, fun h => h, ?_⟩
              intro dt0 _ _ hiso
              exfalso
              simp only [Option.getD_some] at hiso
              obtain ⟨dtx, hdtx, hvx, hsx⟩ := format_timestamp_shape hts
              rw [Option.some.injEq] at hunk
              rw [hsx] at hunk
              exact strftimeCompactZ_ne_of_head dtx "unknown" (head_not_digit_of_eq rfl (by decide)) hunk
            · rw [if_neg hunk]
              refine ⟨rfl, update_latest_ge _ _, ?_, ?_⟩
              · intro hv
                refine update_latest_valid _ _ ?_ hv
                intro dd hdd
                exact to_dt_obj_valid hdd
              · intro dt0 _ _ hiso
                simp only [Option.getD_some] at hiso
                obtain ⟨dtx, hdtx, hvx, hsx⟩ := format_timestamp_shape hts
                rw [hiso] at hdtx
                injection hdtx with hdtx
                subst hdtx
                have hround : to_dt_obj (some ts) = some dt0 := by
                  rw [hsx]
                  exact to_dt_obj_strftimeCompactZ dt0 hvx
                rw [hround]
                exact update_latest_ge_current dt0 ledger.events

/-! ## Linker lemmas -/

theorem findSome?_split {α β : Type} (f : α → Option β) {l : List α} {y : β}
    (h : l.findSome? f = some y) :
    ∃ l1 a l2, l = l1 ++ a :: l2 ∧ f a = some y ∧ ∀ x ∈ l1, f x = none := by
  induction l with
  | nil => simp [List.findSome?] at h
  | cons a rest ih =>
    rw [List.findSome?_cons] at h
    cases hfa : f a with
    | some b =>
      rw [hfa] at h
      injection h with h
      exact ⟨[], a, rest, rfl, by rw [hfa, h], by simp⟩
    | none =>
      rw [hfa] at h
      obtain ⟨l1, x, l2, rfl, hx, hmiss⟩ := ih h
      refine ⟨a :: l1, x, l2, rfl, hx, ?_⟩
      intro z hz
      rcases List.mem_cons.mp hz with rfl | hz'
      · exact hfa
      · exact hmiss z hz'

/-! ## Merge engine lemmas -/

theorem lastWithId_mem {k : String} {l : List Action} {e : Action}
    (h : lastWithId k l = some e) : e ∈ l ∧ create_action_identifier e = k := by
  induction l with
  | nil => simp [lastWithId] at h
  | cons a rest ih =>
    simp only [lastWithId] at h
    cases hrest : lastWithId k rest with
    | some e' =>
      rw [hrest] at h
      obtain ⟨hmem, hid⟩ := ih (hrest.trans (by injection h with h; rw [h]))
      exact ⟨List.mem_cons_of_mem _ hmem, hid⟩
    | none =>
      rw [hrest] at h
      by_cases hid : create_action_identifier a = k
      · rw [if_pos hid] at h
        injection h with h
        exact ⟨h ▸ List.mem_cons_self _ _, h ▸ hid⟩
      · rw [if_neg hid] at h
        exact absurd h (by simp)

theorem lastWithId_eq_none {k : String} {l : List Action}
    (h : lastWithId k l = none) : ∀ e ∈ l, create_action_identifier e ≠ k := by
  induction l with
  | nil => simp
  | cons a rest ih =>
    simp only [lastWithId] at h
    cases hrest : lastWithId k rest with
    | some e' => rw [hrest] at h; exact absurd h (by simp)
    | none =>
      rw [hrest] at h
      by_cases hid : create_action_identifier a = k
      · rw [if_pos hid] at h; exact absurd h (by simp)
      · intro e he
        rcases List.mem_cons.mp he with rfl | hmem
        · exact hid
        · exact ih hrest e hmem

/-- Lookup in the dict built by folding `dictInsert` over a list of actions
returns the last action with the key, falling back to the start map. -/
theorem foldl_dictInsert_get (l : List Action) (m : List (String × Action)) (k : String) :
    dictGet? (l.foldl (fun m a => dictInsert m (create_action_identifier a) a) m) k =
      match lastWithId k l with
      | some e => some e
      | none => dictGet? m k := by
  induction l generalizing m with
  | nil => simp [lastWithId]
  | cons a rest ih =>
    simp only [List.foldl_cons, lastWithId, ih, dictGet?_insert]
    cases hrest : lastWithId k rest with
    | some e => simp
    | none =>
      by_cases hid : create_action_identifier a = k
      · simp [hid]
      · simp [hid]

/-- `merge_actions` pointwise: each incoming action is replaced by the last
existing action with the same identifier when one exists, else kept. -/
theorem merge_actions_eq_map (existing incoming : List Action) :
    merge_actions existing incoming =
      incoming.map (fun a =>
        match lastWithId (create_action_identifier a) existing with
        | some e => e
        | none => a) := by
  unfold merge_actions
  apply List.map_congr_left
  intro a _
  rw [foldl_dictInsert_get]
  cases lastWithId (create_action_identifier a) existing <;> simp

/-! ## Rerun analysis: string, load and freshness lemmas -/

theorem containsSubChars_of_isPrefixOf {pat l : List Char}
    (h : pat.isPrefixOf l = true) : containsSubChars pat l = true := by
  cases l with
  | nil =>
    cases pat with
    | nil => rfl
    | cons c r => simp [List.isPrefixOf] at h
  | cons c r => simp [containsSubChars, h]

theorem containsSub_of_startsWith {f p : String} (h : strStartsWith f p = true) :
    containsSub f p = true :=
  containsSubChars_of_isPrefixOf h

theorem strStartsWith_mono {f p q : String}
    (hpq : p.toList.isPrefixOf q.toList = true) (h : strStartsWith f q = true) :
    strStartsWith f p = true := by
  unfold strStartsWith at h ⊢
  rw [List.isPrefixOf_iff_prefix] at hpq h ⊢
  exact hpq.trans h

theorem foldl_const {α β : Type} (g : β → α → β) (acc : β) (L : List α)
    (h : ∀ p ∈ L, g acc p = acc) : L.foldl g acc = acc := by
  induction L with
  | nil => rfl
  | cons a rest ih =>
    rw [List.foldl_cons, h a (List.mem_cons_self a rest)]
    exact ih (fun p hp => h p (List.mem_cons_of_mem a hp))

theorem loadStep_all_data_cases (led : Ledger) (fol : List (FKey × BillFolder))
    (acc : List (String × Record) × List (String × Record) × ErrSink)
    (file : String × Record) :
    (loadStep led fol acc file).1 = acc.1 ∨
      (loadStep led fol acc file).1 = acc.1 ++ [file] := by
  obtain ⟨a, ar, er⟩ := acc
  obtain ⟨f, d⟩ := file
  unfold loadStep
  dsimp only
  split
  · exact Or.inl rfl
  · repeat' split
    all_goals first
      | exact Or.inl rfl
      | exact Or.inr rfl

theorem load_fold_mem (led : Ledger) (fol : List (FKey × BillFolder))
    (L : List (String × Record)) :
    ∀ acc, ∀ p ∈ (L.foldl (loadStep led fol) acc).1, p ∈ acc.1 ∨ p ∈ L := by
  induction L with
  | nil => intro acc p hp; exact Or.inl hp
  | cons q rest ih =>
    intro acc p hp
    rw [List.foldl_cons] at hp
    rcases ih (loadStep led fol acc q) p hp with hin | hin
    · rcases loadStep_all_data_cases led fol acc q with hc | hc
      · rw [hc] at hin
        exact Or.inl hin
      · rw [hc] at hin
        rcases List.mem_append.mp hin with h1 | h1
        · exact Or.inl h1
        · rw [List.mem_singleton] at h1
          exact Or.inr (h1 ▸ List.mem_cons_self q rest)
    · exact Or.inr (List.mem_cons_of_mem q hin)

theorem load_fold_mem_of (led : Ledger) (fol : List (FKey × BillFolder))
    (L : List (String × Record)) :
    ∀ acc p, p ∈ acc.1 → p ∈ (L.foldl (loadStep led fol) acc).1 := by
  induction L with
  | nil => intro acc p hp; exact hp
  | cons q rest ih =>
    intro acc p hp
    rw [List.foldl_cons]
    refine ih _ p ?_
    rcases loadStep_all_data_cases led fol acc q with hc | hc
    · rw [hc]; exact hp
    · rw [hc]; exact List.mem_append_left _ hp

theorem load_json_files_mem (input : List (String × Record)) (led : Ledger)
    (fol : List (FKey × BillFolder)) (a : List (String × Record)) (er : ErrSink) :
    ∀ p ∈ (load_json_files input led fol a er).1, p ∈ input := by
  intro p hp
  rcases load_fold_mem led fol input ([], a, er) p hp with h | h
  · exact absurd h (List.not_mem_nil p)
  · exact h

theorem loadStep_bill_skip (led : Ledger) (fol : List (FKey × BillFolder))
    (a ar : List (String × Record)) (er : ErrSink) (f : String) (d : Record)
    (hbill : strStartsWith f "bill" = true)
    (hc : (compare_action_counts (load_existing_metadata fol d) d).1 = false) :
    loadStep led fol (a, ar, er) (f, d) = (a, ar, er) := by
  unfold loadStep
  dsimp only
  by_cases hj : strEndsWith f ".json" = true
  · rw [if_neg (not_not_intro hj), if_pos hbill,
      if_neg (show ¬(((compare_action_counts (load_existing_metadata fol d) d).1,
        er) : Bool × ErrSink).1 = true by simp [hc])]
  · rw [if_pos hj]

theorem loadStep_pass_mem (led : Ledger) (fol : List (FKey × BillFolder))
    (a ar : List (String × Record)) (er : ErrSink) (f : String) (d : Record)
    (hj : strEndsWith f ".json" = true)
    (hbill : strStartsWith f "bill" = true)
    (hc : (compare_action_counts (load_existing_metadata fol d) d).1 = true) :
    (loadStep led fol (a, ar, er) (f, d)).1 = a ++ [(f, d)] := by
  unfold loadStep
  dsimp only
  rw [if_neg (not_not_intro hj), if_pos hbill,
    if_pos (show (((compare_action_counts (load_existing_metadata fol d) d).1,
      er) : Bool × ErrSink).1 = true by simp [hc])]
  by_cases he : strStartsWith f "event_" = true
  · rw [if_pos he]
  · rw [if_neg he]

theorem load_bill_dichotomy (input : List (String × Record)) (led : Ledger)
    (fol : List (FKey × BillFolder)) (a : List (String × Record)) (er : ErrSink)
    (f : String) (d : Record) (hmem : (f, d) ∈ input)
    (hj : strEndsWith f ".json" = true)
    (hbill : strStartsWith f "bill" = true) :
    (f, d) ∈ (load_json_files input led fol a er).1 ∨
      (compare_action_counts (load_existing_metadata fol d) d).1 = false := by
  by_cases hc : (compare_action_counts (load_existing_metadata fol d) d).1 = true
  · left
    obtain ⟨l1, l2, hsplit⟩ := List.append_of_mem hmem
    show (f, d) ∈ (input.foldl (loadStep led fol) ([], a, er)).1
    rw [hsplit, List.foldl_append, List.foldl_cons]
    apply load_fold_mem_of
    rcases hacc : l1.foldl (loadStep led fol) ([], a, er) with ⟨a1, ar1, er1⟩
    rw [loadStep_pass_mem led fol a1 ar1 er1 f d hj hbill hc]
    exact List.mem_append_right _ (List.mem_singleton.mpr rfl)
  · right
    exact Bool.eq_false_iff.mpr hc

/-! ### `is_newer_than_latest` characterisation -/

theorem is_newer_char (d : Record) (ledDT : DateTime) (cat : String) (er : ErrSink)
    (hcat : cat = "vote_events" ∨ cat = "events")
    (hsd : falsy d.start_date = false) :
    is_newer_than_latest d ledDT cat er =
      ((match fromisoformat? (d.start_date.getD "") with
        | some dt0 => dtLt ledDT dt0
        | none => false), er) := by
  unfold is_newer_than_latest extract_timestamp
  rcases hcat with rfl | rfl
  · rw [if_neg (by decide : ¬("vote_events" : String) = "events"), if_pos rfl,
      if_neg (by simp [hsd])]
    cases hf : fromisoformat? (d.start_date.getD "") with
    | none =>
      have hft : format_timestamp (d.start_date.getD "") = none := by
        unfold format_timestamp
        rw [hf]
        rfl
      rw [hft]
      rfl
    | some dt0 =>
      have hft : format_timestamp (d.start_date.getD "") =
          some (strftimeCompactZ dt0) := by
        unfold format_timestamp
        rw [hf]
        rfl
      rw [hft]
      dsimp only
      rw [if_neg ?sentv]
      case sentv =>
        intro hor
        rcases hor with h | h | h
        · exact strftimeCompactZ_ne_of_head dt0 "MISSING_EVENT_DATE"
            (head_not_digit_of_eq rfl (by decide)) h
        · exact strftimeCompactZ_ne_of_head dt0 "MISSING_VOTE_DATE"
            (head_not_digit_of_eq rfl (by decide)) h
        · exact strftimeCompactZ_ne_of_head dt0 "UNKNOWN_CATEGORY"
            (head_not_digit_of_eq rfl (by decide)) h
      rw [to_dt_obj_strftimeCompactZ dt0 (fromisoformat?_valid hf)]
  · rw [if_pos rfl, if_neg (by simp [hsd])]
    cases hf : fromisoformat? (d.start_date.getD "") with
    | none =>
      have hft : format_timestamp (d.start_date.getD "") = none := by
        unfold format_timestamp
        rw [hf]
        rfl
      rw [hft]
      rfl
    | some dt0 =>
      have hft : format_timestamp (d.start_date.getD "") =
          some (strftimeCompactZ dt0) := by
        unfold format_timestamp
        rw [hf]
        rfl
      rw [hft]
      dsimp only
      rw [if_neg ?sente]
      case sente =>
        intro hor
        rcases hor with h | h | h
        · exact strftimeCompactZ_ne_of_head dt0 "MISSING_EVENT_DATE"
            (head_not_digit_of_eq rfl (by decide)) h
        · exact strftimeCompactZ_ne_of_head dt0 "MISSING_VOTE_DATE"
            (head_not_digit_of_eq rfl (by decide)) h
        · exact strftimeCompactZ_ne_of_head dt0 "UNKNOWN_CATEGORY"
            (head_not_digit_of_eq rfl (by decide)) h
      rw [to_dt_obj_strftimeCompactZ dt0 (fromisoformat?_valid hf)]

theorem is_newer_false_bound (d : Record) (ledDT : DateTime) (cat : String)
    (er : ErrSink) (hcat : cat = "vote_events" ∨ cat = "events")
    (hsd : falsy d.start_date = false)
    (hfalse : (is_newer_than_latest d ledDT cat er).1 = false) :
    ∀ dt0, fromisoformat? (d.start_date.getD "") = some dt0 →
      dt0.key ≤ ledDT.key := by
  intro dt0 hiso
  rw [is_newer_char d ledDT cat er hcat hsd] at hfalse
  rw [hiso] at hfalse
  dsimp only at hfalse
  have hnl : ¬ ledDT.key < dt0.key := by
    intro hlt
    have h2 := (dtLt_iff ledDT dt0).mpr hlt
    rw [h2] at hfalse
    exact Bool.noConfusion hfalse
  omega

theorem is_newer_eq_false (d : Record) (ledDT : DateTime) (cat : String)
    (er : ErrSink) (hcat : cat = "vote_events" ∨ cat = "events")
    (hsd : falsy d.start_date = false)
    (hbound : ∀ dt0, fromisoformat? (d.start_date.getD "") = some dt0 →
      dt0.key ≤ ledDT.key) :
    is_newer_than_latest d ledDT cat er = (false, er) := by
  rw [is_newer_char d ledDT cat er hcat hsd]
  cases hf : fromisoformat? (d.start_date.getD "") with
  | none => rfl
  | some dt0 =>
    dsimp only
    have hb := hbound dt0 hf
    have hdl : dtLt ledDT dt0 = false := by
      cases hdl : dtLt ledDT dt0
      · rfl
      · have := (dtLt_iff ledDT dt0).mp hdl
        omega
    rw [hdl]

theorem loadStep_vote_skip (led : Ledger) (fol : List (FKey × BillFolder))
    (a ar : List (String × Record)) (er : ErrSink) (f : String) (d : Record)
    (hnb : strStartsWith f "bill" = false)
    (hv : strStartsWith f "vote_event" = true)
    (hr : is_newer_than_latest d led.vote_events "vote_events" er = (false, er)) :
    loadStep led fol (a, ar, er) (f, d) = (a, ar, er) := by
  unfold loadStep
  dsimp only
  by_cases hj : strEndsWith f ".json" = true
  · rw [if_neg (not_not_intro hj),
      if_neg (show ¬ strStartsWith f "bill" = true by simp [hnb]),
      if_pos hv, hr,
      if_neg (show ¬((false, er) : Bool × ErrSink).1 = true by simp)]
  · rw [if_pos hj]

theorem loadStep_event_skip (led : Ledger) (fol : List (FKey × BillFolder))
    (a ar : List (String × Record)) (er : ErrSink) (f : String) (d : Record)
    (hnb : strStartsWith f "bill" = false)
    (hnv : strStartsWith f "vote_event" = false)
    (he : strStartsWith f "event" = true)
    (hr : is_newer_than_latest d led.events "events" er = (false, er)) :
    loadStep led fol (a, ar, er) (f, d) = (a, ar, er) := by
  unfold loadStep
  dsimp only
  by_cases hj : strEndsWith f ".json" = true
  · rw [if_neg (not_not_intro hj),
      if_neg (show ¬ strStartsWith f "bill" = true by simp [hnb]),
      if_neg (show ¬ strStartsWith f "vote_event" = true by simp [hnv]),
      if_pos he, hr,
      if_neg (show ¬((false, er) : Bool × ErrSink).1 = true by simp)]
  · rw [if_pos hj]

theorem loadStep_vote_pass_mem (led : Ledger) (fol : List (FKey × BillFolder))
    (a ar : List (String × Record)) (er : ErrSink) (f : String) (d : Record)
    (hj : strEndsWith f ".json" = true)
    (hnb : strStartsWith f "bill" = false)
    (hv : strStartsWith f "vote_event" = true)
    (hrt : (is_newer_than_latest d led.vote_events "vote_events" er).1 = true) :
    (loadStep led fol (a, ar, er) (f, d)).1 = a ++ [(f, d)] := by
  unfold loadStep
  dsimp only
  rw [if_neg (not_not_intro hj),
    if_neg (show ¬ strStartsWith f "bill" = true by simp [hnb]),
    if_pos hv, if_pos hrt]
  by_cases he : strStartsWith f "event_" = true
  · rw [if_pos he]
  · rw [if_neg he]

theorem loadStep_event_pass_mem (led : Ledger) (fol : List (FKey × BillFolder))
    (a ar : List (String × Record)) (er : ErrSink) (f : String) (d : Record)
    (hj : strEndsWith f ".json" = true)
    (hnb : strStartsWith f "bill" = false)
    (hnv : strStartsWith f "vote_event" = false)
    (he : strStartsWith f "event" = true)
    (hrt : (is_newer_than_latest d led.events "events" er).1 = true) :
    (loadStep led fol (a, ar, er) (f, d)).1 = a ++ [(f, d)] := by
  unfold loadStep
  dsimp only
  rw [if_neg (not_not_intro hj),
    if_neg (show ¬ strStartsWith f "bill" = true by simp [hnb]),
    if_neg (show ¬ strStartsWith f "vote_event" = true by simp [hnv]),
    if_pos he, if_pos hrt]
  by_cases hev : strStartsWith f "event_" = true
  · rw [if_pos hev]
  · rw [if_neg hev]

theorem load_vote_dichotomy (input : List (String × Record)) (led : Ledger)
    (fol : List (FKey × BillFolder)) (a : List (String × Record)) (er : ErrSink)
    (f : String) (d : Record) (hmem : (f, d) ∈ input)
    (hj : strEndsWith f ".json" = true)
    (hnb : strStartsWith f "bill" = false)
    (hv : strStartsWith f "vote_event" = true)
    (hsd : falsy d.start_date = false) :
    (f, d) ∈ (load_json_files input led fol a er).1 ∨
      (∀ dt0, fromisoformat? (d.start_date.getD "") = some dt0 →
        dt0.key ≤ led.vote_events.key) := by
  cases hf : fromisoformat? (d.start_date.getD "") with
  | none =>
    right
    intro dt0 h
    exact Option.noConfusion h
  | some dt0 =>
    by_cases hlt : led.vote_events.key < dt0.key
    · left
      obtain ⟨l1, l2, hsplit⟩ := List.append_of_mem hmem
      show (f, d) ∈ (input.foldl (loadStep led fol) ([], a, er)).1
      rw [hsplit, List.foldl_append, List.foldl_cons]
      apply load_fold_mem_of
      rcases hacc : l1.foldl (loadStep led fol) ([], a, er) with ⟨a1, ar1, er1⟩
      have hrt : (is_newer_than_latest d led.vote_events "vote_events" er1).1 =
          true := by
        rw [is_newer_char d led.vote_events "vote_events" er1 (Or.inl rfl) hsd, hf]
        dsimp only
        exact (dtLt_iff _ _).mpr hlt
      rw [loadStep_vote_pass_mem led fol a1 ar1 er1 f d hj hnb hv hrt]
      exact List.mem_append_right _ (List.mem_singleton.mpr rfl)
    · right
      intro dt0' h
      injection h with h
      rw [← h]
      omega

theorem load_event_dichotomy (input : List (String × Record)) (led : Ledger)
    (fol : List (FKey × BillFolder)) (a : List (String × Record)) (er : ErrSink)
    (f : String) (d : Record) (hmem : (f, d) ∈ input)
    (hj : strEndsWith f ".json" = true)
    (hnb : strStartsWith f "bill" = false)
    (hnv : strStartsWith f "vote_event" = false)
    (he : strStartsWith f "event" = true)
    (hsd : falsy d.start_date = false) :
    (f, d) ∈ (load_json_files input led fol a er).1 ∨
      (∀ dt0, fromisoformat? (d.start_date.getD "") = some dt0 →
        dt0.key ≤ led.events.key) := by
  cases hf : fromisoformat? (d.start_date.getD "") with
  | none =>
    right
    intro dt0 h
    exact Option.noConfusion h
  | some dt0 =>
    by_cases hlt : led.events.key < dt0.key
    · left
      obtain ⟨l1, l2, hsplit⟩ := List.append_of_mem hmem
      show (f, d) ∈ (input.foldl (loadStep led fol) ([], a, er)).1
      rw [hsplit, List.foldl_append, List.foldl_cons]
      apply load_fold_mem_of
      rcases hacc : l1.foldl (loadStep led fol) ([], a, er) with ⟨a1, ar1, er1⟩
      have hrt : (is_newer_than_latest d led.events "events" er1).1 = true := by
        rw [is_newer_char d led.events "events" er1 (Or.inr rfl) hsd, hf]
        dsimp only
        exact (dtLt_iff _ _).mpr hlt
      rw [loadStep_event_pass_mem led fol a1 ar1 er1 f d hj hnb hnv he hrt]
      exact List.mem_append_right _ (List.mem_singleton.mpr rfl)
    · right
      intro dt0' h
      injection h with h
      rw [← h]
      omega

theorem load_json_files_noop (input : List (String × Record)) (led : Ledger)
    (fol : List (FKey × BillFolder)) (a : List (String × Record)) (er : ErrSink)
    (h : ∀ p ∈ input, loadStep led fol ([], a, er) p = ([], a, er)) :
    load_json_files input led fol a er = ([], a, er) :=
  foldl_const (loadStep led fol) ([], a, er) input h

/-! ### Metadata tracking through the processing fold -/

theorem merge_actions_length (E I : List Action) :
    (merge_actions E I).length = I.length := by
  unfold merge_actions
  dsimp only
  rw [List.length_map]

theorem load_existing_metadata_eq (fol : List (FKey × BillFolder)) (d : Record)
    (hid : falsy d.identifier = false) :
    load_existing_metadata fol d = metaAt fol (billKeyOf d) := by
  unfold load_existing_metadata metaAt billKeyOf
  rw [if_neg (by rw [hid]; exact Bool.noConfusion)]

theorem cleanupFolder_metadata (x : BillFolder) :
    (cleanupFolder x).metadata = x.metadata := by
  unfold cleanupFolder
  split <;> rfl

theorem dictGet?_map_snd {K V W : Type} [DecidableEq K] (g : V → W)
    (l : List (K × V)) (k : K) :
    dictGet? (l.map (fun e => (e.1, g e.2))) k = (dictGet? l k).map g := by
  induction l with
  | nil => rfl
  | cons e rest ih =>
    obtain ⟨a, b⟩ := e
    rw [List.map_cons]
    rw [dictGet?_cons, dictGet?_cons]
    by_cases h : a = k
    · simp [h]
    · simp [h, ih]

theorem metaAt_cleanup (l : List (FKey × BillFolder)) (k : FKey) :
    metaAt (l.map (fun e => (e.1, cleanupFolder e.2))) k = metaAt l k := by
  unfold metaAt
  rw [dictGet?_map_snd]
  cases dictGet? l k with
  | none => rfl
  | some fo => simp [cleanupFolder_metadata]

theorem map_cleanup_idem (l : List (FKey × BillFolder)) :
    (l.map (fun e => (e.1, cleanupFolder e.2))).map
        (fun e => (e.1, cleanupFolder e.2)) =
      l.map (fun e => (e.1, cleanupFolder e.2)) := by
  rw [List.map_map]
  apply List.map_congr_left
  intro e _
  simp [Function.comp, cleanupFolder_idem]

theorem handle_bill_meta_self (now : DateTime) (d : Record) (f : String)
    (fol : List (FKey × BillFolder)) (er : ErrSink)
    (hid : falsy d.identifier = false) :
    ∃ m, metaAt (handle_bill now d f fol er).1 (billKeyOf d) = some m ∧
      m.actions.length = d.actions.length := by
  unfold handle_bill validate_required_field
  rw [if_neg (by rw [hid]; exact Bool.noConfusion)]
  cases hb : d.identifier with
  | none => rw [hb] at hid; simp [falsy] at hid
  | some b =>
    dsimp only
    have hkey : billKeyOf d =
        build_bill_key (d.legislative_session.getD "unknown-session") b := by
      unfold billKeyOf
      rw [hb]
      rfl
    cases hem : load_existing_metadata fol d with
    | some em =>
      dsimp only
      unfold metaAt
      rw [hkey, dictGet?_insert, if_pos rfl]
      refine ⟨_, rfl, ?_⟩
      dsimp only
      rw [merge_actions_length, List.length_map]
    | none =>
      dsimp only
      unfold metaAt
      rw [hkey, dictGet?_insert, if_pos rfl]
      refine ⟨_, rfl, ?_⟩
      dsimp only
      rw [List.length_map]

theorem handle_bill_meta (now : DateTime) (d : Record) (f : String)
    (fol : List (FKey × BillFolder)) (er : ErrSink) (k : FKey) :
    metaAt (handle_bill now d f fol er).1 k = metaAt fol k ∨
      (k = billKeyOf d ∧
        ∃ m, metaAt (handle_bill now d f fol er).1 k = some m ∧
          m.actions.length = d.actions.length) := by
  by_cases hid : falsy d.identifier = true
  · left
    unfold handle_bill validate_required_field
    rw [if_pos hid]
  · rw [Bool.not_eq_true] at hid
    by_cases hk : k = billKeyOf d
    · right
      refine ⟨hk, ?_⟩
      rw [hk]
      exact handle_bill_meta_self now d f fol er hid
    · left
      unfold handle_bill validate_required_field
      rw [if_neg (by rw [hid]; exact Bool.noConfusion)]
      cases hb : d.identifier with
      | none => rw [hb] at hid
      | some b =>
        dsimp only
        have hkey : build_bill_key (d.legislative_session.getD "unknown-session") b =
            billKeyOf d := by
          unfold billKeyOf
          rw [hb]
          rfl
        cases hem : load_existing_metadata fol d with
        | some em =>
          dsimp only
          unfold metaAt
          rw [dictGet?_insert, if_neg (fun hh => hk (by rw [← hh]; exact hkey))]
        | none =>
          dsimp only
          unfold metaAt
          rw [dictGet?_insert, if_neg (fun hh => hk (by rw [← hh]; exact hkey))]

theorem handle_vote_event_meta (d : Record) (f : String)
    (fol : List (FKey × BillFolder)) (er : ErrSink) (led : Ledger) (k : FKey) :
    metaAt (handle_vote_event d f fol er led).1 k = metaAt fol k := by
  unfold handle_vote_event validate_required_field
  by_cases hid : falsy d.bill_identifier = true
  · rw [if_pos hid]
  · rw [if_neg hid]
    rw [Bool.not_eq_true] at hid
    cases hb : d.bill_identifier with
    | none => rw [hb] at hid
    | some b =>
      dsimp only
      unfold metaAt
      rw [dictGet?_insert]
      by_cases hk : build_bill_key (d.legislative_session.getD "unknown-session") b = k
      · rw [if_pos hk, ← hk]
        cases hg : dictGet? fol
            (build_bill_key (d.legislative_session.getD "unknown-session") b) with
        | none => rfl
        | some fo =>
          by_cases hp : ((some fo).getD emptyFolder).placeholder.isNone = true
          · rw [if_pos hp]
            rfl
          · rw [if_neg hp]
            rfl
      · rw [if_neg hk]

/-! ### Routing and well-formedness -/

theorem route_kind_bill_of {f : String} (h : containsSub f "bill_" = true) :
    route_kind f = some .bill := by
  unfold route_kind
  rw [if_pos h]

theorem route_kind_vote_of {f : String} (hnb : containsSub f "bill_" = false)
    (hv : containsSub f "vote_event_" = true) :
    route_kind f = some .voteEvent := by
  unfold route_kind
  rw [if_neg (show ¬ containsSub f "bill_" = true by simp [hnb]), if_pos hv]

theorem route_kind_event_of {f : String} (hnb : containsSub f "bill_" = false)
    (hnv : containsSub f "vote_event_" = false)
    (he : containsSub f "event_" = true) :
    route_kind f = some .event := by
  unfold route_kind
  rw [if_neg (show ¬ containsSub f "bill_" = true by simp [hnb]),
    if_neg (show ¬ containsSub f "vote_event_" = true by simp [hnv]), if_pos he]

theorem wf_parts (mapping : List (String × SessionInfo)) (f : String) (d : Record)
    (hwf : wellFormedFile mapping f d = true) :
    strEndsWith f ".json" = true ∧ falsy d.legislative_session = false ∧
    (dictGet? mapping (d.legislative_session.getD "")).isSome = true ∧
    ((strStartsWith f "bill_" = true ∧ falsy d.identifier = false ∧
        route_kind f = some .bill) ∨
      (strStartsWith f "vote_event_" = true ∧ containsSub f "bill_" = false ∧
        falsy d.bill_identifier = false ∧ falsy d.start_date = false ∧
        route_kind f = some .voteEvent) ∨
      (strStartsWith f "event_" = true ∧ containsSub f "bill_" = false ∧
        containsSub f "vote_event_" = false ∧ falsy d.bill_identifier = false ∧
        falsy d.start_date = false ∧ route_kind f = some .event)) := by
  unfold wellFormedFile at hwf
  simp only [Bool.and_eq_true, Bool.or_eq_true, Bool.not_eq_true'] at hwf
  obtain ⟨⟨⟨hjson, hdisj⟩, hsess⟩, hmap⟩ := hwf
  refine ⟨hjson, hsess, hmap, ?_⟩
  rcases hdisj with (⟨hb, hid⟩ | ⟨⟨⟨hv, hnb⟩, hbid⟩, hsd⟩) |
    ⟨⟨⟨⟨he, hnb⟩, hnv⟩, hbid⟩, hsd⟩
  · exact Or.inl ⟨hb, hid, route_kind_bill_of (containsSub_of_startsWith hb)⟩
  · exact Or.inr (Or.inl ⟨hv, hnb, hbid, hsd,
      route_kind_vote_of hnb (containsSub_of_startsWith hv)⟩)
  · exact Or.inr (Or.inr ⟨he, hnb, hnv, hbid, hsd,
      route_kind_event_of hnb hnv (containsSub_of_startsWith he)⟩)

/-! ### Processing-fold invariants -/

theorem processStep_inv (mapping : List (String × SessionInfo)) (now : DateTime)
    (st : ProcState) (f : String) (d : Record) (dd : Record)
    (hlen : route_kind f = some .bill → billKeyOf d = billKeyOf dd →
      d.actions.length = dd.actions.length)
    (hinv : ∃ m, metaAt st.folders (billKeyOf dd) = some m ∧
      m.actions.length = dd.actions.length) :
    ∃ m, metaAt (processStep mapping now st (f, d)).folders (billKeyOf dd) = some m ∧
      m.actions.length = dd.actions.length := by
  unfold processStep
  dsimp only
  by_cases hsess : falsy d.legislative_session = true
  · rw [if_pos hsess]
    exact hinv
  · rw [if_neg hsess]
    cases hg : dictGet? mapping (d.legislative_session.getD "") with
    | none => exact hinv
    | some si =>
      unfold route_handler
      cases hr : route_kind f with
      | none => exact hinv
      | some hk =>
        cases hk with
        | bill =>
          dsimp only
          show ∃ m, metaAt (handle_bill now d f st.folders st.errors).1
            (billKeyOf dd) = some m ∧ m.actions.length = dd.actions.length
          rcases handle_bill_meta now d f st.folders st.errors (billKeyOf dd) with
            heq | ⟨hk2, m, hm, hml⟩
          · rw [heq]
            exact hinv
          · exact ⟨m, hm, hml.trans (hlen hr hk2.symm)⟩
        | voteEvent =>
          dsimp only
          show ∃ m, metaAt (handle_vote_event d f st.folders st.errors st.ledger).1
            (billKeyOf dd) = some m ∧ m.actions.length = dd.actions.length
          rw [handle_vote_event_meta]
          exact hinv
        | event => exact hinv

theorem process_fold_inv (mapping : List (String × SessionInfo)) (now : DateTime)
    (dd : Record) :
    ∀ (L : List (String × Record)),
      (∀ q ∈ L, route_kind q.1 = some .bill → billKeyOf q.2 = billKeyOf dd →
        q.2.actions.length = dd.actions.length) →
      ∀ st, (∃ m, metaAt st.folders (billKeyOf dd) = some m ∧
          m.actions.length = dd.actions.length) →
        ∃ m, metaAt (L.foldl (processStep mapping now) st).folders (billKeyOf dd) =
          some m ∧ m.actions.length = dd.actions.length := by
  intro L
  induction L with
  | nil => intro _ st h; exact h
  | cons q rest ih =>
    intro hlen st h
    rw [List.foldl_cons]
    refine ih (fun x hx => hlen x (List.mem_cons_of_mem q hx)) _ ?_
    obtain ⟨f, d⟩ := q
    exact processStep_inv mapping now st f d dd
      (fun hr hk => hlen (f, d) (List.mem_cons_self _ _) hr hk) h

theorem processStep_bill_self (mapping : List (String × SessionInfo)) (now : DateTime)
    (st : ProcState) (f : String) (d : Record)
    (hsess : falsy d.legislative_session = false)
    (hmap : (dictGet? mapping (d.legislative_session.getD "")).isSome = true)
    (hroute : route_kind f = some .bill)
    (hid : falsy d.identifier = false) :
    ∃ m, metaAt (processStep mapping now st (f, d)).folders (billKeyOf d) = some m ∧
      m.actions.length = d.actions.length := by
  unfold processStep
  dsimp only
  rw [if_neg (by rw [hsess]; exact Bool.noConfusion)]
  cases hg : dictGet? mapping (d.legislative_session.getD "") with
  | none => rw [hg] at hmap; exact Bool.noConfusion hmap
  | some si =>
    unfold route_handler
    rw [hroute]
    dsimp only
    show ∃ m, metaAt (handle_bill now d f st.folders st.errors).1 (billKeyOf d) =
      some m ∧ m.actions.length = d.actions.length
    exact handle_bill_meta_self now d f st.folders st.errors hid

/-! ### Ledger monotonicity through the processing fold -/

theorem processStep_ledger (mapping : List (String × SessionInfo)) (now : DateTime)
    (st : ProcState) (q : String × Record) :
    st.ledger.vote_events.key ≤
        (processStep mapping now st q).ledger.vote_events.key ∧
    st.ledger.events.key ≤ (processStep mapping now st q).ledger.events.key ∧
    (ledValid st.ledger = true →
      ledValid (processStep mapping now st q).ledger = true) := by
  obtain ⟨f, d⟩ := q
  unfold processStep
  dsimp only
  by_cases hsess : falsy d.legislative_session = true
  · rw [if_pos hsess]
    exact ⟨Nat.le_refl _, Nat.le_refl _, fun h => h⟩
  · rw [if_neg hsess]
    cases hg : dictGet? mapping (d.legislative_session.getD "") with
    | none => exact ⟨Nat.le_refl _, Nat.le_refl _, fun h => h⟩
    | some si =>
      unfold route_handler
      cases hr : route_kind f with
      | none => exact ⟨Nat.le_refl _, Nat.le_refl _, fun h => h⟩
      | some hk =>
        cases hk with
        | bill => exact ⟨Nat.le_refl _, Nat.le_refl _, fun h => h⟩
        | voteEvent =>
          dsimp only
          obtain ⟨hev, hle, hval, _⟩ :=
            handle_vote_event_ledger d f st.folders st.errors st.ledger
          refine ⟨hle, ?_, ?_⟩
          · rw [hev]
          · intro h
            unfold ledValid at h ⊢
            rw [Bool.and_eq_true] at h ⊢
            rw [hev]
            exact ⟨hval h.1, h.2⟩
        | event =>
          dsimp only
          obtain ⟨hve, hle, hval, _⟩ :=
            handle_event_ledger d f st.events st.errors st.ledger
          refine ⟨?_, hle, ?_⟩
          · rw [hve]
          · intro h
            unfold ledValid at h ⊢
            rw [Bool.and_eq_true] at h ⊢
            rw [hve]
            exact ⟨h.1, hval h.2⟩

theorem process_fold_ledger (mapping : List (String × SessionInfo)) (now : DateTime) :
    ∀ (L : List (String × Record)) (st : ProcState),
      st.ledger.vote_events.key ≤
          ((L.foldl (processStep mapping now) st)).ledger.vote_events.key ∧
      st.ledger.events.key ≤
        ((L.foldl (processStep mapping now) st)).ledger.events.key ∧
      (ledValid st.ledger = true →
        ledValid ((L.foldl (processStep mapping now) st)).ledger = true) := by
  intro L
  induction L with
  | nil => intro st; exact ⟨Nat.le_refl _, Nat.le_refl _, fun h => h⟩
  | cons q rest ih =>
    intro st
    rw [List.foldl_cons]
    obtain ⟨h1, h2, h3⟩ := processStep_ledger mapping now st q
    obtain ⟨g1, g2, g3⟩ := ih (processStep mapping now st q)
    exact ⟨h1.trans g1, h2.trans g2, fun h => g3 (h3 h)⟩

theorem process_fold_vote_hiwater (mapping : List (String × SessionInfo))
    (now : DateTime) (L : List (String × Record)) (st : ProcState)
    (f : String) (d : Record) (dt0 : DateTime)
    (hmem : (f, d) ∈ L)
    (hsess : falsy d.legislative_session = false)
    (hmap : (dictGet? mapping (d.legislative_session.getD "")).isSome = true)
    (hroute : route_kind f = some .voteEvent)
    (hbid : falsy d.bill_identifier = false)
    (hsd : falsy d.start_date = false)
    (hiso : fromisoformat? (d.start_date.getD "") = some dt0) :
    dt0.key ≤ (L.foldl (processStep mapping now) st).ledger.vote_events.key := by
  obtain ⟨l1, l2, hsplit⟩ := List.append_of_mem hmem
  rw [hsplit, List.foldl_append, List.foldl_cons]
  have hstep : dt0.key ≤
      (processStep mapping now (l1.foldl (processStep mapping now) st)
        (f, d)).ledger.vote_events.key := by
    unfold processStep
    dsimp only
    rw [if_neg (by rw [hsess]; exact Bool.noConfusion)]
    cases hg : dictGet? mapping (d.legislative_session.getD "") with
    | none => rw [hg] at hmap; exact Bool.noConfusion hmap
    | some si =>
      unfold route_handler
      rw [hroute]
      dsimp only
      obtain ⟨_, _, _, hbound⟩ := handle_vote_event_ledger d f
        (l1.foldl (processStep mapping now) st).folders
        (l1.foldl (processStep mapping now) st).errors
        (l1.foldl (processStep mapping now) st).ledger
      exact hbound dt0 hbid hsd hiso
  exact hstep.trans (process_fold_ledger mapping now l2
    (processStep mapping now (l1.foldl (processStep mapping now) st) (f, d))).1

theorem process_fold_event_hiwater (mapping : List (String × SessionInfo))
    (now : DateTime) (L : List (String × Record)) (st : ProcState)
    (f : String) (d : Record) (dt0 : DateTime)
    (hmem : (f, d) ∈ L)
    (hsess : falsy d.legislative_session = false)
    (hmap : (dictGet? mapping (d.legislative_session.getD "")).isSome = true)
    (hroute : route_kind f = some .event)
    (hbid : falsy d.bill_identifier = false)
    (hsd : falsy d.start_date = false)
    (hiso : fromisoformat? (d.start_date.getD "") = some dt0) :
    dt0.key ≤ (L.foldl (processStep mapping now) st).ledger.events.key := by
  obtain ⟨l1, l2, hsplit⟩ := List.append_of_mem hmem
  rw [hsplit, List.foldl_append, List.foldl_cons]
  have hstep : dt0.key ≤
      (processStep mapping now (l1.foldl (processStep mapping now) st)
        (f, d)).ledger.events.key := by
    unfold processStep
    dsimp only
    rw [if_neg (by rw [hsess]; exact Bool.noConfusion)]
    cases hg : dictGet? mapping (d.legislative_session.getD "") with
    | none => rw [hg] at hmap; exact Bool.noConfusion hmap
    | some si =>
      unfold route_handler
      rw [hroute]
      dsimp only
      obtain ⟨_, _, _, hbound⟩ := handle_event_ledger d f
        (l1.foldl (processStep mapping now) st).events
        (l1.foldl (processStep mapping now) st).errors
        (l1.foldl (processStep mapping now) st).ledger
      exact hbound dt0 hbid hsd hiso
  exact hstep.trans (process_fold_ledger mapping now l2
    (processStep mapping now (l1.foldl (processStep mapping now) st) (f, d))).2.1

/-! ### Rerunning the linker -/

theorem mem_dictErase {K V : Type} [DecidableEq K] {p : K × V} {l : List (K × V)}
    {k : K} (h : p ∈ dictErase l k) : p ∈ l ∧ p.1 ≠ k := by
  unfold dictErase at h
  have h2 := List.of_mem_filter h
  exact ⟨List.mem_of_mem_filter h, of_decide_eq_true h2⟩

theorem linkEventStep_archive_sub (m : List (String × SessionMeta))
    (acc : List (String × Record) × List ((String × String) × Record) × ErrSink ×
      List (String × Record)) (q : String × Record) :
    ∀ p ∈ (linkEventStep m acc q).1, p ∈ acc.1 := by
  intro p hp
  obtain ⟨ar, ev, er, sk⟩ := acc
  obtain ⟨fn, dq⟩ := q
  unfold linkEventStep at hp
  dsimp only at hp
  by_cases he : (extract_bill_ids_from_event dq).isEmpty = true
  · rw [if_pos he] at hp
    exact hp
  · rw [if_neg he] at hp
    cases hf : (extract_bill_ids_from_event dq).findSome?
        (fun b => (dictGet? m b).map (fun mm => (b, mm))) with
    | none =>
      rw [hf] at hp
      exact hp
    | some pr =>
      obtain ⟨b0, meta⟩ := pr
      rw [hf] at hp
      dsimp only at hp
      exact (mem_dictErase hp).1

theorem linkpass_archive_sub (m : List (String × SessionMeta))
    (worklist : List (String × Record)) :
    ∀ acc, ∀ p ∈ (worklist.foldl (linkEventStep m) acc).1, p ∈ acc.1 := by
  induction worklist with
  | nil => intro acc p hp; exact hp
  | cons q rest ih =>
    intro acc p hp
    rw [List.foldl_cons] at hp
    exact linkEventStep_archive_sub m acc q p (ih (linkEventStep m acc q) p hp)

theorem linkEventStep_kill (m : List (String × SessionMeta))
    (acc : List (String × Record) × List ((String × String) × Record) × ErrSink ×
      List (String × Record)) (q : String × Record)
    (hno : noLink m q.2 = false) :
    ∀ p ∈ (linkEventStep m acc q).1, p.1 ≠ q.1 := by
  intro p hp
  obtain ⟨ar, ev, er, sk⟩ := acc
  obtain ⟨fn, dq⟩ := q
  unfold noLink at hno
  dsimp only at hno
  unfold linkEventStep at hp
  dsimp only at hp
  cases hie : (extract_bill_ids_from_event dq).isEmpty with
  | true => simp [hie] at hno
  | false =>
    rw [hie] at hno
    simp only [Bool.false_or] at hno
    rw [if_neg (show ¬ (extract_bill_ids_from_event dq).isEmpty = true by
      simp [hie])] at hp
    cases hf : (extract_bill_ids_from_event dq).findSome?
        (fun b => (dictGet? m b).map (fun mm => (b, mm))) with
    | none =>
      rw [hf] at hno
      simp at hno
    | some pr =>
      obtain ⟨b0, meta⟩ := pr
      rw [hf] at hp
      dsimp only at hp
      exact (mem_dictErase hp).2

theorem linkpass_kill (m : List (String × SessionMeta))
    (worklist : List (String × Record)) (q : String × Record)
    (hq : q ∈ worklist) (hno : noLink m q.2 = false) :
    ∀ acc, ∀ p ∈ (worklist.foldl (linkEventStep m) acc).1, p.1 ≠ q.1 := by
  obtain ⟨w1, w2, hsplit⟩ := List.append_of_mem hq
  intro acc p hp
  rw [hsplit, List.foldl_append, List.foldl_cons] at hp
  have hp2 := linkpass_archive_sub m w2 _ p hp
  exact linkEventStep_kill m (w1.foldl (linkEventStep m) acc) q hno p hp2

theorem linkEventStep_noop (m : List (String × SessionMeta))
    (ar : List (String × Record)) (ev : List ((String × String) × Record))
    (er : ErrSink) (sk : List (String × Record)) (q : String × Record)
    (hno : noLink m q.2 = true) :
    linkEventStep m (ar, ev, er, sk) q = (ar, ev, er, sk) ∨
      linkEventStep m (ar, ev, er, sk) q = (ar, ev, er, sk ++ [q]) := by
  obtain ⟨fn, dq⟩ := q
  unfold noLink at hno
  dsimp only at hno
  unfold linkEventStep
  dsimp only
  cases hie : (extract_bill_ids_from_event dq).isEmpty with
  | true =>
    left
    rw [if_pos rfl]
  | false =>
    rw [hie] at hno
    simp only [Bool.false_or] at hno
    rw [if_neg (show ¬ false = true from fun hh => Bool.noConfusion hh)]
    cases hf : (extract_bill_ids_from_event dq).findSome?
        (fun b => (dictGet? m b).map (fun mm => (b, mm))) with
    | none =>
      right
      rfl
    | some pr =>
      rw [hf] at hno
      simp at hno

theorem linkpass_noop (m : List (String × SessionMeta))
    (worklist : List (String × Record)) :
    ∀ (ar : List (String × Record)) (ev : List ((String × String) × Record))
      (er : ErrSink) (sk : List (String × Record)),
      (∀ q ∈ worklist, noLink m q.2 = true) →
      ∃ sk', worklist.foldl (linkEventStep m) (ar, ev, er, sk) =
          (ar, ev, er, sk ++ sk') ∧ ∀ q ∈ sk', noLink m q.2 = true := by
  induction worklist with
  | nil =>
    intro ar ev er sk _
    exact ⟨[], by rw [List.append_nil, List.foldl_nil],
      fun q hq => absurd hq (List.not_mem_nil q)⟩
  | cons q rest ih =>
    intro ar ev er sk h
    rw [List.foldl_cons]
    rcases linkEventStep_noop m ar ev er sk q (h q (List.mem_cons_self q rest)) with
      heq | heq
    · rw [heq]
      exact ih ar ev er sk (fun x hx => h x (List.mem_cons_of_mem q hx))
    · rw [heq]
      obtain ⟨sk', heq2, hall⟩ :=
        ih ar ev er (sk ++ [q]) (fun x hx => h x (List.mem_cons_of_mem q hx))
      refine ⟨[q] ++ sk', ?_, ?_⟩
      · rw [heq2, List.append_assoc]
      · intro x hx
        rcases List.mem_append.mp hx with h1 | h1
        · rw [List.mem_singleton] at h1
          rw [h1]
          exact h q (List.mem_cons_self q rest)
        · exact hall x h1

theorem mem_insertSorted {α : Type} (le : α → α → Bool) (x : α) :
    ∀ (l : List α) (p : α), p ∈ insertSorted le x l ↔ p = x ∨ p ∈ l := by
  intro l
  induction l with
  | nil => intro p; simp [insertSorted]
  | cons y rest ih =>
    intro p
    unfold insertSorted
    by_cases hle : le x y = true
    · rw [if_pos hle]
      exact List.mem_cons
    · rw [if_neg hle]
      constructor
      · intro h
        rcases List.mem_cons.mp h with h1 | h1
        · exact Or.inr (by rw [h1]; exact List.mem_cons_self y rest)
        · rcases (ih p).mp h1 with h2 | h2
          · exact Or.inl h2
          · exact Or.inr (List.mem_cons_of_mem y h2)
      · intro h
        rcases h with h1 | h1
        · exact List.mem_cons_of_mem y ((ih p).mpr (Or.inl h1))
        · rcases List.mem_cons.mp h1 with h2 | h2
          · exact List.mem_cons.mpr (Or.inl h2)
          · exact List.mem_cons_of_mem y ((ih p).mpr (Or.inr h2))

theorem mem_insertionSort {α : Type} (le : α → α → Bool) :
    ∀ (l : List α) (p : α), p ∈ insertionSort le l ↔ p ∈ l := by
  intro l
  induction l with
  | nil => intro p; exact Iff.rfl
  | cons x rest ih =>
    intro p
    unfold insertionSort
    rw [mem_insertSorted]
    constructor
    · intro h
      rcases h with h1 | h1
      · exact List.mem_cons.mpr (Or.inl h1)
      · exact List.mem_cons_of_mem x ((ih p).mp h1)
    · intro h
      rcases List.mem_cons.mp h with h1 | h1
      · exact Or.inl h1
      · exact Or.inr ((ih p).mpr h1)

theorem mem_list_json_files_sorted (archive : List (String × Record))
    (p : String × Record) :
    p ∈ list_json_files_sorted archive ↔ p ∈ archive := by
  unfold list_json_files_sorted
  exact mem_insertionSort (fun x y => strLe x.1 y.1) archive p

theorem load_mapping_cleanup (l : List (FKey × BillFolder))
    (sm : List (String × SessionInfo)) :
    load_bill_to_session_mapping (l.map (fun e => (e.1, cleanupFolder e.2))) sm =
      load_bill_to_session_mapping l sm := by
  unfold load_bill_to_session_mapping
  rw [List.foldl_map]
  congr 1
  funext m e
  dsimp only
  rw [cleanupFolder_metadata]

theorem link_pipeline_index (fol : List (FKey × BillFolder))
    (sm : List (String × SessionInfo)) (archive : List (String × Record))
    (events : List ((String × String) × Record)) (errors : ErrSink) :
    (link_events_to_bills_pipeline fol sm archive events errors).2.2.2 =
      load_bill_to_session_mapping fol sm := by
  unfold link_events_to_bills_pipeline
  dsimp only
  rcases hr : linkEventsPass (load_bill_to_session_mapping fol sm)
      (list_json_files_sorted archive) archive events errors with ⟨a1, e1, er1, sk⟩
  dsimp only
  by_cases hsk : sk.isEmpty = true
  · rw [if_pos hsk]
  · rw [if_neg hsk]

theorem link_pipeline_noop (fol : List (FKey × BillFolder))
    (sm : List (String × SessionInfo)) (archive : List (String × Record))
    (events : List ((String × String) × Record)) (errors : ErrSink)
    (h : ∀ p ∈ archive, noLink (load_bill_to_session_mapping fol sm) p.2 = true) :
    link_events_to_bills_pipeline fol sm archive events errors =
      (archive, events, errors, load_bill_to_session_mapping fol sm) := by
  unfold link_events_to_bills_pipeline linkEventsPass
  dsimp only
  obtain ⟨sk', heq, hall⟩ := linkpass_noop (load_bill_to_session_mapping fol sm)
    (list_json_files_sorted archive) archive events errors []
    (fun q hq => h q ((mem_list_json_files_sorted archive q).mp hq))
  rw [List.nil_append] at heq
  rw [heq]
  dsimp only
  by_cases hsk : sk'.isEmpty = true
  · rw [if_pos hsk]
  · rw [if_neg hsk]
    obtain ⟨sk'', heq2, _⟩ := linkpass_noop (load_bill_to_session_mapping fol sm)
      sk' archive events errors [] hall
    rw [List.nil_append] at heq2
    rw [heq2]

theorem link_pipeline_residual (fol : List (FKey × BillFolder))
    (sm : List (String × SessionInfo)) (archive : List (String × Record))
    (events : List ((String × String) × Record)) (errors : ErrSink) :
    ∀ p ∈ (link_events_to_bills_pipeline fol sm archive events errors).1,
      p ∈ archive ∧ noLink (load_bill_to_session_mapping fol sm) p.2 = true := by
  intro p hp
  unfold link_events_to_bills_pipeline linkEventsPass at hp
  dsimp only at hp
  rcases hr : (list_json_files_sorted archive).foldl
      (linkEventStep (load_bill_to_session_mapping fol sm))
      (archive, events, errors, []) with ⟨a1, e1, er1, sk⟩
  rw [hr] at hp
  dsimp only at hp
  have hpa : p ∈ a1 := by
    by_cases hsk : sk.isEmpty = true
    · rw [if_pos hsk] at hp
      exact hp
    · rw [if_neg hsk] at hp
      exact linkpass_archive_sub (load_bill_to_session_mapping fol sm) sk
        (a1, e1, er1, []) p hp
  have hmem : p ∈ archive := by
    have := linkpass_archive_sub (load_bill_to_session_mapping fol sm)
      (list_json_files_sorted archive) (archive, events, errors, []) p
      (by rw [hr]; exact hpa)
    exact this
  refine ⟨hmem, ?_⟩
  cases hno : noLink (load_bill_to_session_mapping fol sm) p.2 with
  | true => rfl
  | false =>
    exfalso
    refine linkpass_kill (load_bill_to_session_mapping fol sm)
      (list_json_files_sorted archive) p
      ((mem_list_json_files_sorted archive p).mpr hmem) hno
      (archive, events, errors, []) p ?_ rfl
    rw [hr]
    exact hpa

/-! ### The second run's session mapping, ledger file and cleanup -/

theorem ensure_session_mapping_idem (j fr c : Option (List (String × SessionInfo))) :
    ensure_session_mapping j fr (ensure_session_mapping j fr c).2 =
      ensure_session_mapping j fr c := by
  cases j with
  | some jm =>
    by_cases hj : jm.isEmpty = true
    · cases c with
      | some c0 => simp [ensure_session_mapping, hj]
      | none =>
        cases fr with
        | some mm => simp [ensure_session_mapping, hj]
        | none => simp [ensure_session_mapping, hj]
    · simp [ensure_session_mapping, hj]
  | none =>
    cases c with
    | some c0 => simp [ensure_session_mapping]
    | none =>
      cases fr with
      | some mm => simp [ensure_session_mapping]
      | none => simp [ensure_session_mapping]

theorem read_write_ledger (led : Ledger) (hv : ledValid led = true) :
    read_latest_timestamps (write_latest_timestamp_file led) = led := by
  unfold ledValid at hv
  rw [Bool.and_eq_true] at hv
  unfold write_latest_timestamp_file read_latest_timestamps
  dsimp only
  rw [to_dt_obj_strftimeIso led.vote_events hv.1, to_dt_obj_strftimeIso led.events hv.2]
  rfl

theorem process_and_save_nil (m : List (String × SessionInfo)) (now : DateTime)
    (st : ProcState) : process_and_save m now [] st = st := rfl

theorem cleanup_placeholders_folders (abbr : String) (now : DateTime)
    (fol : List (FKey × BillFolder)) (tf : Option (List (String × OrphanRec))) :
    (cleanup_placeholders abbr now fol tf).1 =
      fol.map (fun e => (e.1, cleanupFolder e.2)) := by
  unfold cleanup_placeholders
  dsimp only
  rw [cleanup_fold_folders, List.nil_append]

/-- A run whose load pass admits nothing, whose linker resolves nothing and
whose tree carries no resolvable placeholder leaves every component except
the orphan-tracking file unchanged. -/
theorem run_noop (cfg : RunConfig) (input : List (String × Record)) (now : DateTime)
    (s : PipelineState)
    (hload : load_json_files input (read_latest_timestamps s.ledgerFile) s.folders
      s.archive s.errors = ([], s.archive, s.errors))
    (hlink : link_events_to_bills_pipeline s.folders
        (ensure_session_mapping cfg.jurisdiction cfg.fetchResult s.sessionsCache).1
        s.archive s.events s.errors =
      (s.archive, s.events, s.errors,
        load_bill_to_session_mapping s.folders
          (ensure_session_mapping cfg.jurisdiction cfg.fetchResult s.sessionsCache).1))
    (hfold : s.folders.map (fun e => (e.1, cleanupFolder e.2)) = s.folders) :
    (run cfg input now s).folders = s.folders ∧
    (run cfg input now s).events = s.events ∧
    (run cfg input now s).archive = s.archive ∧
    (run cfg input now s).errors = s.errors ∧
    (run cfg input now s).ledgerFile =
      write_latest_timestamp_file (read_latest_timestamps s.ledgerFile) ∧
    (run cfg input now s).sessionsCache =
      (ensure_session_mapping cfg.jurisdiction cfg.fetchResult s.sessionsCache).2 ∧
    (run cfg input now s).sessionIndexFile =
      some (load_bill_to_session_mapping s.folders
        (ensure_session_mapping cfg.jurisdiction cfg.fetchResult s.sessionsCache).1) := by
  unfold run
  dsimp only
  rw [hload]
  dsimp only
  rw [process_and_save_nil]
  dsimp only
  rw [hlink]
  dsimp only
  rw [cleanup_placeholders_folders, hfold]
  exact ⟨rfl, rfl, rfl, rfl, rfl, rfl, rfl⟩

/-! ## Claim theorems -/

/-- C1: `merge_actions E I` is in `I`'s order (same length, indexed by `I`);
at every position whose incoming action's `(description, date)` identity
matches some action of `E`, the result holds a persisted `E` copy with that
identity (hence with its `_processing` metadata untouched), and at every
position with no identity match in `E`, the result holds the incoming copy. -/
theorem merge_actions_preserves_existing (E I : List Action) (i : Nat) (a : Action)
    (ha : I[i]? = some a) :
    (merge_actions E I).length = I.length ∧
    ((∃ e ∈ E, create_action_identifier e = create_action_identifier a) →
      ∃ e ∈ E, create_action_identifier e = create_action_identifier a ∧
        (merge_actions E I)[i]? = some e) ∧
    ((∀ e ∈ E, create_action_identifier e ≠ create_action_identifier a) →
      (merge_actions E I)[i]? = some a) := by
  rw [merge_actions_eq_map]
  refine ⟨List.length_map _ _, ?_, ?_⟩
  · intro ⟨e, heE, hid⟩
    cases hlast : lastWithId (create_action_identifier a) E with
    | none => exact absurd hid (lastWithId_eq_none hlast e heE)
    | some e' =>
      obtain ⟨hmem, hid'⟩ := lastWithId_mem hlast
      refine ⟨e', hmem, hid', ?_⟩
      rw [List.getElem?_map, ha]
      simp [hlast]
  · intro hnone
    cases hlast : lastWithId (create_action_identifier a) E with
    | none =>
      rw [List.getElem?_map, ha]
      simp [hlast]
    | some e' =>
      obtain ⟨hmem, hid'⟩ := lastWithId_mem hlast
      exact absurd hid' (hnone e' hmem)

theorem merge_actions_preserves_existing_witness :
    ([sampleIncomingIntro, sampleIncomingPassed] : List Action)[0]? =
        some sampleIncomingIntro ∧
      ((merge_actions [sampleExistingIntro] [sampleIncomingIntro, sampleIncomingPassed]).length =
          2 ∧
        ((∃ e ∈ [sampleExistingIntro],
            create_action_identifier e = create_action_identifier sampleIncomingIntro) →
          ∃ e ∈ [sampleExistingIntro],
            create_action_identifier e = create_action_identifier sampleIncomingIntro ∧
              (merge_actions [sampleExistingIntro]
                  [sampleIncomingIntro, sampleIncomingPassed])[0]? = some e) ∧
        ((∀ e ∈ [sampleExistingIntro],
            create_action_identifier e ≠ create_action_identifier sampleIncomingIntro) →
          (merge_actions [sampleExistingIntro]
              [sampleIncomingIntro, sampleIncomingPassed])[0]? = some sampleIncomingIntro)) :=
  ⟨by decide,
    merge_actions_preserves_existing [sampleExistingIntro]
      [sampleIncomingIntro, sampleIncomingPassed] 0 sampleIncomingIntro (by decide)⟩

/-- C10: the merged list has exactly one entry per incoming action and
nothing else: its length equals the incoming list's length, each entry's
identity is the corresponding incoming identity, and every merged entry's
identity occurs among the incoming identities, so a persisted action whose
identity is absent from the incoming list never appears in the merged list. -/
theorem merge_actions_drops_unmatched (E I : List Action) :
    (merge_actions E I).length = I.length ∧
    (∀ (i : Nat) (a : Action), I[i]? = some a →
      ∃ m, (merge_actions E I)[i]? = some m ∧
        create_action_identifier m = create_action_identifier a) ∧
    (∀ e ∈ E, (∀ a ∈ I, create_action_identifier a ≠ create_action_identifier e) →
      e ∉ merge_actions E I) := by
  rw [merge_actions_eq_map]
  refine ⟨List.length_map _ _, ?_, ?_⟩
  · intro i a ha
    rw [List.getElem?_map, ha]
    cases hlast : lastWithId (create_action_identifier a) E with
    | none => exact ⟨a, by simp [hlast], rfl⟩
    | some e' =>
      exact ⟨e', by simp [hlast], (lastWithId_mem hlast).2⟩
  · intro e _ hid hmem
    obtain ⟨a, haI, hfa⟩ := List.mem_map.mp hmem
    cases hlast : lastWithId (create_action_identifier a) E with
    | none =>
      rw [hlast] at hfa
      simp only at hfa
      exact hid a haI (by rw [hfa])
    | some e' =>
      rw [hlast] at hfa
      simp only at hfa
      have := (lastWithId_mem hlast).2
      rw [hfa] at this
      exact hid a haI this.symm

/-- C2 counterexample: `handle_vote_event` does not consult `metadata.json`
before writing a placeholder: on a folder that already holds real bill
metadata and no placeholder, it writes `placeholder.json` anyway, refuting
"writes placeholder.json only when metadata.json is absent". -/
theorem handle_vote_event_ignores_metadata :
    ((dictGet? sampleFolders ("119", "HR1")).bind (·.metadata)).isSome = true ∧
      (dictGet? sampleFolders ("119", "HR1")).bind (·.placeholder) = none ∧
      (dictGet?
          (handle_vote_event sampleVoteForHR1 "vote_event_1.json" sampleFolders []
            get_default_timestamps).1
          ("119", "HR1")).bind (·.placeholder) = some "HR 1" := by
  decide

/-- C2 amended: `handle_vote_event` writes `placeholder.json` into the
referenced bill's folder whenever no placeholder is already present,
regardless of whether `metadata.json` exists; it never overwrites an
existing placeholder, and it never modifies `metadata.json` (an existing
real bill record is untouched). -/
theorem handle_vote_event_placeholder_spec (data : Record) (filename : String)
    (folders : List (FKey × BillFolder)) (errors : ErrSink) (ledger : Ledger)
    (s : String) (hid : data.bill_identifier = some s)
    (hs : s.toList.isEmpty = false) :
    ((dictGet?
        (handle_vote_event data filename folders errors ledger).1
        (build_bill_key (data.legislative_session.getD "unknown-session") s)).getD
      emptyFolder).metadata =
      ((dictGet? folders
          (build_bill_key (data.legislative_session.getD "unknown-session") s)).getD
        emptyFolder).metadata ∧
    ((dictGet?
        (handle_vote_event data filename folders errors ledger).1
        (build_bill_key (data.legislative_session.getD "unknown-session") s)).getD
      emptyFolder).placeholder =
      (if ((dictGet? folders
            (build_bill_key (data.legislative_session.getD "unknown-session") s)).getD
          emptyFolder).placeholder.isNone then some s
        else
          ((dictGet? folders
              (build_bill_key (data.legislative_session.getD "unknown-session") s)).getD
            emptyFolder).placeholder) := by
  unfold handle_vote_event validate_required_field
  rw [hid]
  simp only [falsy, hs, Bool.false_eq_true, if_false]
  rw [dictGet?_insert, if_pos rfl]
  cases hp : ((dictGet? folders
      (build_bill_key (data.legislative_session.getD "unknown-session") s)).getD
    emptyFolder).placeholder <;> simp [hp]

theorem handle_vote_event_placeholder_spec_witness :
    sampleVoteForHR1.bill_identifier = some "HR 1" ∧
      ("HR 1" : String).toList.isEmpty = false ∧
      (((dictGet?
            (handle_vote_event sampleVoteForHR1 "vote_event_1.json" sampleFolders []
              get_default_timestamps).1
            (build_bill_key (sampleVoteForHR1.legislative_session.getD "unknown-session")
              "HR 1")).getD
          emptyFolder).metadata =
          ((dictGet? sampleFolders
              (build_bill_key (sampleVoteForHR1.legislative_session.getD "unknown-session")
                "HR 1")).getD
            emptyFolder).metadata ∧
        ((dictGet?
            (handle_vote_event sampleVoteForHR1 "vote_event_1.json" sampleFolders []
              get_default_timestamps).1
            (build_bill_key (sampleVoteForHR1.legislative_session.getD "unknown-session")
              "HR 1")).getD
          emptyFolder).placeholder =
          (if ((dictGet? sampleFolders
                (build_bill_key (sampleVoteForHR1.legislative_session.getD "unknown-session")
                  "HR 1")).getD
              emptyFolder).placeholder.isNone then some "HR 1"
            else
              ((dictGet? sampleFolders
                  (build_bill_key (sampleVoteForHR1.legislative_session.getD "unknown-session")
                    "HR 1")).getD
                emptyFolder).placeholder)) :=
  ⟨rfl, by decide,
    handle_vote_event_placeholder_spec sampleVoteForHR1 "vote_event_1.json" sampleFolders
      [] get_default_timestamps "HR 1" rfl (by decide)⟩

/-- C3: for a bill input file, the batch loader passes the record on exactly
when the action-count comparison says to process: the file is skipped iff
persisted metadata exists and its action count equals the incoming count;
when the counts differ or no metadata exists, the record is appended to the
batch (and a bill file triggers no error write or archive write). -/
theorem load_bill_skip_on_equal_counts (ledger : Ledger)
    (folders : List (FKey × BillFolder)) (all_data archive : List (String × Record))
    (errors : ErrSink) (filename : String) (data : Record)
    (hjson : strEndsWith filename ".json" = true)
    (hbill : strStartsWith filename "bill" = true) :
    loadStep ledger folders (all_data, archive, errors) (filename, data) =
      ((if (compare_action_counts (load_existing_metadata folders data) data).1
          then all_data ++ [(filename, data)] else all_data), archive, errors) ∧
    (∀ em : Record, (compare_action_counts (some em) data).1 =
      decide (em.actions.length ≠ data.actions.length)) ∧
    (compare_action_counts none data).1 = true := by
  have hev : strStartsWith filename "event_" = false :=
    not_strStartsWith_of_head_ne (p := "bill") (q := "event_") rfl rfl (by decide) hbill
  refine ⟨?_, fun em => rfl, rfl⟩
  unfold loadStep
  simp only [hjson, hbill, Bool.not_true, if_true, if_false, Bool.false_eq_true,
    ite_false, ite_true, hev]
  cases h : (compare_action_counts (load_existing_metadata folders data) data).1 <;>
    simp [h, hev]

theorem load_bill_skip_on_equal_counts_witness :
    strEndsWith "bill_hr1.json" ".json" = true ∧
      (loadStep get_default_timestamps sampleFolders ([], [], [])
          ("bill_hr1.json", sampleBillRecord) =
        ((if (compare_action_counts
              (load_existing_metadata sampleFolders sampleBillRecord) sampleBillRecord).1
            then [] ++ [("bill_hr1.json", sampleBillRecord)] else []), [], []) ∧
        (∀ em : Record,
          (compare_action_counts (some em) sampleBillRecord).1 =
            decide (em.actions.length ≠ sampleBillRecord.actions.length)) ∧
        (compare_action_counts none sampleBillRecord).1 = true) :=
  ⟨by decide,
    load_bill_skip_on_equal_counts get_default_timestamps sampleFolders [] [] []
      "bill_hr1.json" sampleBillRecord (by decide) (by decide)⟩

/-- C4 counterexample: a vote-event record whose `start_date` is present but
unparseable is rejected (`False`, never processed) yet nothing is written to
the error sink, refuting the claim that every record with an unparseable or
absent date is written to a categorized error sink. -/
theorem is_newer_unparseable_writes_no_error :
    is_newer_than_latest sampleVoteBadDate dt1900 "vote_events" [] = (false, []) := by
  decide

/-- C4 amended: a record whose `start_date` is absent (or falsy) or fails to
parse is never treated as newer (`is_newer_than_latest` returns `False`, so
it is never processed); an absent date is additionally written to a
categorized error sink, while a present but unparseable date is rejected
silently, with the error sink unchanged. -/
theorem is_newer_rejects_missing_or_unparseable (data : Record) (latest : DateTime)
    (errors : ErrSink) (category : String)
    (hcat : category = "events" ∨ category = "vote_events")
    (hbad : falsy data.start_date = true ∨
      format_timestamp (data.start_date.getD "") = none) :
    (is_newer_than_latest data latest category errors).1 = false ∧
    (falsy data.start_date = true →
      (is_newer_than_latest data latest category errors).2 =
        ErrSink_record_error errors
          ("from_is_newer_than_latest_" ++
            (if category = "events" then "missing_event_date" else "missing_vote_date"))
          "unknown.json" data none) ∧
    (falsy data.start_date = false →
      (is_newer_than_latest data latest category errors).2 = errors) := by
  rcases hcat with hcat | hcat <;> subst hcat <;>
    cases hfal : falsy data.start_date
  · rcases hbad with hbad | hbad
    · exact absurd hbad (by simp [hfal])
    · unfold is_newer_than_latest extract_timestamp
      simp only [if_pos rfl, hfal, Bool.false_eq_true, if_false, hbad]
      have : to_dt_obj none = none := rfl
      refine ⟨rfl, by simp, fun _ => rfl⟩
  · unfold is_newer_than_latest extract_timestamp
    simp only [if_pos rfl, hfal, if_true]
    have hlow : strToLower "MISSING_EVENT_DATE" = "missing_event_date" := by decide
    refine ⟨by simp, fun _ => by simp [hlow], by simp⟩
  · rcases hbad with hbad | hbad
    · exact absurd hbad (by simp [hfal])
    · unfold is_newer_than_latest extract_timestamp
      simp only [if_neg (by decide : ¬ ("vote_events" : String) = "events"), if_pos rfl,
        hfal, Bool.false_eq_true, if_false, hbad]
      refine ⟨rfl, by simp, fun _ => rfl⟩
  · unfold is_newer_than_latest extract_timestamp
    simp only [if_neg (by decide : ¬ ("vote_events" : String) = "events"), if_pos rfl,
      hfal, if_true]
    have hlow : strToLower "MISSING_VOTE_DATE" = "missing_vote_date" := by decide
    refine ⟨by simp, fun _ => by simp [hlow], by simp⟩

theorem is_newer_rejects_missing_or_unparseable_witness :
    ("vote_events" = "events" ∨ ("vote_events" : String) = "vote_events") ∧
      (falsy sampleVoteNoDate.start_date = true ∨
        format_timestamp (sampleVoteNoDate.start_date.getD "") = none) ∧
      ((is_newer_than_latest sampleVoteNoDate dt1900 "vote_events" []).1 = false ∧
        (falsy sampleVoteNoDate.start_date = true →
          (is_newer_than_latest sampleVoteNoDate dt1900 "vote_events" []).2 =
            ErrSink_record_error []
              ("from_is_newer_than_latest_" ++
                (if ("vote_events" : String) = "events" then "missing_event_date"
                  else "missing_vote_date"))
              "unknown.json" sampleVoteNoDate none) ∧
        (falsy sampleVoteNoDate.start_date = false →
          (is_newer_than_latest sampleVoteNoDate dt1900 "vote_events" []).2 = [])) :=
  ⟨Or.inr rfl, Or.inl (by decide),
    is_newer_rejects_missing_or_unparseable sampleVoteNoDate dt1900 [] "vote_events"
      (Or.inr rfl) (Or.inl (by decide))⟩

/-- C9 counterexample: the router tests substring containment, not filename
prefixes: `event_bill_1.json` starts with `event_` (and not with `bill_`),
so by the claim it should go to the event handler, but it is dispatched to
the bill handler. -/
theorem route_kind_not_by_prefix :
    route_kind "event_bill_1.json" = some HandlerKind.bill ∧
      strStartsWith "event_bill_1.json" "event_" = true ∧
      strStartsWith "event_bill_1.json" "bill_" = false := by
  decide

/-- C9 amended: the router determines the entity kind by substring
containment with priority `bill_` > `vote_event_` > `event_`: a record is
dispatched to the bill handler exactly when the filename contains `bill_`,
to the vote-event handler exactly when it contains `vote_event_` but not
`bill_`, to the event handler exactly when it contains `event_` but neither
`bill_` nor `vote_event_`, and to no handler otherwise. -/
theorem route_kind_by_substring (filename : String) :
    (route_kind filename = some HandlerKind.bill ↔ containsSub filename "bill_" = true) ∧
    (route_kind filename = some HandlerKind.voteEvent ↔
      (containsSub filename "bill_" = false ∧
        containsSub filename "vote_event_" = true)) ∧
    (route_kind filename = some HandlerKind.event ↔
      (containsSub filename "bill_" = false ∧
        containsSub filename "vote_event_" = false ∧
        containsSub filename "event_" = true)) ∧
    (route_kind filename = none ↔
      (containsSub filename "bill_" = false ∧
        containsSub filename "vote_event_" = false ∧
        containsSub filename "event_" = false)) := by
  unfold route_kind
  by_cases h1 : containsSub filename "bill_" = true <;>
    by_cases h2 : containsSub filename "vote_event_" = true <;>
      by_cases h3 : containsSub filename "event_" = true <;>
        simp_all

/-- C5: after `cleanup_placeholders` completes, no bill folder holds both
`metadata.json` and `placeholder.json` (every placeholder whose folder has
metadata is deleted), and repeating the pass leaves the tree unchanged. -/
theorem cleanup_exclusivity_and_idempotence (abbr : String) (now now2 : DateTime)
    (folders : List (FKey × BillFolder))
    (tf tf2 : Option (List (String × OrphanRec))) :
    (∀ e ∈ (cleanup_placeholders abbr now folders tf).1,
      ¬ (e.2.metadata.isSome = true ∧ e.2.placeholder.isSome = true)) ∧
    (cleanup_placeholders abbr now2 (cleanup_placeholders abbr now folders tf).1 tf2).1 =
      (cleanup_placeholders abbr now folders tf).1 := by
  have h1 : ∀ (n : DateTime) (fs : List (FKey × BillFolder))
      (t : Option (List (String × OrphanRec))),
      (cleanup_placeholders abbr n fs t).1 = fs.map (fun e => (e.1, cleanupFolder e.2)) := by
    intro n fs t
    unfold cleanup_placeholders
    exact cleanup_fold_folders abbr (isoformatNoZ n) fs [] (t.getD [])
  constructor
  · intro e he
    rw [h1] at he
    obtain ⟨e0, _, rfl⟩ := List.mem_map.mp he
    unfold cleanupFolder
    by_cases hc : (e0.2.placeholder.isSome && e0.2.metadata.isSome) = true
    · rw [if_pos hc]
      rintro ⟨-, hph⟩
      simp at hph
    · rw [if_neg hc]
      rintro ⟨hm, hph⟩
      exact hc (by rw [hph, hm, Bool.and_self])
  · rw [h1, h1, List.map_map]
    apply List.map_congr_left
    intro e _
    simp [Function.comp, cleanupFolder_idem]

/-- C6 counterexample: a run in which the last orphan is resolved leaves the
in-memory tracking map empty, so `save_orphan_tracking` is skipped
(`if orphan_tracking:`) and the persisted tracking file still contains the
resolved record: it is not removed from the persisted map and the map is not
rewritten, refuting the claim for that first run after the bill's
`metadata.json` appears. -/
theorem cleanup_keeps_stale_tracking_file :
    (cleanup_placeholders "usa" sampleNow sampleResolvedTree
        (some [("HR9", sampleOrphanRec)])).2.1 = [] ∧
      (cleanup_placeholders "usa" sampleNow sampleResolvedTree
          (some [("HR9", sampleOrphanRec)])).2.2 = some [("HR9", sampleOrphanRec)] ∧
      (cleanup_placeholders "usa" sampleNow sampleResolvedTree
          (some [("HR9", sampleOrphanRec)])).1 =
        [(("119", "HR9"), { metadata := some sampleBillMeta })] := by
  decide

/-- C6 amended: across consecutive runs, for a still-orphaned bill folder the
tracked `occurrence_count` is incremented (never decreased) and `first_seen`
is never replaced; in the first run after the bill's real `metadata.json`
appears, the record is removed from the in-memory tracking map; the map is
persisted in full (overwrite, not append) at the end of the pass only when
it is non-empty — when the updated map is empty, the old file is left in
place, so a resolved record can survive on disk. (Folder names are assumed
unique in the tree, as paths are.) -/
theorem cleanup_tracking_monotone (abbr : String) (now : DateTime)
    (folders : List (FKey × BillFolder)) (tf : Option (List (String × OrphanRec)))
    (id : String) (rec : OrphanRec)
    (hnodup : (folders.map (fun e => e.1.2)).Nodup)
    (hload : dictGet? (tf.getD []) id = some rec) :
    (∀ e ∈ folders, e.1.2 = id → e.2.placeholder.isSome = true → e.2.metadata = none →
      ∃ rec', dictGet? (cleanup_placeholders abbr now folders tf).2.1 id = some rec' ∧
        rec'.occurrence_count = rec.occurrence_count + 1 ∧
        rec'.first_seen = rec.first_seen) ∧
    (∀ e ∈ folders, e.1.2 = id → e.2.placeholder.isSome = true →
      e.2.metadata.isSome = true →
      dictGet? (cleanup_placeholders abbr now folders tf).2.1 id = none) ∧
    ((cleanup_placeholders abbr now folders tf).2.2 =
      if ((cleanup_placeholders abbr now folders tf).2.1).isEmpty then tf
      else some (cleanup_placeholders abbr now folders tf).2.1) := by
  have key_split : ∀ e ∈ folders, e.1.2 = id →
      ∃ l1 l2, folders = l1 ++ e :: l2 ∧
        (∀ x ∈ l1, x.1.2 ≠ id) ∧ (∀ x ∈ l2, x.1.2 ≠ id) := by
    intro e he heid
    obtain ⟨l1, l2, rfl⟩ := List.append_of_mem he
    refine ⟨l1, l2, rfl, ?_, ?_⟩
    · intro x hx hxid
      rw [List.map_append, List.map_cons] at hnodup
      have hdisj := (List.nodup_append.mp hnodup).2.2
      exact hdisj (List.mem_map_of_mem _ hx)
        (by rw [hxid, ← heid]; exact List.mem_cons_self _ _)
    · intro x hx hxid
      rw [List.map_append, List.map_cons] at hnodup
      have hcons := ((List.nodup_append.mp hnodup).2.1)
      rw [List.nodup_cons] at hcons
      exact hcons.1 (by rw [heid, ← hxid]; exact List.mem_map_of_mem _ hx)
  have hmain : ∀ e ∈ folders, e.1.2 = id → e.2.placeholder.isSome = true →
      dictGet? (cleanup_placeholders abbr now folders tf).2.1 id =
        (if e.2.metadata.isSome then none
          else some
            { first_seen := rec.first_seen,
              last_seen := isoformatNoZ now,
              occurrence_count := rec.occurrence_count + 1,
              session := rec.session,
              vote_count := ((e.2.logs.filter (fun l => strEndsWith l.1 ".json")).filter
                (fun l => containsSub l.1 "vote")).length,
              event_count := ((e.2.logs.filter (fun l => strEndsWith l.1 ".json")).filter
                (fun l => ¬ containsSub l.1 "vote" && containsSub l.1 "event")).length,
              path := rec.path }) := by
    intro e he heid hp
    obtain ⟨l1, l2, hsplit, hl1, hl2⟩ := key_split e he heid
    obtain ⟨key, folder⟩ := e
    simp only at heid hp
    subst heid
    unfold cleanup_placeholders
    simp only [hsplit, List.foldl_append, List.foldl_cons]
    rw [cleanup_fold_tracking_other abbr (isoformatNoZ now) l2 _ key.2 hl2]
    have hacc : dictGet? (l1.foldl (cleanup_step abbr (isoformatNoZ now))
        ([], tf.getD [])).2 key.2 = some rec := by
      rw [cleanup_fold_tracking_other abbr (isoformatNoZ now) l1 _ key.2 hl1]
      exact hload
    obtain ⟨pid, hpid⟩ := Option.isSome_iff_exists.mp hp
    cases hm : folder.metadata with
    | some md =>
      simp only [cleanup_step, hpid, hm, Option.isSome_some, if_true]
      simp only [hacc, Option.isSome_some, if_true]
      rw [dictGet?_erase, if_pos rfl]
    | none =>
      simp only [cleanup_step, hpid, hm, Option.isSome_none, Bool.false_eq_true, if_false]
      simp only [hacc]
      rw [dictGet?_insert, if_pos rfl]
  refine ⟨?_, ?_, rfl⟩
  · intro e he heid hp hm
    rw [hmain e he heid hp, hm]
    simp only [Option.isSome_none, Bool.false_eq_true, if_false]
    exact ⟨_, rfl, rfl, rfl⟩
  · intro e he heid hp hm
    rw [hmain e he heid hp]
    simp [hm]

theorem cleanup_tracking_monotone_witness :
    (sampleOrphanTree.map (fun e => e.1.2)).Nodup ∧
      dictGet? ((some [("HR9", sampleOrphanRec)] :
          Option (List (String × OrphanRec))).getD []) "HR9" = some sampleOrphanRec ∧
      ((∀ e ∈ sampleOrphanTree, e.1.2 = "HR9" → e.2.placeholder.isSome = true →
          e.2.metadata = none →
          ∃ rec', dictGet? (cleanup_placeholders "usa" sampleNow sampleOrphanTree
              (some [("HR9", sampleOrphanRec)])).2.1 "HR9" = some rec' ∧
            rec'.occurrence_count = sampleOrphanRec.occurrence_count + 1 ∧
            rec'.first_seen = sampleOrphanRec.first_seen) ∧
        (∀ e ∈ sampleOrphanTree, e.1.2 = "HR9" → e.2.placeholder.isSome = true →
          e.2.metadata.isSome = true →
          dictGet? (cleanup_placeholders "usa" sampleNow sampleOrphanTree
              (some [("HR9", sampleOrphanRec)])).2.1 "HR9" = none) ∧
        ((cleanup_placeholders "usa" sampleNow sampleOrphanTree
            (some [("HR9", sampleOrphanRec)])).2.2 =
          if ((cleanup_placeholders "usa" sampleNow sampleOrphanTree
              (some [("HR9", sampleOrphanRec)])).2.1).isEmpty then
            some [("HR9", sampleOrphanRec)]
          else some (cleanup_placeholders "usa" sampleNow sampleOrphanTree
              (some [("HR9", sampleOrphanRec)])).2.1)) :=
  ⟨by decide, by decide,
    cleanup_tracking_monotone "usa" sampleNow sampleOrphanTree
      (some [("HR9", sampleOrphanRec)]) "HR9" sampleOrphanRec (by decide) (by decide)⟩

/-- C8: for an archived event whose referenced identifiers have a hit in the
bill-to-session index, the first identifier in the record's own list order
with a hit wins: the event is materialized exactly once, under that bill's
session, the archived copy is deleted (and the stale `missing_session`
artifact cleared), and the remaining referenced identifiers are not
separately materialized or otherwise touched — the step performs exactly the
one insertion shown. (`linkEventsPass` folds this step over the archive;
the date hypothesis holds for every event the loader archives, since
unparseable dates are filtered out.) -/
theorem link_event_first_hit (mapping : List (String × SessionMeta))
    (archive : List (String × Record)) (events : List ((String × String) × Record))
    (errors : ErrSink) (skipped : List (String × Record)) (fname : String)
    (data : Record) (b : String) (meta : SessionMeta)
    (hfind : (extract_bill_ids_from_event data).findSome?
        (fun x => (dictGet? mapping x).map (fun m => (x, m))) = some (b, meta))
    (hsd : falsy data.start_date = false) :
    linkEventStep mapping (archive, events, errors, skipped) (fname, data) =
      (dictErase archive fname,
        dictInsert events (meta.session_id, event_file_name data) data,
        dictErase errors ("missing_session", fname), skipped) ∧
    dictGet? mapping b = some meta ∧
    (∃ l1 l2, extract_bill_ids_from_event data = l1 ++ b :: l2 ∧
      ∀ x ∈ l1, dictGet? mapping x = none) := by
  obtain ⟨l1, a, l2, hsplit, ha, hmiss⟩ := findSome?_split _ hfind
  have hab : a = b ∧ dictGet? mapping a = some meta := by
    cases hg : dictGet? mapping a with
    | none => rw [hg] at ha; simp at ha
    | some m =>
      rw [hg] at ha
      simp only [Option.map_some', Option.some.injEq, Prod.mk.injEq] at ha
      exact ⟨ha.1, congrArg some ha.2⟩
  obtain ⟨rfl, hget⟩ := hab
  refine ⟨?_, hget, l1, l2, hsplit, fun x hx => ?_⟩
  · have hne : (extract_bill_ids_from_event data).isEmpty = false := by
      rw [hsplit]
      cases l1 <;> simp
    unfold linkEventStep
    simp only [hne, Bool.false_eq_true, if_false, hfind]
    obtain ⟨s, hs⟩ : ∃ s, data.start_date = some s := by
      cases hd : data.start_date with
      | none => rw [hd] at hsd; simp [falsy] at hsd
      | some s => exact ⟨s, rfl⟩
    have hnf : falsy data.start_date = false := hsd
    unfold run_handle_event handle_event validate_required_field
    rw [hs] at hnf ⊢
    simp only [falsy] at hnf
    simp only [falsy, hnf, Bool.false_eq_true, if_false, Option.isNone_some,
      Option.isSome_some]
  · have := hmiss x hx
    cases hg : dictGet? mapping x with
    | none => rfl
    | some m => rw [hg] at this; simp at this

theorem link_event_first_hit_witness :
    (extract_bill_ids_from_event sampleEventHR56).findSome?
        (fun x => (dictGet? sampleMapping x).map (fun m => (x, m))) =
      some ("HR6", { session_id := "119", date_folder := "2023-2024" }) ∧
      falsy sampleEventHR56.start_date = false ∧
      (linkEventStep sampleMapping ([("event_7.json", sampleEventHR56)], [], [], [])
          ("event_7.json", sampleEventHR56) =
        (dictErase [("event_7.json", sampleEventHR56)] "event_7.json",
          dictInsert [] (("119" : String), event_file_name sampleEventHR56)
            sampleEventHR56,
          dictErase [] ("missing_session", "event_7.json"), []) ∧
        dictGet? sampleMapping "HR6" =
          some { session_id := "119", date_folder := "2023-2024" } ∧
        (∃ l1 l2, extract_bill_ids_from_event sampleEventHR56 = l1 ++ "HR6" :: l2 ∧
          ∀ x ∈ l1, dictGet? sampleMapping x = none)) :=
  ⟨by decide, by decide,
    link_event_first_hit sampleMapping [("event_7.json", sampleEventHR56)] [] [] []
      "event_7.json" sampleEventHR56 "HR6"
      { session_id := "119", date_folder := "2023-2024" } (by decide) (by decide)⟩

/-- C7 counterexample: running the full pipeline twice on the same input
batch (one vote event referencing a bill that never arrives, starting from
an empty repository, both runs at the same instant) does not reproduce the
first run's file tree: the orphan-tracking file advances `occurrence_count`
from 1 to 2, so a file differs between the two trees. -/
theorem run_twice_tracking_differs :
    (sampleRun1.trackingFile.getD []).map (fun e => (e.1, e.2.occurrence_count)) =
        [("HR9", 1)] ∧
      (sampleRun2.trackingFile.getD []).map (fun e => (e.1, e.2.occurrence_count)) =
        [("HR9", 2)] ∧
      sampleRun2 ≠ sampleRun1 := by
  decide

theorem merge_actions_drops_unmatched_witness :
    (merge_actions [sampleExistingIntro, sampleIncomingPassed] [sampleIncomingIntro]).length =
        1 ∧
      (∀ (i : Nat) (a : Action), ([sampleIncomingIntro] : List Action)[i]? = some a →
        ∃ m,
          (merge_actions [sampleExistingIntro, sampleIncomingPassed]
              [sampleIncomingIntro])[i]? = some m ∧
            create_action_identifier m = create_action_identifier a) ∧
      (∀ e ∈ [sampleExistingIntro, sampleIncomingPassed],
        (∀ a ∈ [sampleIncomingIntro],
          create_action_identifier a ≠ create_action_identifier e) →
        e ∉ merge_actions [sampleExistingIntro, sampleIncomingPassed] [sampleIncomingIntro]) :=
  merge_actions_drops_unmatched [sampleExistingIntro, sampleIncomingPassed]
    [sampleIncomingIntro]

/-! ## Rerun assembly: the amended idempotence theorem -/

theorem route_bill_not_of_sub {f : String} (hnb : containsSub f "bill_" = false)
    (hrq : route_kind f = some HandlerKind.bill) : False := by
  unfold route_kind at hrq
  rw [if_neg (show ¬ containsSub f "bill_" = true by simp [hnb])] at hrq
  split at hrq
  · injection hrq with hh
    exact HandlerKind.noConfusion hh
  · split at hrq
    · injection hrq with hh
      exact HandlerKind.noConfusion hh
    · exact Option.noConfusion hrq

/-- C7 (amended): rerunning the full pipeline on the same well-formed input
batch over the tree the first run produced changes nothing except possibly
the orphan-placeholder tracking file: the bill folders, the per-session
events, the event archive, the error sink, the timestamp-ledger file, the
session cache and the bill→session index file of the second run all equal
the first run's. (The tracking file genuinely differs across reruns — see
the counterexample — because every pass increments the `occurrence_count` of
each still-orphaned placeholder.) Well-formed means: every file is a `.json`
following the prefix convention without a higher-priority route marker in
its name, carries the fields its handler requires and a session the mapping
resolves, and bill files sharing a folder key carry equally many actions. -/
theorem run_idempotent (cfg : RunConfig) (input : List (String × Record))
    (now now2 : DateTime) (s : PipelineState)
    (hwf : ∀ p ∈ input,
      wellFormedFile
        (ensure_session_mapping cfg.jurisdiction cfg.fetchResult s.sessionsCache).1
        p.1 p.2 = true)
    (hlen : ∀ p ∈ input, ∀ q ∈ input, strStartsWith p.1 "bill_" = true →
      strStartsWith q.1 "bill_" = true → billKeyOf p.2 = billKeyOf q.2 →
      p.2.actions.length = q.2.actions.length) :
    (run cfg input now2 (run cfg input now s)).folders =
        (run cfg input now s).folders ∧
    (run cfg input now2 (run cfg input now s)).events =
        (run cfg input now s).events ∧
    (run cfg input now2 (run cfg input now s)).archive =
        (run cfg input now s).archive ∧
    (run cfg input now2 (run cfg input now s)).errors =
        (run cfg input now s).errors ∧
    (run cfg input now2 (run cfg input now s)).ledgerFile =
        (run cfg input now s).ledgerFile ∧
    (run cfg input now2 (run cfg input now s)).sessionsCache =
        (run cfg input now s).sessionsCache ∧
    (run cfg input now2 (run cfg input now s)).sessionIndexFile =
        (run cfg input now s).sessionIndexFile := by
  have hwf' : ∀ p ∈ input, wellFormedFile (runMapping cfg s).1 p.1 p.2 = true := hwf
  have hval0 : ledValid (runLedger0 s) = true := read_latest_timestamps_valid s.ledgerFile
  have hstval : ledValid (runProc cfg input now s).ledger = true :=
    (process_fold_ledger (runMapping cfg s).1 now (runLoaded input s).1
      { folders := s.folders, events := s.events,
        errors := (runLoaded input s).2.2, ledger := runLedger0 s }).2.2 hval0
  have hround : read_latest_timestamps ((run cfg input now s).ledgerFile) =
      (runProc cfg input now s).ledger := by
    have he : (run cfg input now s).ledgerFile =
        write_latest_timestamp_file (runProc cfg input now s).ledger := rfl
    rw [he]
    exact read_write_ledger _ hstval
  have hfolders1 : (run cfg input now s).folders =
      (runProc cfg input now s).folders.map (fun e => (e.1, cleanupFolder e.2)) :=
    cleanup_placeholders_folders cfg.state_abbr now (runProc cfg input now s).folders
      s.trackingFile
  have hmemLD : ∀ p ∈ (runLoaded input s).1, p ∈ input :=
    load_json_files_mem input (runLedger0 s) s.folders s.archive s.errors
  have hbridge : ∀ q ∈ input, route_kind q.1 = some HandlerKind.bill →
      strStartsWith q.1 "bill_" = true := by
    intro q hq hrq
    obtain ⟨_, _, _, hdq⟩ := wf_parts (runMapping cfg s).1 q.1 q.2 (hwf' q hq)
    rcases hdq with ⟨hb2, _, _⟩ | ⟨_, hnb2, _⟩ | ⟨_, hnb2, _⟩
    · exact hb2
    · exact absurd (route_bill_not_of_sub hnb2 hrq) (fun h => h)
    · exact absurd (route_bill_not_of_sub hnb2 hrq) (fun h => h)
  have hInv : ∀ f d, (f, d) ∈ input → strStartsWith f "bill_" = true →
      ∃ m, metaAt (runProc cfg input now s).folders (billKeyOf d) = some m ∧
        m.actions.length = d.actions.length := by
    intro f d hp hb
    obtain ⟨hjson, hsess, hmap, hdisj⟩ :=
      wf_parts (runMapping cfg s).1 f d (hwf' (f, d) hp)
    have hid : falsy d.identifier = false := by
      rcases hdisj with ⟨_, hid, _⟩ | ⟨_, hnb, _⟩ | ⟨_, hnb, _⟩
      · exact hid
      · exact absurd (containsSub_of_startsWith hb) (by simp [hnb])
      · exact absurd (containsSub_of_startsWith hb) (by simp [hnb])
    have hroute : route_kind f = some HandlerKind.bill :=
      route_kind_bill_of (containsSub_of_startsWith hb)
    have hlenL : ∀ q ∈ (runLoaded input s).1, route_kind q.1 = some HandlerKind.bill →
        billKeyOf q.2 = billKeyOf d → q.2.actions.length = d.actions.length := by
      intro q hq hrq hkq
      have hqin := hmemLD q hq
      exact hlen q hqin (f, d) hp (hbridge q hqin hrq) hb hkq
    rcases load_bill_dichotomy input (runLedger0 s) s.folders s.archive s.errors f d hp
        hjson (strStartsWith_mono (by decide) hb) with hin | hskip
    · obtain ⟨l1, l2, hsplit⟩ := List.append_of_mem hin
      have hPS : (runProc cfg input now s).folders =
          ((l1 ++ (f, d) :: l2).foldl (processStep (runMapping cfg s).1 now)
            { folders := s.folders, events := s.events,
              errors := (runLoaded input s).2.2, ledger := runLedger0 s }).folders := by
        rw [← hsplit]
        rfl
      rw [hPS, List.foldl_append, List.foldl_cons]
      refine process_fold_inv (runMapping cfg s).1 now d l2 ?_ _
        (processStep_bill_self (runMapping cfg s).1 now _ f d hsess hmap hroute hid)
      intro q hq hrq hkq
      refine hlenL q ?_ hrq hkq
      show q ∈ (load_json_files input (runLedger0 s) s.folders s.archive s.errors).1
      rw [hsplit]
      exact List.mem_append_right l1 (List.mem_cons_of_mem (f, d) hq)
    · have hinv0 : ∃ m, metaAt s.folders (billKeyOf d) = some m ∧
          m.actions.length = d.actions.length := by
        unfold compare_action_counts at hskip
        rw [load_existing_metadata_eq s.folders d hid] at hskip
        cases hg : metaAt s.folders (billKeyOf d) with
        | none =>
          rw [hg] at hskip
          simp at hskip
        | some em =>
          rw [hg] at hskip
          dsimp only at hskip
          exact ⟨em, rfl, not_not.mp (of_decide_eq_false hskip)⟩
      exact process_fold_inv (runMapping cfg s).1 now d (runLoaded input s).1
        hlenL _ hinv0
  have hHWvote : ∀ f d dt0, (f, d) ∈ input → strStartsWith f "vote_event_" = true →
      fromisoformat? (d.start_date.getD "") = some dt0 →
      dt0.key ≤ (runProc cfg input now s).ledger.vote_events.key := by
    intro f d dt0 hp hv hiso
    obtain ⟨hjson, hsess, hmap, hdisj⟩ :=
      wf_parts (runMapping cfg s).1 f d (hwf' (f, d) hp)
    have hvf : falsy d.bill_identifier = false ∧ falsy d.start_date = false ∧
        route_kind f = some HandlerKind.voteEvent := by
      rcases hdisj with ⟨hb2, _, _⟩ | ⟨_, _, hbid, hsd, hr⟩ | ⟨he2, _, _⟩
      · have hne := not_strStartsWith_of_head_ne (f := f) (p := "bill_")
          (q := "vote_event_") rfl rfl (by decide) hb2
        rw [hne] at hv
        exact Bool.noConfusion hv
      · exact ⟨hbid, hsd, hr⟩
      · have hne := not_strStartsWith_of_head_ne (f := f) (p := "event_")
          (q := "vote_event_") rfl rfl (by decide) he2
        rw [hne] at hv
        exact Bool.noConfusion hv
    obtain ⟨hbid, hsd, hroute⟩ := hvf
    have hsw : strStartsWith f "bill" = false :=
      not_strStartsWith_of_head_ne (f := f) (p := "vote_event_") (q := "bill")
        rfl rfl (by decide) hv
    have hsv : strStartsWith f "vote_event" = true :=
      strStartsWith_mono (by decide) hv
    rcases load_vote_dichotomy input (runLedger0 s) s.folders s.archive s.errors f d hp
        hjson hsw hsv hsd with hin | hbound
    · exact process_fold_vote_hiwater (runMapping cfg s).1 now (runLoaded input s).1
        { folders := s.folders, events := s.events,
          errors := (runLoaded input s).2.2, ledger := runLedger0 s }
        f d dt0 hin hsess hmap hroute hbid hsd hiso
    · exact (hbound dt0 hiso).trans
        (process_fold_ledger (runMapping cfg s).1 now (runLoaded input s).1
          { folders := s.folders, events := s.events,
            errors := (runLoaded input s).2.2, ledger := runLedger0 s }).1
  have hHWevent : ∀ f d dt0, (f, d) ∈ input → strStartsWith f "event_" = true →
      fromisoformat? (d.start_date.getD "") = some dt0 →
      dt0.key ≤ (runProc cfg input now s).ledger.events.key := by
    intro f d dt0 hp he hiso
    obtain ⟨hjson, hsess, hmap, hdisj⟩ :=
      wf_parts (runMapping cfg s).1 f d (hwf' (f, d) hp)
    have hef : falsy d.bill_identifier = false ∧ falsy d.start_date = false ∧
        route_kind f = some HandlerKind.event := by
      rcases hdisj with ⟨hb2, _, _⟩ | ⟨hv2, _, _⟩ | ⟨_, _, _, hbid, hsd, hr⟩
      · have hne := not_strStartsWith_of_head_ne (f := f) (p := "bill_")
          (q := "event_") rfl rfl (by decide) hb2
        rw [hne] at he
        exact Bool.noConfusion he
      · have hne := not_strStartsWith_of_head_ne (f := f) (p := "vote_event_")
          (q := "event_") rfl rfl (by decide) hv2
        rw [hne] at he
        exact Bool.noConfusion he
      · exact ⟨hbid, hsd, hr⟩
    obtain ⟨hbid, hsd, hroute⟩ := hef
    have hsw : strStartsWith f "bill" = false :=
      not_strStartsWith_of_head_ne (f := f) (p := "event_") (q := "bill")
        rfl rfl (by decide) he
    have hsnv : strStartsWith f "vote_event" = false :=
      not_strStartsWith_of_head_ne (f := f) (p := "event_") (q := "vote_event")
        rfl rfl (by decide) he
    have hse : strStartsWith f "event" = true :=
      strStartsWith_mono (by decide) he
    rcases load_event_dichotomy input (runLedger0 s) s.folders s.archive s.errors f d hp
        hjson hsw hsnv hse hsd with hin | hbound
    · exact process_fold_event_hiwater (runMapping cfg s).1 now (runLoaded input s).1
        { folders := s.folders, events := s.events,
          errors := (runLoaded input s).2.2, ledger := runLedger0 s }
        f d dt0 hin hsess hmap hroute hbid hsd hiso
    · exact (hbound dt0 hiso).trans
        (process_fold_ledger (runMapping cfg s).1 now (runLoaded input s).1
          { folders := s.folders, events := s.events,
            errors := (runLoaded input s).2.2, ledger := runLedger0 s }).2.1
  have hload2 : load_json_files input
      (read_latest_timestamps ((run cfg input now s).ledgerFile))
      ((run cfg input now s).folders) ((run cfg input now s).archive)
      ((run cfg input now s).errors) =
      ([], (run cfg input now s).archive, (run cfg input now s).errors) := by
    rw [hround]
    apply load_json_files_noop
    intro p hp
    obtain ⟨f, d⟩ := p
    obtain ⟨hjson, hsess, hmap, hdisj⟩ :=
      wf_parts (runMapping cfg s).1 f d (hwf' (f, d) hp)
    rcases hdisj with ⟨hb, hid, hroute⟩ | ⟨hv, hnb, hbid, hsd, hroute⟩ |
      ⟨he, hnb, hnv, hbid, hsd, hroute⟩
    · apply loadStep_bill_skip
      · exact strStartsWith_mono (by decide) hb
      · obtain ⟨m, hm, hml⟩ := hInv f d hp hb
        rw [load_existing_metadata_eq ((run cfg input now s).folders) d hid,
          hfolders1, metaAt_cleanup, hm]
        simp [compare_action_counts, hml]
    · apply loadStep_vote_skip
      · exact not_strStartsWith_of_head_ne (f := f) (p := "vote_event_") (q := "bill")
          rfl rfl (by decide) hv
      · exact strStartsWith_mono (by decide) hv
      · apply is_newer_eq_false _ _ _ _ (Or.inl rfl) hsd
        intro dt0 hiso
        exact hHWvote f d dt0 hp hv hiso
    · apply loadStep_event_skip
      · exact not_strStartsWith_of_head_ne (f := f) (p := "event_") (q := "bill")
          rfl rfl (by decide) he
      · exact not_strStartsWith_of_head_ne (f := f) (p := "event_") (q := "vote_event")
          rfl rfl (by decide) he
      · exact strStartsWith_mono (by decide) he
      · apply is_newer_eq_false _ _ _ _ (Or.inr rfl) hsd
        intro dt0 hiso
        exact hHWevent f d dt0 hp he hiso
  have hm2 : (ensure_session_mapping cfg.jurisdiction cfg.fetchResult
      ((run cfg input now s).sessionsCache)).1 = (runMapping cfg s).1 := by
    have hc : (run cfg input now s).sessionsCache = (runMapping cfg s).2 := rfl
    rw [hc]
    show (ensure_session_mapping cfg.jurisdiction cfg.fetchResult
      (ensure_session_mapping cfg.jurisdiction cfg.fetchResult s.sessionsCache).2).1 = _
    rw [ensure_session_mapping_idem]
    rfl
  have hlink2 : link_events_to_bills_pipeline ((run cfg input now s).folders)
      (ensure_session_mapping cfg.jurisdiction cfg.fetchResult
        ((run cfg input now s).sessionsCache)).1
      ((run cfg input now s).archive) ((run cfg input now s).events)
      ((run cfg input now s).errors) =
      ((run cfg input now s).archive, (run cfg input now s).events,
        (run cfg input now s).errors,
        load_bill_to_session_mapping ((run cfg input now s).folders)
          (ensure_session_mapping cfg.jurisdiction cfg.fetchResult
            ((run cfg input now s).sessionsCache)).1) := by
    rw [hm2]
    apply link_pipeline_noop
    intro p hp
    have hp' : p ∈ (runLinked cfg input now s).1 := hp
    have hres := link_pipeline_residual (runProc cfg input now s).folders
      (runMapping cfg s).1 (runLoaded input s).2.1 (runProc cfg input now s).events
      (runProc cfg input now s).errors p hp'
    rw [hfolders1, load_mapping_cleanup]
    exact hres.2
  have hfold2 : ((run cfg input now s).folders).map
      (fun e => (e.1, cleanupFolder e.2)) = (run cfg input now s).folders := by
    rw [hfolders1, map_cleanup_idem]
  obtain ⟨e1, e2, e3, e4, e5, e6, e7⟩ := run_noop cfg input now2 (run cfg input now s)
    hload2 hlink2 hfold2
  refine ⟨e1, e2, e3, e4, ?_, ?_, ?_⟩
  · rw [e5, hround]
    rfl
  · rw [e6]
    have hc : (run cfg input now s).sessionsCache = (runMapping cfg s).2 := rfl
    rw [hc]
    show (ensure_session_mapping cfg.jurisdiction cfg.fetchResult
      (ensure_session_mapping cfg.jurisdiction cfg.fetchResult s.sessionsCache).2).2 = _
    rw [ensure_session_mapping_idem]
    rfl
  · rw [e7]
    have hidx : (run cfg input now s).sessionIndexFile =
        some (load_bill_to_session_mapping (runProc cfg input now s).folders
          (runMapping cfg s).1) := by
      have he : (run cfg input now s).sessionIndexFile =
          some ((runLinked cfg input now s).2.2.2) := rfl
      rw [he]
      exact congrArg some (link_pipeline_index (runProc cfg input now s).folders
        (runMapping cfg s).1 (runLoaded input s).2.1 (runProc cfg input now s).events
        (runProc cfg input now s).errors)
    rw [hidx, hm2, hfolders1, load_mapping_cleanup]

/-- Witness for the amended C7 theorem at a concrete batch: a single
well-formed vote event over an empty repository. -/
theorem run_idempotent_witness :
    (∀ p ∈ sampleRunInput,
      wellFormedFile
        (ensure_session_mapping sampleRunCfg.jurisdiction sampleRunCfg.fetchResult
          ({} : PipelineState).sessionsCache).1 p.1 p.2 = true) ∧
    (∀ p ∈ sampleRunInput, ∀ q ∈ sampleRunInput,
      strStartsWith p.1 "bill_" = true → strStartsWith q.1 "bill_" = true →
      billKeyOf p.2 = billKeyOf q.2 → p.2.actions.length = q.2.actions.length) ∧
    ((run sampleRunCfg sampleRunInput sampleNow2
        (run sampleRunCfg sampleRunInput sampleNow {})).folders =
          (run sampleRunCfg sampleRunInput sampleNow {}).folders ∧
      (run sampleRunCfg sampleRunInput sampleNow2
        (run sampleRunCfg sampleRunInput sampleNow {})).events =
          (run sampleRunCfg sampleRunInput sampleNow {}).events ∧
      (run sampleRunCfg sampleRunInput sampleNow2
        (run sampleRunCfg sampleRunInput sampleNow {})).archive =
          (run sampleRunCfg sampleRunInput sampleNow {}).archive ∧
      (run sampleRunCfg sampleRunInput sampleNow2
        (run sampleRunCfg sampleRunInput sampleNow {})).errors =
          (run sampleRunCfg sampleRunInput sampleNow {}).errors ∧
      (run sampleRunCfg sampleRunInput sampleNow2
        (run sampleRunCfg sampleRunInput sampleNow {})).ledgerFile =
          (run sampleRunCfg sampleRunInput sampleNow {}).ledgerFile ∧
      (run sampleRunCfg sampleRunInput sampleNow2
        (run sampleRunCfg sampleRunInput sampleNow {})).sessionsCache =
          (run sampleRunCfg sampleRunInput sampleNow {}).sessionsCache ∧
      (run sampleRunCfg sampleRunInput sampleNow2
        (run sampleRunCfg sampleRunInput sampleNow {})).sessionIndexFile =
          (run sampleRunCfg sampleRunInput sampleNow {}).sessionIndexFile) :=
  ⟨by decide, by decide,
    run_idempotent sampleRunCfg sampleRunInput sampleNow sampleNow2 {}
      (by decide) (by decide)⟩

end WindyCivi
